import Mathlib

/-!
# Particle fountain (`2022/practice11/main.cpp`)

A shallow embedding of the particle simulation of the frame loop and of the
billboard shaders of `src/2022/practice11/main.cpp`.

Conventions of the embedding:

* `float` is an arbitrary linearly ordered field `α` (exact arithmetic, no
  rounding, no NaN); the library functions `exp`, `sqrt`, `cos`, `sin` are
  parameters of the definitions that call them, instantiated with the real
  functions in the theorems that need their properties.
* The two random sources (`rng` behind `std::uniform_real_distribution` and the
  C function `rand`) are streams of values; the generator state is the number
  of values already consumed from each stream.
* The local `particle p;` of the spawn branch is default-initialised in the
  source, so the fields it does not assign are whatever the frame input
  `uninit` holds.
-/

namespace Practice11

/-! ## Data model -/

/-- The type `glm::vec3` / GLSL `vec3`. -/
structure vec3 (α : Type) where
  x : α
  y : α
  z : α

/-- The source record `struct particle` (lines 181-188). -/
structure particle (α : Type) where
  position : vec3 α
  size : α
  angle : α
  velocity : vec3 α
  angle_velocity : α

/-- Componentwise `a + b` on `vec3`. -/
def vec3.add {α : Type} [Add α] (a b : vec3 α) : vec3 α :=
  ⟨a.x + b.x, a.y + b.y, a.z + b.z⟩

/-- Componentwise `a - b` on `vec3`. -/
def vec3.sub {α : Type} [Sub α] (a b : vec3 α) : vec3 α :=
  ⟨a.x - b.x, a.y - b.y, a.z - b.z⟩

/-- The product `v * s` of a vector and a scalar. -/
def vec3.scale {α : Type} [Mul α] (v : vec3 α) (s : α) : vec3 α :=
  ⟨v.x * s, v.y * s, v.z * s⟩

/-- The product `s * v` of a scalar and a vector. -/
def vec3.smul {α : Type} [Mul α] (s : α) (v : vec3 α) : vec3 α :=
  ⟨s * v.x, s * v.y, s * v.z⟩

/-- Unary minus on `vec3`. -/
def vec3.neg {α : Type} [Neg α] (v : vec3 α) : vec3 α :=
  ⟨-v.x, -v.y, -v.z⟩

/-! ## Random sources -/

/-- The values the program obtains from its two generators: `canonical k` is the
`k`-th value in `[0, 1)` that a `std::uniform_real_distribution<float>` draws
through `rng`, and `rand k` is the `k`-th result of the C function `rand()`. -/
structure RandomSource (α : Type) where
  canonical : Nat → α
  rand : Nat → Nat

/-- The state of the generators: how many values each has produced so far. -/
structure RngState where
  rng : Nat
  crand : Nat
deriving DecidableEq

/-- The call `std::uniform_real_distribution<float>{a, b}(rng)`: one value is drawn. -/
def uniform_real {α : Type} [Add α] [Sub α] [Mul α]
    (src : RandomSource α) (a b : α) (st : RngState) : α × RngState :=
  (src.canonical st.rng * (b - a) + a, { st with rng := st.rng + 1 })

/-- The call `rand()`. -/
def crand {α : Type} (src : RandomSource α) (st : RngState) : Nat × RngState :=
  (src.rand st.crand, { st with crand := st.crand + 1 })

/-! ## Emitter and integrator (lines 344-369) -/

/-- The expression `(rand() % 11 / 10.0 / 5.0) + 0.2` for a result `R` of `rand()`. -/
def spawnSize {α : Type} [LinearOrderedField α] (R : Nat) : α :=
  (((R % 11 : Nat) : α) / 10 / 5) + 0.2

/-- The five assignments of lines 347-351, repeated as lines 362-366: they
write `position`, `size` and `angle_velocity` of `p` and nothing else. -/
def respawn {α : Type} [LinearOrderedField α]
    (src : RandomSource α) (st : RngState) (p : particle α) : particle α × RngState :=
  let (px, st) := uniform_real src (-1) 1 st
  let p := { p with position := { p.position with x := px } }
  let p := { p with position := { p.position with y := 0 } }
  let (pz, st) := uniform_real src (-1) 1 st
  let p := { p with position := { p.position with z := pz } }
  let (R, st) := crand src st
  let p := { p with size := spawnSize R }
  let (av, st) := uniform_real src (-5) 5 st
  let p := { p with angle_velocity := av }
  (p, st)

/-- The five update statements of lines 355-359. -/
def integrate {α : Type} [LinearOrderedField α]
    (exp : α → α) (dt : α) (p : particle α) : particle α :=
  let p := { p with velocity := { p.velocity with y := p.velocity.y + dt * 10 } }
  let p := { p with velocity := p.velocity.scale (exp (-dt * 10)) }
  let p := { p with position := p.position.add (p.velocity.scale dt) }
  let p := { p with size := p.size * exp (-dt * 2) }
  let p := { p with angle := p.angle + p.angle_velocity * dt }
  p

/-- The condition of line 361: `p.position.y > 1.f || p.size < 0.001f`. -/
def expired {α : Type} [LinearOrderedField α] (p : particle α) : Bool :=
  decide (p.position.y > 1) || decide (p.size < 0.001)

/-- The body of the loop `for (auto & p : particles)` (lines 355-367). -/
def updateParticle {α : Type} [LinearOrderedField α]
    (src : RandomSource α) (exp : α → α) (dt : α) (st : RngState) (p : particle α) :
    particle α × RngState :=
  let p := integrate exp dt p
  if expired p then respawn src st p else (p, st)

/-- The loop `for (auto & p : particles)` of lines 354-368, front to back. -/
def updateAll {α : Type} [LinearOrderedField α]
    (src : RandomSource α) (exp : α → α) (dt : α) :
    List (particle α) → RngState → List (particle α) × RngState
  | [], st => ([], st)
  | p :: ps, st =>
    let (q, st1) := updateParticle src exp dt st p
    let (qs, st2) := updateAll src exp dt ps st1
    (q :: qs, st2)

/-- The block guarded by `if (!paused)` (lines 345-368): one simulated step.
`uninit` is the content of the default-initialised local `particle p;`. -/
def simulate {α : Type} [LinearOrderedField α]
    (src : RandomSource α) (exp : α → α) (dt : α) (uninit : particle α)
    (ps : List (particle α)) (st : RngState) : List (particle α) × RngState :=
  let (ps, st) :=
    if ps.length != 256 then
      let (p, st) := respawn src st uninit
      (ps ++ [p], st)
    else (ps, st)
  updateAll src exp dt ps st

/-! ## Frame loop (lines 300-410) -/

/-- The key code `SDLK_SPACE`. -/
def SDLK_SPACE : Int := 32
/-- The key code `SDLK_RIGHT`. -/
def SDLK_RIGHT : Int := 1073741903
/-- The key code `SDLK_LEFT`. -/
def SDLK_LEFT : Int := 1073741904
/-- The key code `SDLK_DOWN`. -/
def SDLK_DOWN : Int := 1073741905
/-- The key code `SDLK_UP`. -/
def SDLK_UP : Int := 1073741906

/-- The events `SDL_PollEvent` can deliver, as far as the `switch` of lines
302-324 tells them apart. -/
inductive Event where
  | quit
  | windowResized (data1 data2 : Int)
  | windowOther
  | keyDown (sym : Int)
  | keyUp (sym : Int)
  | other
deriving DecidableEq

/-- The variables of `main` that live across frames. -/
structure State (α : Type) where
  particles : List (particle α)
  gen : RngState
  paused : Bool
  running : Bool
  time : α
  button_down : Int → Bool
  camera_distance : α
  camera_rotation : α
  width : Int
  height : Int

/-- The inputs one iteration of the frame loop receives from outside: the
pending events, the measured frame time and the indeterminate content of the
local `particle p;`. -/
structure FrameInput (α : Type) where
  events : List Event
  dt : α
  uninit : particle α

/-- The state before the first frame (lines 213-214, 240-242, 287-299). -/
def startState {α : Type} [LinearOrderedField α] (width height : Int) : State α :=
  { particles := []
    gen := ⟨0, 0⟩
    paused := false
    running := true
    time := 0
    button_down := fun _ => false
    camera_distance := 2
    camera_rotation := 0
    width := width
    height := height }

/-- One case of the `switch (event.type)` of lines 302-324. -/
def handleEvent {α : Type} (s : State α) : Event → State α
  | Event.quit => { s with running := false }
  | Event.windowResized w h => { s with width := w, height := h }
  | Event.windowOther => s
  | Event.keyDown sym =>
    let s := { s with button_down := fun k => if k = sym then true else s.button_down k }
    if sym = SDLK_SPACE then { s with paused := !s.paused } else s
  | Event.keyUp sym =>
    { s with button_down := fun k => if k = sym then false else s.button_down k }
  | Event.other => s

/-- The loop `for (SDL_Event event; SDL_PollEvent(&event);)` of line 302. -/
def pollEvents {α : Type} (s : State α) (events : List Event) : State α :=
  events.foldl handleEvent s

/-- The camera keys (lines 334-342). -/
def updateCamera {α : Type} [LinearOrderedField α] (s : State α) (dt : α) : State α :=
  let camera_distance :=
    if s.button_down SDLK_UP then s.camera_distance - 3 * dt else s.camera_distance
  let camera_distance :=
    if s.button_down SDLK_DOWN then camera_distance + 3 * dt else camera_distance
  let camera_rotation :=
    if s.button_down SDLK_LEFT then s.camera_rotation - 3 * dt else s.camera_rotation
  let camera_rotation :=
    if s.button_down SDLK_RIGHT then camera_rotation + 3 * dt else camera_rotation
  { s with camera_distance := camera_distance, camera_rotation := camera_rotation }

/-- One iteration of the body of `while (running)` (lines 302-369); the
rendering calls that follow do not write any of the state variables. -/
def frame {α : Type} [LinearOrderedField α]
    (src : RandomSource α) (exp : α → α) (s : State α) (inp : FrameInput α) : State α :=
  let s := pollEvents s inp.events
  if !s.running then s
  else
    let dt := inp.dt
    let s := { s with time := s.time + dt }
    let s := updateCamera s dt
    if !s.paused then
      let r := simulate src exp dt inp.uninit s.particles s.gen
      { s with particles := r.1, gen := r.2 }
    else s

/-- The loop `while (running)` fed with the inputs of successive frames. -/
def run {α : Type} [LinearOrderedField α]
    (src : RandomSource α) (exp : α → α) : State α → List (FrameInput α) → State α
  | s, [] => s
  | s, inp :: rest => if s.running then run src exp (frame src exp s inp) rest else s

/-! ## Billboard shaders (lines 65-120) -/

/-- The GLSL type `vec2`. -/
structure vec2 (α : Type) where
  x : α
  y : α

/-- The GLSL type `vec4`. -/
structure vec4 (α : Type) where
  x : α
  y : α
  z : α
  w : α

/-- The GLSL type `mat4`, stored by columns. -/
structure mat4 (α : Type) where
  c0 : vec4 α
  c1 : vec4 α
  c2 : vec4 α
  c3 : vec4 α

/-- The GLSL builtin `dot` on `vec3`. -/
def dot {α : Type} [Add α] [Mul α] (a b : vec3 α) : α :=
  a.x * b.x + a.y * b.y + a.z * b.z

/-- The GLSL builtin `cross`. -/
def cross {α : Type} [Sub α] [Mul α] (a b : vec3 α) : vec3 α :=
  ⟨a.y * b.z - b.y * a.z, a.z * b.x - b.z * a.x, a.x * b.y - b.x * a.y⟩

/-- The library functions the geometry shader calls on scalars. -/
structure Builtins (α : Type) where
  sqrt : α → α
  cos : α → α
  sin : α → α

/-- The GLSL builtin `length` on `vec3`: `sqrt(dot(v, v))`. -/
def length {α : Type} [Add α] [Mul α] (fn : Builtins α) (v : vec3 α) : α :=
  fn.sqrt (dot v v)

/-- The GLSL builtin `normalize` on `vec3`: `v / length(v)`. -/
def normalize {α : Type} [Add α] [Mul α] [Div α] (fn : Builtins α) (v : vec3 α) : vec3 α :=
  ⟨v.x / length fn v, v.y / length fn v, v.z / length fn v⟩

/-- Componentwise `a + b` on `vec4`. -/
def vec4.add {α : Type} [Add α] (a b : vec4 α) : vec4 α :=
  ⟨a.x + b.x, a.y + b.y, a.z + b.z, a.w + b.w⟩

/-- The product `v * s` of a `vec4` and a scalar. -/
def vec4.scale {α : Type} [Mul α] (v : vec4 α) (s : α) : vec4 α :=
  ⟨v.x * s, v.y * s, v.z * s, v.w * s⟩

/-- The GLSL product `m * v` of a matrix and a column vector. -/
def mat4.mulVec {α : Type} [Add α] [Mul α] (m : mat4 α) (v : vec4 α) : vec4 α :=
  (((m.c0.scale v.x).add (m.c1.scale v.y)).add (m.c2.scale v.z)).add (m.c3.scale v.w)

/-- The GLSL product `a * b` of two matrices. -/
def mat4.mul {α : Type} [Add α] [Mul α] (a b : mat4 α) : mat4 α :=
  ⟨a.mulVec b.c0, a.mulVec b.c1, a.mulVec b.c2, a.mulVec b.c3⟩

/-- The outputs of the vertex shader for one point. -/
structure VertexOut (α : Type) where
  gl_Position : vec4 α
  gl_PointSize : α
  out_angle : α

/-- The outputs of the geometry shader at one `EmitVertex()`. -/
structure Emitted (α : Type) where
  gl_Position : vec4 α
  texcoord : vec2 α

/-- The vertex shader `main` (lines 74-79). The attributes are fetched from the
particle record as set up in lines 259-264: `in_position` at offset 0,
`in_size` at offset 12, `in_angle` at offset 16. -/
def vertexMain {α : Type} (p : particle α) : VertexOut α :=
  { gl_Position := ⟨p.position.x, p.position.y, p.position.z, p.size⟩
    gl_PointSize := p.size
    out_angle := p.angle }

/-- Line 105: `vec3 Z = normalize(camera_position - center)`. -/
def billboardZ {α : Type} [Field α] (fn : Builtins α) (camera_position center : vec3 α) : vec3 α :=
  normalize fn (camera_position.sub center)

/-- Line 106: `vec3 X1 = normalize(cross(vec3(0, 1, 0), Z))`. -/
def billboardX1 {α : Type} [Field α] (fn : Builtins α) (camera_position center : vec3 α) :
    vec3 α :=
  normalize fn (cross ⟨0, 1, 0⟩ (billboardZ fn camera_position center))

/-- Line 107: `vec3 Y1 = normalize(cross(Z, X1))`. -/
def billboardY1 {α : Type} [Field α] (fn : Builtins α) (camera_position center : vec3 α) :
    vec3 α :=
  normalize fn (cross (billboardZ fn camera_position center)
    (billboardX1 fn camera_position center))

/-- Line 109: `vec3 X = X1 * cos(angle) + Y1 * sin(angle)`. -/
def billboardX {α : Type} [Field α] (fn : Builtins α) (camera_position center : vec3 α)
    (angle : α) : vec3 α :=
  ((billboardX1 fn camera_position center).scale (fn.cos angle)).add
    ((billboardY1 fn camera_position center).scale (fn.sin angle))

/-- Line 110: `vec3 Y = -X1 * sin(angle) + Y1 * cos(angle)`. -/
def billboardY {α : Type} [Field α] (fn : Builtins α) (camera_position center : vec3 α)
    (angle : α) : vec3 α :=
  ((billboardX1 fn camera_position center).neg.scale (fn.sin angle)).add
    ((billboardY1 fn camera_position center).scale (fn.cos angle))

/-- The uniforms of the geometry shader (lines 85-88). -/
structure Uniforms (α : Type) where
  model : mat4 α
  view : mat4 α
  projection : mat4 α
  camera_position : vec3 α

/-- The body of the inner loop (lines 105-114) for given `i` and `j`: the vertex
that `EmitVertex()` emits. -/
def emitVertex {α : Type} [Field α] (fn : Builtins α) (u : Uniforms α)
    (center : vec3 α) (size angle : α) (i j : Int) : Emitted α :=
  let X := billboardX fn u.camera_position center angle
  let Y := billboardY fn u.camera_position center angle
  let world := (center.add (vec3.smul ((i : α) * size) X)).add (vec3.smul ((j : α) * size) Y)
  { gl_Position := ((u.projection.mul u.view).mul u.model).mulVec ⟨world.x, world.y, world.z, 1⟩
    texcoord := ⟨(((i + 1).tdiv 2 : Int) : α), (((j + 1).tdiv 2 : Int) : α)⟩ }

/-- The loop `for (int j = -1; j <= 1; j+=2)` of line 104, entered with the
current value of `j`. -/
def innerLoop {α : Type} [Field α] (fn : Builtins α) (u : Uniforms α)
    (center : vec3 α) (size angle : α) (i j : Int) : List (Emitted α) :=
  if j ≤ 1 then
    emitVertex fn u center size angle i j :: innerLoop fn u center size angle i (j + 2)
  else []
termination_by (2 - j).toNat
decreasing_by omega

/-- The loop `for (int i = -1; i <= 1; i+=2)` of line 103, entered with the
current value of `i`. -/
def outerLoop {α : Type} [Field α] (fn : Builtins α) (u : Uniforms α)
    (center : vec3 α) (size angle : α) (i : Int) : List (Emitted α) :=
  if i ≤ 1 then
    innerLoop fn u center size angle i (-1) ++ outerLoop fn u center size angle (i + 2)
  else []
termination_by (2 - i).toNat
decreasing_by omega

/-- The geometry shader `main` (lines 98-118): the vertices of the triangle
strip emitted for the point `gl_in[0]`. -/
def geometryMain {α : Type} [Field α] (fn : Builtins α) (u : Uniforms α)
    (gl_in : VertexOut α) : List (Emitted α) :=
  let center : vec3 α := ⟨gl_in.gl_Position.x, gl_in.gl_Position.y, gl_in.gl_Position.z⟩
  let size := gl_in.gl_PointSize
  let angle := gl_in.out_angle
  outerLoop fn u center size angle (-1)

/-- The expression `center + i * size * X + j * size * Y` of line 112: the corner for
`(i, j)` before the model, view and projection matrices are applied. -/
def cornerPosition {α : Type} [Field α] (fn : Builtins α) (camera_position center : vec3 α)
    (size angle : α) (i j : Int) : vec3 α :=
  (center.add (vec3.smul ((i : α) * size) (billboardX fn camera_position center angle))).add
    (vec3.smul ((j : α) * size) (billboardY fn camera_position center angle))


/-- Successive simulated steps: the block of `simulate` executed once per entry of the
list, each entry giving the frame time and the content of the local `particle p;` of
that frame. -/
def simulateSteps {α : Type} [LinearOrderedField α]
    (src : RandomSource α) (exp : α → α) :
    List (α × particle α) → List (particle α) × RngState → List (particle α) × RngState
  | [], r => r
  | step :: rest, r => simulateSteps src exp rest (simulate src exp step.1 step.2 r.1 r.2)


/-! ## Fragment shader and colour ramp (lines 122-140, 270-281) -/

/-- The vector `tex_colors` after the assignments of lines 270-273. -/
def tex_colors {α : Type} [Field α] : List (vec4 α) :=
  [⟨1, 0, 0, 1⟩, ⟨1, 1, 0, 1⟩, ⟨1, 1, 1, 1⟩]

/-- The weighted sum `(1 - f) * a + f * b` of two texels. -/
def vec4.mix {α : Type} [Field α] (a b : vec4 α) (f : α) : vec4 α :=
  (a.scale (1 - f)).add (b.scale f)

/-- The GLSL builtin `texture` on a `sampler1D` bound to a one-level texture holding
`texels`, with the filters `GL_LINEAR` of lines 280-281 and the wrap mode `GL_REPEAT`,
which is the initial value and which the program never changes. As the OpenGL
specification defines linear filtering, with `n` texels and `u = s * n` the result is
`(1 - f) * texel[i0 mod n] + f * texel[(i0 + 1) mod n]` for `i0 = floor(u - 1/2)` and
`f = frac(u - 1/2)`. -/
def texture1D {α : Type} [LinearOrderedField α] [FloorRing α]
    (texels : List (vec4 α)) (s : α) : vec4 α :=
  let n : Int := texels.length
  let u := s * (n : α) - 1 / 2
  let i0 := Int.floor u
  let f := u - (i0 : α)
  vec4.mix (texels.getD (i0 % n).toNat ⟨0, 0, 0, 0⟩)
    (texels.getD ((i0 + 1) % n).toNat ⟨0, 0, 0, 0⟩) f

/-- The fragment shader `main` (lines 132-139): the value written to `out_color`. The
two samplers are the functions from a coordinate to the sampled value. -/
def fragmentMain {α : Type} (particle_texture : vec2 α → vec4 α)
    (particle_color : α → vec4 α) (texcoord : vec2 α) : vec4 α :=
  let alpha := (particle_texture texcoord).x
  let out_color := particle_color alpha
  let out_color := { out_color with w := alpha }
  out_color

/-! ## Vertex buffer (lines 181-188, 259-264, 390-391) -/

/-- The value of `sizeof(float)`: 4 bytes, as the byte offsets 12 and 16 of lines 262
and 264 presuppose. -/
def sizeof_float : Nat := 4

/-- The members of `struct particle` in declaration order, one entry per `float`. -/
def particle.floats {α : Type} (p : particle α) : List α :=
  [p.position.x, p.position.y, p.position.z, p.size, p.angle,
   p.velocity.x, p.velocity.y, p.velocity.z, p.angle_velocity]

/-- The value of `sizeof(particle)`: nine members of type `float`, no padding. -/
def sizeof_particle : Nat := 9 * sizeof_float

/-- The call `glBufferData(GL_ARRAY_BUFFER, particles.size() * sizeof(particle),
particles.data(), GL_STATIC_DRAW)` of line 391: the number of bytes copied and the
floats they hold, in buffer order. -/
def bufferData {α : Type} (particles : List (particle α)) : Nat × List α :=
  (particles.length * sizeof_particle, particles.flatMap particle.floats)

/-- The floats vertex `k` reads through an attribute set up by
`glVertexAttribPointer(index, size, GL_FLOAT, GL_FALSE, stride, pointer)`: `size`
floats starting at byte `pointer + k * stride` of the buffer. -/
def fetchAttrib {α : Type} (buffer : List α) (size stride pointer : Nat) (k : Nat) : List α :=
  (buffer.drop ((pointer + k * stride) / sizeof_float)).take size


end Practice11

/-!
# Text rendering (`2022/practice15/main.cpp`)

The fragment shader of the text demo, with the conventions of the embedding above.
-/

namespace Practice15

/-- The function `median` of lines 73-75; a `vec3` has the channels `r`, `g`, `b` as
`x`, `y`, `z`. -/
def median {α : Type} [LinearOrder α] (v : Practice11.vec3 α) : α :=
  max (min v.x v.y) (min (max v.x v.y) v.z)

/-! ## Glyph geometry of the frame loop (lines 96-99, 232-343) -/

/-- The type `glm::vec2`. -/
structure vec2 (α : Type) where
  x : α
  y : α

/-- The source record `struct vertex` (lines 96-99). -/
structure vertex (α : Type) where
  position : vec2 α
  texcoord : vec2 α

/-- One glyph of the font. Its declaration is in `msdf_loader.hpp`, which is not among
the sources; the fields are those that lines 291-310 read, as numbers. -/
structure glyph (α : Type) where
  x : α
  y : α
  width : α
  height : α
  xoffset : α
  yoffset : α
  advance : α

/-- What the rebuild of the geometry reads from outside the loop: the table
`font.glyphs` (`none` where `at` throws), the size of the font texture, and the two
constants `std::numeric_limits<float>::max()` and `min()`. -/
structure Env (α : Type) where
  glyphs : Nat → Option (glyph α)
  texture_width : α
  texture_height : α
  float_max : α
  float_min : α

/-- The array `new_symbol` after the assignments of lines 291-302. -/
def glyphVertices {α : Type} [Field α] (env : Env α) (pen : vec2 α) (g : glyph α) :
    List (vertex α) :=
  [ ⟨⟨pen.x + g.xoffset, pen.y + g.yoffset⟩,
     ⟨g.x / env.texture_width, g.y / env.texture_height⟩⟩,
    ⟨⟨pen.x + g.xoffset + g.width, pen.y + g.yoffset + g.height⟩,
     ⟨(g.x + g.width) / env.texture_width, (g.y + g.height) / env.texture_height⟩⟩,
    ⟨⟨pen.x + g.xoffset + g.width, pen.y + g.yoffset⟩,
     ⟨(g.x + g.width) / env.texture_width, g.y / env.texture_height⟩⟩,
    ⟨⟨pen.x + g.xoffset, pen.y + g.yoffset⟩,
     ⟨g.x / env.texture_width, g.y / env.texture_height⟩⟩,
    ⟨⟨pen.x + g.xoffset, pen.y + g.yoffset + g.height⟩,
     ⟨g.x / env.texture_width, (g.y + g.height) / env.texture_height⟩⟩,
    ⟨⟨pen.x + g.xoffset + g.width, pen.y + g.yoffset + g.height⟩,
     ⟨(g.x + g.width) / env.texture_width, (g.y + g.height) / env.texture_height⟩⟩ ]

/-- The variables the loop of lines 288-312 writes. -/
structure Rebuild (α : Type) where
  vertices : List (vertex α)
  pen : vec2 α
  bbox_min : vec2 α
  bbox_max : vec2 α
  size : Int

/-- The loop `for (auto el : new_symbol)` of lines 304-309. -/
def growBox {α : Type} [LinearOrderedField α] (new_symbol : List (vertex α))
    (bbox : vec2 α × vec2 α) : vec2 α × vec2 α :=
  new_symbol.foldl
    (fun b el => (⟨min b.1.x el.position.x, min b.1.y el.position.y⟩,
      ⟨max b.2.x el.position.x, max b.2.y el.position.y⟩)) bbox

/-- The body of the loop `for (char32_t el : text)` (lines 289-311); `none` when
`font.glyphs.at(el)` throws. -/
def rebuildGlyph {α : Type} [LinearOrderedField α] (env : Env α) (r : Rebuild α)
    (el : Nat) : Option (Rebuild α) :=
  match env.glyphs el with
  | none => none
  | some g =>
    let new_symbol := glyphVertices env r.pen g
    let bbox := growBox new_symbol (r.bbox_min, r.bbox_max)
    some { vertices := r.vertices ++ new_symbol
           pen := { r.pen with x := r.pen.x + g.advance }
           bbox_min := bbox.1
           bbox_max := bbox.2
           size := r.size + 6 }

/-- The loop `for (char32_t el : text)` of lines 288-312 over the remaining characters. -/
def rebuildLoop {α : Type} [LinearOrderedField α] (env : Env α) :
    List Nat → Rebuild α → Option (Rebuild α)
  | [], r => some r
  | el :: rest, r =>
    match rebuildGlyph env r el with
    | none => none
    | some r1 => rebuildLoop env rest r1

/-- The key code `SDLK_BACKSPACE`. -/
def SDLK_BACKSPACE : Int := 8

/-- The events `SDL_PollEvent` can deliver, as far as the `switch` of lines 245-273
tells them apart. A text input event carries the characters of `event.text.text` and
the value that `event.key.keysym.sym` reads from it. -/
inductive Event where
  | quit
  | windowResized (data1 data2 : Int)
  | windowOther
  | keyDown (sym : Int)
  | textInput (text : List Nat) (sym : Int)
  | keyUp (sym : Int)
  | other

/-- The variables of `main` that live across frames, and `buffer`, the content of the
vertex buffer as last set by `glBufferData`. The characters of `text` are kept as the
values the loop of line 288 converts them to. -/
structure State (α : Type) where
  text : List Nat
  text_changed : Bool
  size : Int
  vertices : List (vertex α)
  buffer : List (vertex α)
  bbox_min : vec2 α
  bbox_max : vec2 α
  running : Bool
  button_down : Int → Bool
  width : Int
  height : Int

/-- The state before the first frame (lines 163-164, 206, 232-242): the text is
`"Hello, world!"`. -/
def startState {α : Type} [Field α] (width height : Int) : State α :=
  { text := [72, 101, 108, 108, 111, 44, 32, 119, 111, 114, 108, 100, 33]
    text_changed := true
    size := 0
    vertices := []
    buffer := []
    bbox_min := ⟨0, 0⟩
    bbox_max := ⟨0, 0⟩
    running := true
    button_down := fun _ => false
    width := width
    height := height }

/-- One case of the `switch (event.type)` of lines 245-273; the case `SDL_TEXTINPUT`
has no `break` and falls through into `SDL_KEYUP`. -/
def handleEvent {α : Type} (s : State α) : Event → State α
  | Event.quit => { s with running := false }
  | Event.windowResized w h => { s with width := w, height := h }
  | Event.windowOther => s
  | Event.keyDown sym =>
    let s := { s with button_down := fun k => if k = sym then true else s.button_down k }
    if sym = SDLK_BACKSPACE ∧ ¬ s.text.isEmpty then
      { s with text := s.text.dropLast, text_changed := true }
    else s
  | Event.textInput text sym =>
    let s := { s with text := s.text ++ text, text_changed := true }
    { s with button_down := fun k => if k = sym then false else s.button_down k }
  | Event.keyUp sym =>
    { s with button_down := fun k => if k = sym then false else s.button_down k }
  | Event.other => s

/-- The loop `for (SDL_Event event; SDL_PollEvent(&event);)` of line 245. -/
def pollEvents {α : Type} (s : State α) (events : List Event) : State α :=
  events.foldl handleEvent s

/-- The block guarded by `if (text_changed)` (lines 283-314); `none` when a glyph
lookup throws. The variable `size` enters the loop with the value it has. -/
def rebuild {α : Type} [LinearOrderedField α] (env : Env α) (s : State α) :
    Option (State α) :=
  match rebuildLoop env s.text
      { vertices := []
        pen := ⟨0, 0⟩
        bbox_min := ⟨env.float_max, env.float_max⟩
        bbox_max := ⟨env.float_min, env.float_min⟩
        size := s.size } with
  | none => none
  | some r =>
    some { s with vertices := r.vertices, buffer := r.vertices, bbox_min := r.bbox_min,
                  bbox_max := r.bbox_max, size := r.size, text_changed := false }

/-- One iteration of the body of `while (running)` (lines 245-342) as far as it writes
the state; `none` when the rebuild throws. -/
def frame {α : Type} [LinearOrderedField α] (env : Env α) (s : State α)
    (events : List Event) : Option (State α) :=
  let s := pollEvents s events
  if !s.running then some s
  else if s.text_changed then rebuild env s
  else some s

/-- The argument `count` of the call `glDrawArrays(GL_TRIANGLES, 0, size)` of line 340. -/
def drawCount {α : Type} (s : State α) : Int := s.size


end Practice15

/-!
# Bezier curve editor (`2022/practice3/main.cpp`)

The curve evaluation and sampling of the editor. The type `int` is the 32-bit two's
complement integer and `std::size_t` the unsigned 64-bit integer.
-/

namespace Practice3

/-- The source record `struct vec2` (lines 110-114). -/
structure vec2 (α : Type) where
  x : α
  y : α

/-- The source record `struct vertex` (lines 116-121); the four bytes of `color` are
numbers below 256. -/
structure vertex (α : Type) where
  position : vec2 α
  color : Nat × Nat × Nat × Nat
  dist : α

/-- The loop `for (std::size_t i = 0; i + k + 1 < vertices.size(); ++i)` of lines
132-135, entered with the current value of `i`; `n` is `vertices.size()`. The two
assignments update `points[i]` in place; the reads of `points[i]` and `points[i + 1]`
are within bounds when `points` has `n` elements. -/
def bezierInner {α : Type} [Field α] (t : α) (n k : Nat) (i : Nat)
    (points : List (vec2 α)) : List (vec2 α) :=
  if i + k + 1 < n then
    let points := points.set i
      { points.getD i ⟨0, 0⟩ with
        x := (points.getD i ⟨0, 0⟩).x * (1 - t) + (points.getD (i + 1) ⟨0, 0⟩).x * t }
    let points := points.set i
      { points.getD i ⟨0, 0⟩ with
        y := (points.getD i ⟨0, 0⟩).y * (1 - t) + (points.getD (i + 1) ⟨0, 0⟩).y * t }
    bezierInner t n k (i + 1) points
  else points
termination_by n - (i + k + 1)

/-- The loop `for (std::size_t k = 0; k + 1 < vertices.size(); ++k)` of lines 131-136,
entered with the current value of `k`. -/
def bezierOuter {α : Type} [Field α] (t : α) (n : Nat) (k : Nat)
    (points : List (vec2 α)) : List (vec2 α) :=
  if k + 1 < n then bezierOuter t n (k + 1) (bezierInner t n k 0 points) else points
termination_by n - (k + 1)

/-- The function `bezier` (lines 123-138). The result is `none` when the final read
`points[0]` is out of bounds, which is the case for an empty vector of vertices. -/
def bezier {α : Type} [Field α] (vertices : List (vertex α)) (t : α) : Option (vec2 α) :=
  let points := vertices.map vertex.position
  let points := bezierOuter t vertices.length 0 points
  points[0]?

/-- The conversion of an unsigned value to `int`: its residue modulo `2^32` in the
range from `-2^31` to `2^31 - 1`. -/
def toInt (n : Nat) : Int :=
  (((n + 2147483648) % 4294967296 : Nat) : Int) - 2147483648

/-- The initialiser of line 158, `int size = sample.size() * quality`, for a vector
of `n` vertices: `quality` is converted to `std::size_t`, the product is taken modulo
`2^64` and converted to `int`. -/
def bezierSize (n : Nat) (quality : Int) : Int :=
  toInt ((n * (quality % 18446744073709551616).toNat) % 18446744073709551616)

/-- The loop `for (int i = 0; i < size; i++)` of lines 159-172, entered with the
current value of `i` and the current content of `s_bezier`; `hypot` is `std::hypot`. -/
def updateBezierLoop {α : Type} [Field α] (hypot : α → α → α) (sample : List (vertex α))
    (size : Int) (i : Int) (s_bezier : List (vertex α)) : Option (List (vertex α)) :=
  if i < size then
    match bezier sample ((i : α) / ((size - 1 : Int) : α)) with
    | none => none
    | some currPos =>
      let dist_b : α :=
        match s_bezier.getLast? with
        | some last =>
          hypot (currPos.x - last.position.x) (currPos.y - last.position.y) + last.dist
        | none => 0
      updateBezierLoop hypot sample size (i + 1)
        (s_bezier ++ [⟨currPos, (1, 0, 0, 0), dist_b⟩])
  else some s_bezier
termination_by (size - i).toNat
decreasing_by omega

/-- The function `updateBezierVector` (lines 156-173): the new content of `s_bezier`,
or `none` when a call of `bezier` reads out of bounds. -/
def updateBezierVector {α : Type} [Field α] (hypot : α → α → α) (sample : List (vertex α))
    (s_bezier : List (vertex α)) (quality : Int) : Option (List (vertex α)) :=
  let s_bezier : List (vertex α) := s_bezier.drop s_bezier.length
  let size := bezierSize sample.length quality
  updateBezierLoop hypot sample size 0 s_bezier

/-- The Bezier curve point in one coordinate, written from the formula of the claim for
comparison with `bezier`: the sum over `m = 0..k` of
`C(k, m) * (1 - t)^(k - m) * t^m * a (i + m)`, where `a` is the sequence of that
coordinate of the control points. -/
def bernsteinSum {α : Type} [Field α] (t : α) (a : Nat → α) (k i : Nat) : α :=
  ∑ m ∈ Finset.range (k + 1), (k.choose m : α) * (1 - t) ^ (k - m) * t ^ m * a (i + m)


end Practice3

namespace Practice11

/-! ## Theorems -/

theorem updateAll_length {α : Type} [LinearOrderedField α]
    (src : RandomSource α) (exp : α → α) (dt : α) (ps : List (particle α)) (st : RngState) :
    (updateAll src exp dt ps st).1.length = ps.length := by
  induction ps generalizing st with
  | nil => rfl
  | cons p ps ih => simp [updateAll, ih]

theorem simulate_length {α : Type} [LinearOrderedField α]
    (src : RandomSource α) (exp : α → α) (dt : α) (uninit : particle α)
    (ps : List (particle α)) (st : RngState) :
    (simulate src exp dt uninit ps st).1.length =
      if ps.length = 256 then 256 else ps.length + 1 := by
  unfold simulate
  by_cases h : ps.length = 256
  · simp [h, updateAll_length]
  · simp [h, updateAll_length]

theorem handleEvent_particles {α : Type} (s : State α) (e : Event) :
    (handleEvent s e).particles = s.particles ∧ (handleEvent s e).gen = s.gen := by
  cases e <;> simp [handleEvent]
  all_goals split_ifs <;> simp

theorem pollEvents_particles {α : Type} (s : State α) (events : List Event) :
    (pollEvents s events).particles = s.particles ∧ (pollEvents s events).gen = s.gen := by
  unfold pollEvents
  induction events generalizing s with
  | nil => simp
  | cons e es ih =>
    simp only [List.foldl_cons]
    rw [(ih (handleEvent s e)).1, (ih (handleEvent s e)).2]
    exact handleEvent_particles s e

theorem frame_effect {α : Type} [LinearOrderedField α]
    (src : RandomSource α) (exp : α → α) (s : State α) (inp : FrameInput α) :
    (frame src exp s inp).paused = (pollEvents s inp.events).paused ∧
    (frame src exp s inp).running = (pollEvents s inp.events).running ∧
    (frame src exp s inp).particles =
      (if (pollEvents s inp.events).running && !(pollEvents s inp.events).paused then
        (simulate src exp inp.dt inp.uninit s.particles s.gen).1 else s.particles) ∧
    (frame src exp s inp).gen =
      (if (pollEvents s inp.events).running && !(pollEvents s inp.events).paused then
        (simulate src exp inp.dt inp.uninit s.particles s.gen).2 else s.gen) := by
  have hp := pollEvents_particles s inp.events
  unfold frame updateCamera
  simp only []
  split_ifs <;> simp_all

theorem frame_length_le {α : Type} [LinearOrderedField α]
    (src : RandomSource α) (exp : α → α) (s : State α) (inp : FrameInput α)
    (h : s.particles.length ≤ 256) : (frame src exp s inp).particles.length ≤ 256 := by
  rw [(frame_effect src exp s inp).2.2.1]
  split_ifs
  · rw [simulate_length]; split_ifs <;> omega
  · exact h

theorem run_length_le {α : Type} [LinearOrderedField α]
    (src : RandomSource α) (exp : α → α) (s : State α) (inputs : List (FrameInput α))
    (h : s.particles.length ≤ 256) : (run src exp s inputs).particles.length ≤ 256 := by
  induction inputs generalizing s with
  | nil => simpa [run] using h
  | cons inp rest ih =>
    unfold run
    split_ifs
    · exact ih _ (frame_length_le src exp s inp h)
    · exact h

/-- C1 (pool bound): starting from the empty pool of `startState`, after any finite
sequence of frames, whatever their events (pause toggles included), frame times and
random draws, the pool holds at most 256 particles. -/
theorem pool_bound {α : Type} [LinearOrderedField α]
    (src : RandomSource α) (exp : α → α) (width height : Int) (inputs : List (FrameInput α)) :
    (run src exp (startState width height) inputs).particles.length ≤ 256 :=
  run_length_le src exp _ inputs (by simp [startState])

theorem spawnSize_bounds {α : Type} [LinearOrderedField α] (R : Nat) :
    (0.2 : α) ≤ spawnSize R ∧ (spawnSize R : α) ≤ 0.4 := by
  unfold spawnSize
  have h : R % 11 ≤ 10 := by omega
  have h1 : (((R % 11 : Nat) : α)) ≤ 10 := by exact_mod_cast h
  have h0 : (0 : α) ≤ ((R % 11 : Nat) : α) := Nat.cast_nonneg _
  constructor
  · have : (0 : α) ≤ ((R % 11 : Nat) : α) / 10 / 5 := by positivity
    linarith
  · have : ((R % 11 : Nat) : α) / 10 / 5 ≤ 0.2 := by
      rw [div_div, div_le_iff₀ (by norm_num)]
      norm_num
      exact h
    norm_num at this ⊢
    linarith

theorem respawn_fields {α : Type} [LinearOrderedField α]
    (src : RandomSource α) (st : RngState) (p : particle α) :
    (respawn src st p).1 =
      { position := ⟨src.canonical st.rng * (1 - -1) + -1, 0,
                     src.canonical (st.rng + 1) * (1 - -1) + -1⟩
        size := spawnSize (src.rand st.crand)
        angle := p.angle
        velocity := p.velocity
        angle_velocity := src.canonical (st.rng + 2) * (5 - -5) + -5 } ∧
    (respawn src st p).2 = ⟨st.rng + 3, st.crand + 1⟩ := by
  simp [respawn, uniform_real, crand]

theorem updateParticle_valid {α : Type} [LinearOrderedField α]
    (src : RandomSource α) (exp : α → α) (dt : α) (st : RngState) (p : particle α) :
    (0.001 : α) ≤ (updateParticle src exp dt st p).1.size ∧
    (updateParticle src exp dt st p).1.position.y ≤ 1 := by
  unfold updateParticle
  simp only []
  split_ifs with h
  · rw [(respawn_fields src st _).1]
    simp only []
    have := (spawnSize_bounds (α := α) (src.rand st.crand)).1
    constructor
    · norm_num at this ⊢; linarith
    · exact zero_le_one
  · simp only [expired, Bool.or_eq_true, decide_eq_true_eq, not_or, not_lt] at h
    exact ⟨h.2, h.1⟩

theorem updateAll_forall {α : Type} [LinearOrderedField α]
    (src : RandomSource α) (exp : α → α) (dt : α) (P : particle α → Prop)
    (hP : ∀ st p, P (updateParticle src exp dt st p).1)
    (ps : List (particle α)) (st : RngState) :
    ∀ q ∈ (updateAll src exp dt ps st).1, P q := by
  induction ps generalizing st with
  | nil => simp [updateAll]
  | cons p ps ih =>
    intro q hq
    simp only [updateAll, List.mem_cons] at hq
    rcases hq with rfl | hq
    · exact hP st p
    · exact ih _ q hq

/-- C2 (expiry invariant): after a simulated step, for any frame time, any prior pool
and any random draws, every particle of the pool has `size ≥ 0.001`, `position.y ≤ 1`
and hence `size > 0`; a particle whose integrated state meets the expiry condition
leaves the step with `position.y = 0` and `size ≥ 0.2`. -/
theorem expiry_invariant {α : Type} [LinearOrderedField α]
    (src : RandomSource α) (exp : α → α) (dt : α) (uninit : particle α)
    (ps : List (particle α)) (st : RngState) :
    (∀ q ∈ (simulate src exp dt uninit ps st).1,
      (0.001 : α) ≤ q.size ∧ q.position.y ≤ 1 ∧ 0 < q.size) ∧
    (∀ (p : particle α) (st1 : RngState), expired (integrate exp dt p) = true →
      (updateParticle src exp dt st1 p).1.position.y = 0 ∧
      (0.2 : α) ≤ (updateParticle src exp dt st1 p).1.size) := by
  constructor
  · unfold simulate
    simp only []
    apply updateAll_forall
    intro st1 p
    have h := updateParticle_valid src exp dt st1 p
    refine ⟨h.1, h.2, lt_of_lt_of_le ?_ h.1⟩
    norm_num
  · intro p st1 h
    unfold updateParticle
    simp only [h, if_true]
    rw [(respawn_fields src st1 _).1]
    exact ⟨rfl, (spawnSize_bounds _).1⟩

/-- A concrete reset for C2: the particle at height 1 with zero velocity, stepped by
one second with the real exponential, rises above 1 and is reset. -/
theorem expiry_invariant_witness :
    expired (integrate Real.exp 1
      (⟨⟨0, 1, 0⟩, 1, 0, ⟨0, 0, 0⟩, 0⟩ : particle ℝ)) = true ∧
    (updateParticle (⟨fun _ => 0, fun _ => 0⟩ : RandomSource ℝ) Real.exp 1 ⟨0, 0⟩
      (⟨⟨0, 1, 0⟩, 1, 0, ⟨0, 0, 0⟩, 0⟩ : particle ℝ)).1.position.y = 0 ∧
    (0.2 : ℝ) ≤ (updateParticle (⟨fun _ => 0, fun _ => 0⟩ : RandomSource ℝ) Real.exp 1 ⟨0, 0⟩
      (⟨⟨0, 1, 0⟩, 1, 0, ⟨0, 0, 0⟩, 0⟩ : particle ℝ)).1.size := by
  have h : expired (integrate Real.exp 1
      (⟨⟨0, 1, 0⟩, 1, 0, ⟨0, 0, 0⟩, 0⟩ : particle ℝ)) = true := by
    simp [expired, integrate, vec3.add, vec3.scale]
    left
    positivity
  exact ⟨h, (expiry_invariant (⟨fun _ => 0, fun _ => 0⟩ : RandomSource ℝ) Real.exp 1
    ⟨⟨0, 0, 0⟩, 0, 0, ⟨0, 0, 0⟩, 0⟩ [] ⟨0, 0⟩).2 _ ⟨0, 0⟩ h⟩

/-- C3 (integrator step): for a particle that does not expire in the step, the step
yields `velocity = (velocity + (0, 10 dt, 0)) * exp(-10 dt)`, `position = position +
velocity * dt` with the updated velocity, `size = size * exp(-2 dt)`, `angle = angle +
angle_velocity * dt`, leaves `angle_velocity` as it was and draws no random value. -/
theorem integrator_step {α : Type} [LinearOrderedField α]
    (src : RandomSource α) (exp : α → α) (dt : α) (st : RngState) (p : particle α)
    (h : expired (integrate exp dt p) = false) :
    (updateParticle src exp dt st p).1 =
      { velocity := ⟨p.velocity.x * exp (-(10 * dt)),
                     (p.velocity.y + 10 * dt) * exp (-(10 * dt)),
                     p.velocity.z * exp (-(10 * dt))⟩
        position := ⟨p.position.x + p.velocity.x * exp (-(10 * dt)) * dt,
                     p.position.y + (p.velocity.y + 10 * dt) * exp (-(10 * dt)) * dt,
                     p.position.z + p.velocity.z * exp (-(10 * dt)) * dt⟩
        size := p.size * exp (-(2 * dt))
        angle := p.angle + p.angle_velocity * dt
        angle_velocity := p.angle_velocity } ∧
    (updateParticle src exp dt st p).2 = st := by
  unfold updateParticle
  simp only [h]
  have e1 : -dt * 10 = -(10 * dt) := by ring
  have e2 : -dt * 2 = -(2 * dt) := by ring
  have e3 : dt * 10 = 10 * dt := by ring
  simp [integrate, vec3.add, vec3.scale, e1, e2, e3]

/-- A concrete non-expiring step for C3: a particle at the origin of size 0.4 stepped
by `dt = 0.1` with the real exponential. -/
theorem integrator_step_witness :
    expired (integrate Real.exp 0.1
      (⟨⟨0, 0, 0⟩, 0.4, 0, ⟨0, 0, 0⟩, 3⟩ : particle ℝ)) = false ∧
    (updateParticle (⟨fun _ => 0, fun _ => 0⟩ : RandomSource ℝ) Real.exp 0.1 ⟨0, 0⟩
      (⟨⟨0, 0, 0⟩, 0.4, 0, ⟨0, 0, 0⟩, 3⟩ : particle ℝ)).1.size =
        0.4 * Real.exp (-(2 * 0.1)) ∧
    (updateParticle (⟨fun _ => 0, fun _ => 0⟩ : RandomSource ℝ) Real.exp 0.1 ⟨0, 0⟩
      (⟨⟨0, 0, 0⟩, 0.4, 0, ⟨0, 0, 0⟩, 3⟩ : particle ℝ)).1.angle = 0 + 3 * 0.1 := by
  have h : expired (integrate Real.exp 0.1
      (⟨⟨0, 0, 0⟩, 0.4, 0, ⟨0, 0, 0⟩, 3⟩ : particle ℝ)) = false := by
    have h1 : Real.exp (-1) ≤ 1 := Real.exp_le_one_iff.mpr (by norm_num)
    have h2 : (-0.1 * 2 : ℝ) + 1 ≤ Real.exp (-0.1 * 2) := Real.add_one_le_exp _
    simp only [expired, integrate, vec3.add, vec3.scale, Bool.or_eq_false_iff,
      decide_eq_false_iff_not, not_lt, gt_iff_lt]
    constructor
    · norm_num; linarith
    · norm_num at h2 ⊢; linarith
  refine ⟨h, ?_, ?_⟩
  · rw [(integrator_step (⟨fun _ => 0, fun _ => 0⟩ : RandomSource ℝ) Real.exp 0.1 ⟨0, 0⟩ _ h).1]
  · rw [(integrator_step (⟨fun _ => 0, fun _ => 0⟩ : RandomSource ℝ) Real.exp 0.1 ⟨0, 0⟩ _ h).1]

theorem handleEvent_flags {α : Type} (s : State α) (e : Event) :
    (handleEvent s e).paused =
      (if e = Event.keyDown SDLK_SPACE then !s.paused else s.paused) ∧
    (handleEvent s e).running = (if e = Event.quit then false else s.running) := by
  cases e <;> simp [handleEvent]
  split_ifs <;> simp

theorem pollEvents_quiet {α : Type} (s : State α) (events : List Event)
    (h : ∀ e ∈ events, e ≠ Event.quit ∧ e ≠ Event.keyDown SDLK_SPACE) :
    (pollEvents s events).paused = s.paused ∧ (pollEvents s events).running = s.running := by
  unfold pollEvents
  induction events generalizing s with
  | nil => simp
  | cons e es ih =>
    simp only [List.foldl_cons]
    have he := h e (List.mem_cons_self _ _)
    have ht := ih (handleEvent s e) (fun x hx => h x (List.mem_cons_of_mem _ hx))
    have hf := handleEvent_flags s e
    rw [ht.1, ht.2, hf.1, hf.2]
    simp [he.1, he.2]

theorem run_growth {α : Type} [LinearOrderedField α]
    (src : RandomSource α) (exp : α → α) (inputs : List (FrameInput α)) (s : State α)
    (hq : ∀ inp ∈ inputs, ∀ e ∈ inp.events, e ≠ Event.quit ∧ e ≠ Event.keyDown SDLK_SPACE)
    (hr : s.running = true) (hp : s.paused = false) (hl : s.particles.length ≤ 256) :
    (run src exp s inputs).particles.length = min (s.particles.length + inputs.length) 256 := by
  induction inputs generalizing s with
  | nil => simp [run, hl]
  | cons inp rest ih =>
    have hpoll := pollEvents_quiet s inp.events (hq inp (List.mem_cons_self _ _))
    have hf := frame_effect src exp s inp
    rw [hpoll.1, hpoll.2, hr, hp] at hf
    simp only [Bool.not_false, Bool.and_self, if_true] at hf
    have hlen : (frame src exp s inp).particles.length =
        if s.particles.length = 256 then 256 else s.particles.length + 1 := by
      rw [hf.2.2.1, simulate_length]
    have hle : (frame src exp s inp).particles.length ≤ 256 := by
      rw [hlen]; split_ifs <;> omega
    unfold run
    rw [if_pos hr, ih (frame src exp s inp) (fun x hx => hq x (List.mem_cons_of_mem _ hx))
      hf.2.1 hf.1 hle, hlen, List.length_cons]
    split_ifs <;> omega

/-- C4 (growth rule): from the empty pool of `startState`, unpaused, after `n` frames
in which no quit event and no space key-down arrives (so that each frame performs one
simulated step), the pool holds exactly `min n 256` particles; and a single simulated
step on a pool of fewer than 256 particles makes it exactly one longer. -/
theorem growth_rule {α : Type} [LinearOrderedField α]
    (src : RandomSource α) (exp : α → α) (width height : Int) (inputs : List (FrameInput α))
    (hq : ∀ inp ∈ inputs, ∀ e ∈ inp.events, e ≠ Event.quit ∧ e ≠ Event.keyDown SDLK_SPACE) :
    (run src exp (startState width height) inputs).particles.length = min inputs.length 256 ∧
    (∀ (dt : α) (uninit : particle α) (ps : List (particle α)) (st : RngState),
      ps.length < 256 → (simulate src exp dt uninit ps st).1.length = ps.length + 1) := by
  constructor
  · have h := run_growth src exp inputs (startState width height) hq rfl rfl
      (by simp [startState])
    simpa [startState] using h
  · intro dt uninit ps st hlt
    rw [simulate_length, if_neg (by omega)]

/-- The concrete scenario of C4: ten event-free frames of `dt = 0.1` from the empty pool
leave 10 particles, and the first of them leaves 1. -/
theorem growth_rule_witness :
    (run (⟨fun _ => 0, fun _ => 0⟩ : RandomSource ℝ) Real.exp (startState 800 600)
      (List.replicate 10 ⟨[], 0.1, ⟨⟨0, 0, 0⟩, 0, 0, ⟨0, 0, 0⟩, 0⟩⟩)).particles.length = 10 ∧
    (run (⟨fun _ => 0, fun _ => 0⟩ : RandomSource ℝ) Real.exp (startState 800 600)
      (List.replicate 1 ⟨[], 0.1, ⟨⟨0, 0, 0⟩, 0, 0, ⟨0, 0, 0⟩, 0⟩⟩)).particles.length = 1 := by
  constructor
  · have h := (growth_rule (⟨fun _ => 0, fun _ => 0⟩ : RandomSource ℝ) Real.exp 800 600
      (List.replicate 10 ⟨[], 0.1, ⟨⟨0, 0, 0⟩, 0, 0, ⟨0, 0, 0⟩, 0⟩⟩)
      (by intro inp hinp; rw [List.eq_of_mem_replicate hinp]; simp)).1
    simpa using h
  · have h := (growth_rule (⟨fun _ => 0, fun _ => 0⟩ : RandomSource ℝ) Real.exp 800 600
      (List.replicate 1 ⟨[], 0.1, ⟨⟨0, 0, 0⟩, 0, 0, ⟨0, 0, 0⟩, 0⟩⟩)
      (by intro inp hinp; rw [List.eq_of_mem_replicate hinp]; simp)).1
    simpa using h

theorem updateAll_getElem {α : Type} [LinearOrderedField α]
    (src : RandomSource α) (exp : α → α) (dt : α) (ps : List (particle α)) (st : RngState)
    (i : Nat) (p : particle α) (h : ps[i]? = some p) :
    ∃ st1, (updateAll src exp dt ps st).1[i]? = some (updateParticle src exp dt st1 p).1 := by
  induction ps generalizing st i with
  | nil => simp at h
  | cons a ps ih =>
    cases i with
    | zero =>
      simp only [List.getElem?_cons_zero, Option.some.injEq] at h
      subst h
      exact ⟨st, by simp [updateAll]⟩
    | succ i =>
      simp only [List.getElem?_cons_succ] at h
      obtain ⟨st1, h1⟩ := ih (updateParticle src exp dt st a).2 i h
      exact ⟨st1, by simpa [updateAll] using h1⟩

/-- C5 (in-place respawn): a simulated step makes a pool of fewer than 256 particles one
longer and keeps a pool of 256 at 256, and every slot `i` that held a particle `p`
before the step afterwards holds either the integrated `p` or the integrated `p` with
the reset assignments applied: nothing is removed or moved to another slot. -/
theorem in_place_respawn {α : Type} [LinearOrderedField α]
    (src : RandomSource α) (exp : α → α) (dt : α) (uninit : particle α)
    (ps : List (particle α)) (st : RngState) :
    (ps.length < 256 → (simulate src exp dt uninit ps st).1.length = ps.length + 1) ∧
    (ps.length = 256 → (simulate src exp dt uninit ps st).1.length = 256) ∧
    (∀ (i : Nat) (p : particle α), ps[i]? = some p →
      (simulate src exp dt uninit ps st).1[i]? = some (integrate exp dt p) ∨
      ∃ st1, (simulate src exp dt uninit ps st).1[i]? =
        some (respawn src st1 (integrate exp dt p)).1) := by
  refine ⟨fun h => ?_, fun h => ?_, fun i p h => ?_⟩
  · rw [simulate_length, if_neg (by omega)]
  · rw [simulate_length, if_pos h]
  · have key : ∀ (qs : List (particle α)) (st0 : RngState), qs[i]? = some p →
        (updateAll src exp dt qs st0).1[i]? = some (integrate exp dt p) ∨
        ∃ st1, (updateAll src exp dt qs st0).1[i]? =
          some (respawn src st1 (integrate exp dt p)).1 := by
      intro qs st0 hq
      obtain ⟨st1, h1⟩ := updateAll_getElem src exp dt qs st0 i p hq
      rw [h1]
      unfold updateParticle
      simp only []
      split_ifs
      · exact Or.inr ⟨st1, rfl⟩
      · exact Or.inl rfl
    unfold simulate
    simp only []
    split_ifs
    · apply key
      have hi : i < ps.length := by
        by_contra hc
        rw [List.getElem?_eq_none (by omega)] at h
        exact Option.noConfusion h
      rw [List.getElem?_append_left hi]
      exact h
    · exact key ps st h

/-- A concrete step for C5: a pool of two particles, the first of which is reset
(it is above height 1) and the second of which is not, stepped with `dt = 0`. -/
theorem in_place_respawn_witness :
    ([(⟨⟨0, 2, 0⟩, 1, 7, ⟨0, 0, 0⟩, 0⟩ : particle ℝ), ⟨⟨0, 0, 0⟩, 1, 0, ⟨0, 0, 0⟩, 0⟩])[1]? =
      some ⟨⟨0, 0, 0⟩, 1, 0, ⟨0, 0, 0⟩, 0⟩ ∧
    ((simulate (⟨fun _ => 0, fun _ => 0⟩ : RandomSource ℝ) Real.exp 0
        ⟨⟨0, 0, 0⟩, 0, 0, ⟨0, 0, 0⟩, 0⟩
        [(⟨⟨0, 2, 0⟩, 1, 7, ⟨0, 0, 0⟩, 0⟩ : particle ℝ), ⟨⟨0, 0, 0⟩, 1, 0, ⟨0, 0, 0⟩, 0⟩]
        ⟨0, 0⟩).1[1]? =
      some (integrate Real.exp 0 ⟨⟨0, 0, 0⟩, 1, 0, ⟨0, 0, 0⟩, 0⟩) ∨
    ∃ st1, (simulate (⟨fun _ => 0, fun _ => 0⟩ : RandomSource ℝ) Real.exp 0
        ⟨⟨0, 0, 0⟩, 0, 0, ⟨0, 0, 0⟩, 0⟩
        [(⟨⟨0, 2, 0⟩, 1, 7, ⟨0, 0, 0⟩, 0⟩ : particle ℝ), ⟨⟨0, 0, 0⟩, 1, 0, ⟨0, 0, 0⟩, 0⟩]
        ⟨0, 0⟩).1[1]? =
      some (respawn (⟨fun _ => 0, fun _ => 0⟩ : RandomSource ℝ) st1
        (integrate Real.exp 0 ⟨⟨0, 0, 0⟩, 1, 0, ⟨0, 0, 0⟩, 0⟩)).1) :=
  ⟨rfl, (in_place_respawn (⟨fun _ => 0, fun _ => 0⟩ : RandomSource ℝ) Real.exp 0
    ⟨⟨0, 0, 0⟩, 0, 0, ⟨0, 0, 0⟩, 0⟩
    [(⟨⟨0, 2, 0⟩, 1, 7, ⟨0, 0, 0⟩, 0⟩ : particle ℝ), ⟨⟨0, 0, 0⟩, 1, 0, ⟨0, 0, 0⟩, 0⟩]
    ⟨0, 0⟩).2.2 1 _ rfl⟩

theorem exp_neg_six_lt : Real.exp (-6) < 0.005 := by
  have h1 : (2.7 : ℝ) < Real.exp 1 := lt_trans (by norm_num) Real.exp_one_gt_d9
  have h2 : Real.exp 6 = Real.exp 1 ^ 6 := by
    rw [← Real.exp_nat_mul]; norm_num
  have h3 : (200 : ℝ) < Real.exp 6 := by
    rw [h2]
    calc (200 : ℝ) < 2.7 ^ 6 := by norm_num
      _ < Real.exp 1 ^ 6 := pow_lt_pow_left₀ h1 (by norm_num) (by norm_num)
  rw [Real.exp_neg, inv_lt_comm₀ (Real.exp_pos 6) (by norm_num)]
  norm_num
  exact h3

/-- Counterexample to C6 as stated: in the first frame from the empty pool, with a
zero-filled local and `dt = 3`, the spawned particle shrinks below 0.001 and is reset
in the same frame (six values have been drawn from `rng` and two from `rand`), yet the
state the reset leaves has `angle = -15` and `velocity.y = 30 * exp(-30)`, not zero. -/
theorem reset_identical_counterexample :
    ∃ q : particle ℝ,
      (frame (⟨fun _ => 0, fun _ => 0⟩ : RandomSource ℝ) Real.exp (startState 800 600)
        ⟨[], 3, ⟨⟨0, 0, 0⟩, 0, 0, ⟨0, 0, 0⟩, 0⟩⟩).particles = [q] ∧
      (frame (⟨fun _ => 0, fun _ => 0⟩ : RandomSource ℝ) Real.exp (startState 800 600)
        ⟨[], 3, ⟨⟨0, 0, 0⟩, 0, 0, ⟨0, 0, 0⟩, 0⟩⟩).gen = ⟨6, 2⟩ ∧
      q.position.y = 0 ∧ q.size = 0.2 ∧
      q.angle = -15 ∧ q.velocity.y = 30 * Real.exp (-30) ∧
      q.angle ≠ 0 ∧ q.velocity.y ≠ 0 := by
  have hexp : expired (integrate Real.exp 3
      (⟨⟨-1, 0, -1⟩, spawnSize 0, 0, ⟨0, 0, 0⟩, -5⟩ : particle ℝ)) = true := by
    have h := exp_neg_six_lt
    simp only [expired, integrate, vec3.add, vec3.scale, spawnSize, Bool.or_eq_true,
      decide_eq_true_eq]
    right
    norm_num at h ⊢
    linarith
  refine ⟨(respawn (⟨fun _ => 0, fun _ => 0⟩ : RandomSource ℝ) ⟨3, 1⟩
    (integrate Real.exp 3
      (⟨⟨-1, 0, -1⟩, spawnSize 0, 0, ⟨0, 0, 0⟩, -5⟩ : particle ℝ))).1, ?_, ?_, ?_, ?_, ?_, ?_, ?_, ?_⟩
  · simp [frame, pollEvents, startState, updateCamera, simulate, updateAll, updateParticle,
      respawn, uniform_real, crand, hexp]
  · simp [frame, pollEvents, startState, updateCamera, simulate, updateAll, updateParticle,
      respawn, uniform_real, crand, hexp]
  · simp [respawn, uniform_real, crand]
  · simp [respawn, uniform_real, crand, spawnSize]
  · simp [respawn, uniform_real, crand, integrate]; norm_num
  · simp [respawn, uniform_real, crand, integrate, vec3.scale]; norm_num
  · simp [respawn, uniform_real, crand, integrate]
  · simp [respawn, uniform_real, crand, integrate, vec3.scale]

/-- C6, as amended: whenever a particle is spawned or reset, the state written is
`position = (U(-1,1), 0, U(-1,1))`, `size = (R % 11)/10/5 + 0.2` and
`angle_velocity = U(-5,5)`, from the next three values of `rng` and the next value of
`rand`; a reset does not write `angle` or `velocity`, which keep the values the
integrator produced in that step. -/
theorem reset_keeps_angle_velocity {α : Type} [LinearOrderedField α]
    (src : RandomSource α) (exp : α → α) (dt : α) (st : RngState) (p : particle α)
    (h : expired (integrate exp dt p) = true) :
    (∀ (q : particle α) (st1 : RngState),
      (respawn src st1 q).1.position = ⟨src.canonical st1.rng * (1 - -1) + -1, 0,
        src.canonical (st1.rng + 1) * (1 - -1) + -1⟩ ∧
      (respawn src st1 q).1.size = (((src.rand st1.crand % 11 : Nat) : α) / 10 / 5) + 0.2 ∧
      (respawn src st1 q).1.angle_velocity = src.canonical (st1.rng + 2) * (5 - -5) + -5 ∧
      (respawn src st1 q).2 = ⟨st1.rng + 3, st1.crand + 1⟩) ∧
    (updateParticle src exp dt st p).1 =
      { position := ⟨src.canonical st.rng * (1 - -1) + -1, 0,
                     src.canonical (st.rng + 1) * (1 - -1) + -1⟩
        size := (((src.rand st.crand % 11 : Nat) : α) / 10 / 5) + 0.2
        angle := p.angle + p.angle_velocity * dt
        velocity := ⟨p.velocity.x * exp (-(10 * dt)),
                     (p.velocity.y + 10 * dt) * exp (-(10 * dt)),
                     p.velocity.z * exp (-(10 * dt))⟩
        angle_velocity := src.canonical (st.rng + 2) * (5 - -5) + -5 } ∧
    (updateParticle src exp dt st p).2 = ⟨st.rng + 3, st.crand + 1⟩ := by
  have e1 : -dt * 10 = -(10 * dt) := by ring
  have e3 : dt * 10 = 10 * dt := by ring
  refine ⟨fun q st1 => ?_, ?_, ?_⟩
  · rw [(respawn_fields src st1 q).1, (respawn_fields src st1 q).2]
    exact ⟨rfl, rfl, rfl, rfl⟩
  · unfold updateParticle
    simp only [h, if_true]
    rw [(respawn_fields src st _).1]
    simp [integrate, vec3.scale, spawnSize, e1, e3]
  · unfold updateParticle
    simp only [h, if_true]
    exact (respawn_fields src st _).2

/-- A concrete reset for C6: a particle above height 1 with angle 7 and velocity
`(1, 0, 2)` is reset by a step of `dt = 0` and keeps its angle. -/
theorem reset_keeps_angle_velocity_witness :
    expired (integrate Real.exp 0
      (⟨⟨0, 2, 0⟩, 1, 7, ⟨1, 0, 2⟩, 0⟩ : particle ℝ)) = true ∧
    (updateParticle (⟨fun _ => 0, fun _ => 0⟩ : RandomSource ℝ) Real.exp 0 ⟨0, 0⟩
      (⟨⟨0, 2, 0⟩, 1, 7, ⟨1, 0, 2⟩, 0⟩ : particle ℝ)).1.angle = 7 + 0 * 0 := by
  have h : expired (integrate Real.exp 0
      (⟨⟨0, 2, 0⟩, 1, 7, ⟨1, 0, 2⟩, 0⟩ : particle ℝ)) = true := by
    simp [expired, integrate, vec3.add, vec3.scale]
  refine ⟨h, ?_⟩
  rw [(reset_keeps_angle_velocity (⟨fun _ => 0, fun _ => 0⟩ : RandomSource ℝ) Real.exp 0
    ⟨0, 0⟩ _ h).2.1]

/-- C7 (spawn size): the size the spawn/reset assignments write is
`(R % 11)/10/5 + 0.2` for the value `R` of `rand()`; for every `R` it is `0.2 + 0.02 k`
for some `k` in `0..10`, it lies in `[0.2, 0.4]`, and each of the 11 values is produced
by some `R`. -/
theorem spawn_size_values {α : Type} [LinearOrderedField α] :
    (∀ (src : RandomSource α) (st : RngState) (p : particle α),
      (respawn src st p).1.size = (((src.rand st.crand % 11 : Nat) : α) / 10 / 5) + 0.2) ∧
    (∀ R : Nat, ∃ k : Fin 11, (spawnSize R : α) = 0.2 + 0.02 * ((k : Nat) : α)) ∧
    (∀ R : Nat, (0.2 : α) ≤ spawnSize R ∧ (spawnSize R : α) ≤ 0.4) ∧
    (∀ k : Fin 11, ∃ R : Nat, (spawnSize R : α) = 0.2 + 0.02 * ((k : Nat) : α)) := by
  refine ⟨fun src st p => ?_, fun R => ?_, spawnSize_bounds, fun k => ?_⟩
  · rw [(respawn_fields src st p).1]; rfl
  · refine ⟨⟨R % 11, Nat.mod_lt _ (by norm_num)⟩, ?_⟩
    simp only [spawnSize]
    norm_num
    ring
  · refine ⟨k, ?_⟩
    simp only [spawnSize, Nat.mod_eq_of_lt k.isLt]
    norm_num
    ring

/-- C8 (pause): a frame whose pause flag is set when the simulation block is reached
leaves the pool and both generators exactly as they were; the frame leaves the flag as
the event loop set it, and an event changes the flag only if it is a key-down of the
space key, which negates it. -/
theorem paused_frame {α : Type} [LinearOrderedField α]
    (src : RandomSource α) (exp : α → α) (s : State α) (inp : FrameInput α)
    (h : (pollEvents s inp.events).paused = true) :
    (frame src exp s inp).particles = s.particles ∧
    (frame src exp s inp).gen = s.gen ∧
    (frame src exp s inp).paused = (pollEvents s inp.events).paused ∧
    (∀ (t : State α) (e : Event), (handleEvent t e).paused =
      (if e = Event.keyDown SDLK_SPACE then !t.paused else t.paused)) := by
  have hf := frame_effect src exp s inp
  refine ⟨?_, ?_, hf.1, fun t e => (handleEvent_flags t e).1⟩
  · rw [hf.2.2.1, h]; simp
  · rw [hf.2.2.2, h]; simp

/-- A concrete paused frame for C8: the running simulation receives a space key-down
and a frame of `dt = 0.1`; the pool stays empty and no random value is drawn. -/
theorem paused_frame_witness :
    (pollEvents (startState 800 600 : State ℝ) [Event.keyDown SDLK_SPACE]).paused = true ∧
    (frame (⟨fun _ => 0, fun _ => 0⟩ : RandomSource ℝ) Real.exp (startState 800 600)
      ⟨[Event.keyDown SDLK_SPACE], 0.1, ⟨⟨0, 0, 0⟩, 0, 0, ⟨0, 0, 0⟩, 0⟩⟩).particles = [] ∧
    (frame (⟨fun _ => 0, fun _ => 0⟩ : RandomSource ℝ) Real.exp (startState 800 600)
      ⟨[Event.keyDown SDLK_SPACE], 0.1, ⟨⟨0, 0, 0⟩, 0, 0, ⟨0, 0, 0⟩, 0⟩⟩).gen = ⟨0, 0⟩ := by
  have h : (pollEvents (startState 800 600 : State ℝ)
      [Event.keyDown SDLK_SPACE]).paused = true := by
    simp [pollEvents, handleEvent, startState]
  have k := paused_frame (⟨fun _ => 0, fun _ => 0⟩ : RandomSource ℝ) Real.exp
    (startState 800 600)
    ⟨[Event.keyDown SDLK_SPACE], 0.1, ⟨⟨0, 0, 0⟩, 0, 0, ⟨0, 0, 0⟩, 0⟩⟩ h
  exact ⟨h, k.1, k.2.1⟩

theorem dot_comm {α : Type} [Field α] (a b : vec3 α) : dot a b = dot b a := by
  simp only [dot]; ring

theorem dot_add_left {α : Type} [Field α] (a b c : vec3 α) :
    dot (a.add b) c = dot a c + dot b c := by
  simp only [dot, vec3.add]; ring

theorem dot_scale_left {α : Type} [Field α] (a c : vec3 α) (s : α) :
    dot (a.scale s) c = s * dot a c := by
  simp only [dot, vec3.scale]; ring

theorem dot_neg_left {α : Type} [Field α] (a c : vec3 α) :
    dot a.neg c = - dot a c := by
  simp only [dot, vec3.neg]; ring

theorem dot_add_right {α : Type} [Field α] (a b c : vec3 α) :
    dot c (a.add b) = dot c a + dot c b := by
  simp only [dot, vec3.add]; ring

theorem dot_scale_right {α : Type} [Field α] (a c : vec3 α) (s : α) :
    dot c (a.scale s) = s * dot c a := by
  simp only [dot, vec3.scale]; ring

theorem dot_neg_right {α : Type} [Field α] (a c : vec3 α) :
    dot c a.neg = - dot c a := by
  simp only [dot, vec3.neg]; ring

theorem dot_cross_left {α : Type} [Field α] (a b : vec3 α) : dot (cross a b) a = 0 := by
  simp only [dot, cross]; ring

theorem dot_cross_right {α : Type} [Field α] (a b : vec3 α) : dot (cross a b) b = 0 := by
  simp only [dot, cross]; ring

theorem dot_cross_self {α : Type} [Field α] (a b : vec3 α) :
    dot (cross a b) (cross a b) = dot a a * dot b b - dot a b ^ 2 := by
  simp only [dot, cross]; ring

theorem dot_normalize_left {α : Type} [Field α] (fn : Builtins α) (v w : vec3 α) :
    dot (normalize fn v) w = dot v w / length fn v := by
  simp only [dot, normalize]; ring

theorem dot_normalize_self (fn : Builtins ℝ) (hs : fn.sqrt = Real.sqrt) (v : vec3 ℝ)
    (hv : 0 < dot v v) : dot (normalize fn v) (normalize fn v) = 1 := by
  have hl : length fn v * length fn v = dot v v := by
    simp only [length, hs]
    exact Real.mul_self_sqrt hv.le
  have hl0 : length fn v ≠ 0 := by
    intro h0
    rw [h0, zero_mul] at hl
    exact hv.ne hl
  rw [dot_normalize_left, dot_comm, dot_normalize_left, div_div, hl]
  exact div_self hv.ne'

theorem rotate_orthonormal {α : Type} [Field α] (x y z : vec3 α) (c s : α)
    (hxx : dot x x = 1) (hyy : dot y y = 1) (hxy : dot x y = 0)
    (hxz : dot x z = 0) (hyz : dot y z = 0) (hcs : c ^ 2 + s ^ 2 = 1) :
    dot ((x.scale c).add (y.scale s)) ((x.scale c).add (y.scale s)) = 1 ∧
    dot ((x.neg.scale s).add (y.scale c)) ((x.neg.scale s).add (y.scale c)) = 1 ∧
    dot ((x.scale c).add (y.scale s)) ((x.neg.scale s).add (y.scale c)) = 0 ∧
    dot ((x.scale c).add (y.scale s)) z = 0 ∧
    dot ((x.neg.scale s).add (y.scale c)) z = 0 := by
  have hyx : dot y x = 0 := by rw [dot_comm]; exact hxy
  simp only [dot_add_left, dot_add_right, dot_scale_left, dot_scale_right, dot_neg_left,
    dot_neg_right, hxx, hyy, hxy, hyx, hxz, hyz]
  refine ⟨?_, ?_, ?_, ?_, ?_⟩
  · linear_combination hcs
  · linear_combination hcs
  · ring
  · ring
  · ring

theorem billboard_frame (fn : Builtins ℝ) (hs : fn.sqrt = Real.sqrt)
    (cam C : vec3 ℝ) (hpar : ¬ ∃ t : ℝ, cam.sub C = vec3.smul t ⟨0, 1, 0⟩) :
    dot (billboardZ fn cam C) (billboardZ fn cam C) = 1 ∧
    dot (billboardX1 fn cam C) (billboardX1 fn cam C) = 1 ∧
    dot (billboardY1 fn cam C) (billboardY1 fn cam C) = 1 ∧
    dot (billboardX1 fn cam C) (billboardY1 fn cam C) = 0 ∧
    dot (billboardX1 fn cam C) (billboardZ fn cam C) = 0 ∧
    dot (billboardY1 fn cam C) (billboardZ fn cam C) = 0 := by
  have hxz : (cam.sub C).x ≠ 0 ∨ (cam.sub C).z ≠ 0 := by
    by_contra hc
    push_neg at hc
    apply hpar
    refine ⟨(cam.sub C).y, ?_⟩
    cases hd : cam.sub C with
    | mk a b c =>
      rw [hd] at hc
      have h1 : a = 0 := hc.1
      have h2 : c = 0 := hc.2
      simp only [vec3.smul, mul_zero, mul_one]
      rw [h1, h2]
  have hsq : 0 < (cam.sub C).x ^ 2 + (cam.sub C).z ^ 2 := by
    rcases hxz with h | h
    · have := pow_pos (abs_pos.mpr h) 2
      rw [sq_abs] at this
      nlinarith [sq_nonneg (cam.sub C).z]
    · have := pow_pos (abs_pos.mpr h) 2
      rw [sq_abs] at this
      nlinarith [sq_nonneg (cam.sub C).x]
  have hd : 0 < dot (cam.sub C) (cam.sub C) := by
    simp only [dot]
    nlinarith [sq_nonneg (cam.sub C).y]
  have hZ : dot (billboardZ fn cam C) (billboardZ fn cam C) = 1 :=
    dot_normalize_self fn hs _ hd
  have hlen : 0 < length fn (cam.sub C) := by
    simp only [length, hs]
    exact Real.sqrt_pos.mpr hd
  have hW : 0 < dot (cross ⟨0, 1, 0⟩ (billboardZ fn cam C))
      (cross ⟨0, 1, 0⟩ (billboardZ fn cam C)) := by
    simp only [dot, cross, billboardZ, normalize]
    have e : (1 * ((cam.sub C).z / length fn (cam.sub C)) -
          (cam.sub C).y / length fn (cam.sub C) * 0) *
          (1 * ((cam.sub C).z / length fn (cam.sub C)) -
          (cam.sub C).y / length fn (cam.sub C) * 0) +
        (0 * ((cam.sub C).x / length fn (cam.sub C)) -
          (cam.sub C).z / length fn (cam.sub C) * 0) *
          (0 * ((cam.sub C).x / length fn (cam.sub C)) -
          (cam.sub C).z / length fn (cam.sub C) * 0) +
        (0 * ((cam.sub C).y / length fn (cam.sub C)) -
          (cam.sub C).x / length fn (cam.sub C) * 1) *
          (0 * ((cam.sub C).y / length fn (cam.sub C)) -
          (cam.sub C).x / length fn (cam.sub C) * 1) =
        ((cam.sub C).x ^ 2 + (cam.sub C).z ^ 2) / (length fn (cam.sub C)) ^ 2 := by
      field_simp
      ring
    rw [e]
    positivity
  have hX1 : dot (billboardX1 fn cam C) (billboardX1 fn cam C) = 1 :=
    dot_normalize_self fn hs _ hW
  have hX1Z : dot (billboardX1 fn cam C) (billboardZ fn cam C) = 0 := by
    unfold billboardX1
    rw [dot_normalize_left, dot_cross_right, zero_div]
  have hZX1 : dot (billboardZ fn cam C) (billboardX1 fn cam C) = 0 := by
    rw [dot_comm]; exact hX1Z
  have hV : dot (cross (billboardZ fn cam C) (billboardX1 fn cam C))
      (cross (billboardZ fn cam C) (billboardX1 fn cam C)) = 1 := by
    rw [dot_cross_self, hZ, hX1, hZX1]; norm_num
  have hY1 : dot (billboardY1 fn cam C) (billboardY1 fn cam C) = 1 :=
    dot_normalize_self fn hs _ (by rw [hV]; exact one_pos)
  have hY1Z : dot (billboardY1 fn cam C) (billboardZ fn cam C) = 0 := by
    unfold billboardY1
    rw [dot_normalize_left, dot_cross_left, zero_div]
  have hY1X1 : dot (billboardY1 fn cam C) (billboardX1 fn cam C) = 0 := by
    unfold billboardY1
    rw [dot_normalize_left, dot_cross_right, zero_div]
  exact ⟨hZ, hX1, hY1, by rw [dot_comm]; exact hY1X1, hX1Z, hY1Z⟩

/-- C9 (billboard orthonormality): for a camera position `Cam ≠ C` with `Cam - C` not
parallel to `(0, 1, 0)` and any angle, the vectors `Z`, `X`, `Y` the geometry shader
computes (with the real `sqrt`, `cos`, `sin`) have length 1 and are pairwise
orthogonal. -/
theorem billboard_orthonormal (cam C : vec3 ℝ) (angle : ℝ) (_hne : cam ≠ C)
    (hpar : ¬ ∃ t : ℝ, cam.sub C = vec3.smul t ⟨0, 1, 0⟩) :
    length ⟨Real.sqrt, Real.cos, Real.sin⟩
      (billboardZ ⟨Real.sqrt, Real.cos, Real.sin⟩ cam C) = 1 ∧
    length ⟨Real.sqrt, Real.cos, Real.sin⟩
      (billboardX ⟨Real.sqrt, Real.cos, Real.sin⟩ cam C angle) = 1 ∧
    length ⟨Real.sqrt, Real.cos, Real.sin⟩
      (billboardY ⟨Real.sqrt, Real.cos, Real.sin⟩ cam C angle) = 1 ∧
    dot (billboardX ⟨Real.sqrt, Real.cos, Real.sin⟩ cam C angle)
      (billboardY ⟨Real.sqrt, Real.cos, Real.sin⟩ cam C angle) = 0 ∧
    dot (billboardX ⟨Real.sqrt, Real.cos, Real.sin⟩ cam C angle)
      (billboardZ ⟨Real.sqrt, Real.cos, Real.sin⟩ cam C) = 0 ∧
    dot (billboardY ⟨Real.sqrt, Real.cos, Real.sin⟩ cam C angle)
      (billboardZ ⟨Real.sqrt, Real.cos, Real.sin⟩ cam C) = 0 := by
  obtain ⟨hZ, hX1, hY1, hXY, hXZ, hYZ⟩ :=
    billboard_frame ⟨Real.sqrt, Real.cos, Real.sin⟩ rfl cam C hpar
  obtain ⟨r1, r2, r3, r4, r5⟩ := rotate_orthonormal _ _ _ (Real.cos angle) (Real.sin angle)
    hX1 hY1 hXY hXZ hYZ (Real.cos_sq_add_sin_sq angle)
  refine ⟨?_, ?_, ?_, r3, r4, r5⟩
  · simp only [length]; rw [hZ]; exact Real.sqrt_one
  · simp only [length, billboardX]; rw [r1]; exact Real.sqrt_one
  · simp only [length, billboardY]; rw [r2]; exact Real.sqrt_one

/-- A concrete camera for C9: the particle at the origin seen from `(0, 0, 2)`, which is
neither at the particle nor above or below it. -/
theorem billboard_orthonormal_witness :
    (⟨0, 0, 2⟩ : vec3 ℝ) ≠ ⟨0, 0, 0⟩ ∧
    (¬ ∃ t : ℝ, (⟨0, 0, 2⟩ : vec3 ℝ).sub ⟨0, 0, 0⟩ = vec3.smul t ⟨0, 1, 0⟩) ∧
    dot (billboardX ⟨Real.sqrt, Real.cos, Real.sin⟩ (⟨0, 0, 2⟩ : vec3 ℝ) ⟨0, 0, 0⟩ 1)
      (billboardY ⟨Real.sqrt, Real.cos, Real.sin⟩ (⟨0, 0, 2⟩ : vec3 ℝ) ⟨0, 0, 0⟩ 1) = 0 := by
  have hne : (⟨0, 0, 2⟩ : vec3 ℝ) ≠ ⟨0, 0, 0⟩ := by
    intro h
    have hz := congrArg vec3.z h
    norm_num at hz
  have hpar : ¬ ∃ t : ℝ, (⟨0, 0, 2⟩ : vec3 ℝ).sub ⟨0, 0, 0⟩ = vec3.smul t ⟨0, 1, 0⟩ := by
    rintro ⟨t, ht⟩
    have hz := congrArg vec3.z ht
    simp [vec3.sub, vec3.smul] at hz
  exact ⟨hne, hpar, (billboard_orthonormal ⟨0, 0, 2⟩ ⟨0, 0, 0⟩ 1 hne hpar).2.2.2.1⟩

theorem innerLoop_unroll {α : Type} [Field α] (fn : Builtins α) (u : Uniforms α)
    (center : vec3 α) (size angle : α) (i : Int) :
    innerLoop fn u center size angle i (-1) =
      [emitVertex fn u center size angle i (-1), emitVertex fn u center size angle i 1] := by
  rw [innerLoop, if_pos (by decide)]
  have e1 : (-1 : Int) + 2 = 1 := by decide
  rw [e1, innerLoop, if_pos (by decide)]
  have e2 : (1 : Int) + 2 = 3 := by decide
  rw [e2, innerLoop, if_neg (by decide)]

theorem outerLoop_unroll {α : Type} [Field α] (fn : Builtins α) (u : Uniforms α)
    (center : vec3 α) (size angle : α) :
    outerLoop fn u center size angle (-1) =
      [emitVertex fn u center size angle (-1) (-1), emitVertex fn u center size angle (-1) 1,
       emitVertex fn u center size angle 1 (-1), emitVertex fn u center size angle 1 1] := by
  rw [outerLoop, if_pos (by decide)]
  have e1 : (-1 : Int) + 2 = 1 := by decide
  rw [e1, outerLoop, if_pos (by decide)]
  have e2 : (1 : Int) + 2 = 3 := by decide
  rw [e2, outerLoop, if_neg (by decide), innerLoop_unroll, innerLoop_unroll]
  rfl

/-- C10 (billboard corners): for a particle with centre `C = position`, half-size
`s = size` and the basis vectors `X`, `Y` of the shader, the geometry shader emits
exactly four vertices, for `(i, j) = (-1,-1), (-1,1), (1,-1), (1,1)` in this order; the
vertex for `(i, j)` has `gl_Position = projection * view * model * vec4(C + i*s*X +
j*s*Y, 1)` and its texture coordinates are `(0,0)`, `(0,1)`, `(1,0)`, `(1,1)`. -/
theorem billboard_corners {α : Type} [Field α] (fn : Builtins α) (u : Uniforms α)
    (p : particle α) :
    let X := billboardX fn u.camera_position p.position p.angle
    let Y := billboardY fn u.camera_position p.position p.angle
    let mvp := (u.projection.mul u.view).mul u.model
    geometryMain fn u (vertexMain p) =
      [ { gl_Position := mvp.mulVec
            ⟨p.position.x + -1 * p.size * X.x + -1 * p.size * Y.x,
             p.position.y + -1 * p.size * X.y + -1 * p.size * Y.y,
             p.position.z + -1 * p.size * X.z + -1 * p.size * Y.z, 1⟩
          texcoord := ⟨0, 0⟩ },
        { gl_Position := mvp.mulVec
            ⟨p.position.x + -1 * p.size * X.x + 1 * p.size * Y.x,
             p.position.y + -1 * p.size * X.y + 1 * p.size * Y.y,
             p.position.z + -1 * p.size * X.z + 1 * p.size * Y.z, 1⟩
          texcoord := ⟨0, 1⟩ },
        { gl_Position := mvp.mulVec
            ⟨p.position.x + 1 * p.size * X.x + -1 * p.size * Y.x,
             p.position.y + 1 * p.size * X.y + -1 * p.size * Y.y,
             p.position.z + 1 * p.size * X.z + -1 * p.size * Y.z, 1⟩
          texcoord := ⟨1, 0⟩ },
        { gl_Position := mvp.mulVec
            ⟨p.position.x + 1 * p.size * X.x + 1 * p.size * Y.x,
             p.position.y + 1 * p.size * X.y + 1 * p.size * Y.y,
             p.position.z + 1 * p.size * X.z + 1 * p.size * Y.z, 1⟩
          texcoord := ⟨1, 1⟩ } ] := by
  intro X Y mvp
  have t0 : ((-1 : Int) + 1).tdiv 2 = 0 := by decide
  have t1 : ((1 : Int) + 1).tdiv 2 = 1 := by decide
  simp only [geometryMain, vertexMain, outerLoop_unroll, emitVertex, vec3.add, vec3.smul,
    t0, t1, Int.cast_neg, Int.cast_one, Int.cast_zero]

theorem dot_smul_left {α : Type} [Field α] (a c : vec3 α) (s : α) :
    dot (vec3.smul s a) c = s * dot a c := by
  simp only [dot, vec3.smul]; ring

theorem dot_smul_right {α : Type} [Field α] (a c : vec3 α) (s : α) :
    dot c (vec3.smul s a) = s * dot c a := by
  simp only [dot, vec3.smul]; ring

theorem dot_sub_left {α : Type} [Field α] (a b c : vec3 α) :
    dot (a.sub b) c = dot a c - dot b c := by
  simp only [dot, vec3.sub]; ring

theorem corner_sub_center {α : Type} [Field α] (C X Y : vec3 α) (a b : α) :
    ((C.add (vec3.smul a X)).add (vec3.smul b Y)).sub C =
      (vec3.smul a X).add (vec3.smul b Y) := by
  simp only [vec3.add, vec3.sub, vec3.smul, vec3.mk.injEq]
  exact ⟨by ring, by ring, by ring⟩

/-- The basis of the shader with the real `sqrt`, `cos`, `sin`, for a camera that is not
on the vertical line through the particle: `X`, `Y`, `Z` are orthonormal and `X`, `Y`
are orthogonal to `Cam - C`, whose length is positive. -/
theorem billboard_basis (cam C : vec3 ℝ) (angle : ℝ)
    (hpar : ¬ ∃ t : ℝ, cam.sub C = vec3.smul t ⟨0, 1, 0⟩) :
    dot (billboardX ⟨Real.sqrt, Real.cos, Real.sin⟩ cam C angle)
      (billboardX ⟨Real.sqrt, Real.cos, Real.sin⟩ cam C angle) = 1 ∧
    dot (billboardY ⟨Real.sqrt, Real.cos, Real.sin⟩ cam C angle)
      (billboardY ⟨Real.sqrt, Real.cos, Real.sin⟩ cam C angle) = 1 ∧
    dot (billboardX ⟨Real.sqrt, Real.cos, Real.sin⟩ cam C angle)
      (billboardY ⟨Real.sqrt, Real.cos, Real.sin⟩ cam C angle) = 0 ∧
    dot (billboardX ⟨Real.sqrt, Real.cos, Real.sin⟩ cam C angle) (cam.sub C) = 0 ∧
    dot (billboardY ⟨Real.sqrt, Real.cos, Real.sin⟩ cam C angle) (cam.sub C) = 0 ∧
    0 < length ⟨Real.sqrt, Real.cos, Real.sin⟩ (cam.sub C) := by
  obtain ⟨hZ, hX1, hY1, hXY, hXZ, hYZ⟩ :=
    billboard_frame ⟨Real.sqrt, Real.cos, Real.sin⟩ rfl cam C hpar
  obtain ⟨r1, r2, r3, r4, r5⟩ := rotate_orthonormal _ _ _ (Real.cos angle) (Real.sin angle)
    hX1 hY1 hXY hXZ hYZ (Real.cos_sq_add_sin_sq angle)
  have hlen : 0 < length ⟨Real.sqrt, Real.cos, Real.sin⟩ (cam.sub C) := by
    by_contra hc
    have h0 : length ⟨Real.sqrt, Real.cos, Real.sin⟩ (cam.sub C) = 0 :=
      le_antisymm (not_lt.mp hc) (Real.sqrt_nonneg _)
    have hz : dot (billboardZ ⟨Real.sqrt, Real.cos, Real.sin⟩ cam C)
        (billboardZ ⟨Real.sqrt, Real.cos, Real.sin⟩ cam C) = 0 := by
      unfold billboardZ
      rw [dot_normalize_left, h0, div_zero]
    rw [hz] at hZ
    exact zero_ne_one hZ
  have key : ∀ w : vec3 ℝ, dot w (billboardZ ⟨Real.sqrt, Real.cos, Real.sin⟩ cam C) = 0 →
      dot w (cam.sub C) = 0 := by
    intro w hw
    rw [dot_comm] at hw
    unfold billboardZ at hw
    rw [dot_normalize_left, div_eq_zero_iff] at hw
    rcases hw with hw | hw
    · rw [dot_comm]; exact hw
    · exact absurd hw hlen.ne'
  exact ⟨r1, r2, r3, key _ r4, key _ r5, hlen⟩

theorem corner_dot {α : Type} [Field α] (C X Y : vec3 α)
    (hXX : dot X X = 1) (hYY : dot Y Y = 1) (hXY : dot X Y = 0) (a b c d : α) :
    dot (((C.add (vec3.smul a X)).add (vec3.smul b Y)).sub C)
      (((C.add (vec3.smul c X)).add (vec3.smul d Y)).sub C) = a * c + b * d := by
  simp only [dot, vec3.add, vec3.sub, vec3.smul] at *
  linear_combination (a * c) * hXX + (b * d) * hYY + (a * d + b * c) * hXY

theorem corner_diff_dot {α : Type} [Field α] (C X Y : vec3 α)
    (hXX : dot X X = 1) (hYY : dot Y Y = 1) (hXY : dot X Y = 0) (a b a1 b1 c d c1 d1 : α) :
    dot (((C.add (vec3.smul a X)).add (vec3.smul b Y)).sub
        ((C.add (vec3.smul a1 X)).add (vec3.smul b1 Y)))
      (((C.add (vec3.smul c X)).add (vec3.smul d Y)).sub
        ((C.add (vec3.smul c1 X)).add (vec3.smul d1 Y))) =
      (a - a1) * (c - c1) + (b - b1) * (d - d1) := by
  simp only [dot, vec3.add, vec3.sub, vec3.smul] at *
  linear_combination ((a - a1) * (c - c1)) * hXX + ((b - b1) * (d - d1)) * hYY +
    ((a - a1) * (d - d1) + (b - b1) * (c - c1)) * hXY

theorem corner_dot_vec {α : Type} [Field α] (C X Y w : vec3 α) (a b : α) :
    dot (((C.add (vec3.smul a X)).add (vec3.smul b Y)).sub C) w =
      a * dot X w + b * dot Y w := by
  simp only [dot, vec3.add, vec3.sub, vec3.smul]
  ring

theorem sqrt_diag (s : ℝ) (hs : 0 ≤ s) : Real.sqrt (s * s + s * s) = s * Real.sqrt 2 := by
  have h : s * s + s * s = (s * Real.sqrt 2) ^ 2 := by
    rw [mul_pow, Real.sq_sqrt (by norm_num : (0 : ℝ) ≤ 2)]; ring
  rw [h, Real.sqrt_sq (mul_nonneg hs (Real.sqrt_nonneg 2))]

theorem sqrt_side (s : ℝ) (hs : 0 ≤ s) : Real.sqrt (2 * s * (2 * s)) = 2 * s := by
  rw [Real.sqrt_mul_self (by linarith)]

/-- C11 (billboards face the viewer): for a particle with centre `C = position`,
half-size `s = size >= 0` and any angle, and a camera position `Cam ≠ C` with `Cam - C`
not parallel to `(0, 1, 0)`, the geometry shader emits exactly the four vertices of
`(i, j) = (-1,-1), (-1,1), (1,-1), (1,1)`, and for each `(i, j)` with `i, j ∈ {-1, 1}`
the emitted vertex is one of them, its `gl_Position` is the product of the matrices with
the corner `P = C + i*s*X + j*s*Y`, and `P` satisfies `(P - C) . (Cam - C) = 0` and
`|P - C| = s * sqrt 2`; the two edges of the quad at `P` have length `2 s` and are
orthogonal, and `P` and the opposite corner add up to `2 C`: the quad is a square of side
`2 s` centred at `C` in the plane through `C` perpendicular to the direction to the
camera. -/
theorem billboard_faces_viewer (u : Uniforms ℝ) (p : particle ℝ) (i j : Int)
    (_hne : u.camera_position ≠ p.position)
    (hpar : ¬ ∃ t : ℝ, u.camera_position.sub p.position = vec3.smul t ⟨0, 1, 0⟩)
    (hs : 0 ≤ p.size) (hi : i = -1 ∨ i = 1) (hj : j = -1 ∨ j = 1) :
    geometryMain ⟨Real.sqrt, Real.cos, Real.sin⟩ u (vertexMain p) =
      [emitVertex ⟨Real.sqrt, Real.cos, Real.sin⟩ u p.position p.size p.angle (-1) (-1),
       emitVertex ⟨Real.sqrt, Real.cos, Real.sin⟩ u p.position p.size p.angle (-1) 1,
       emitVertex ⟨Real.sqrt, Real.cos, Real.sin⟩ u p.position p.size p.angle 1 (-1),
       emitVertex ⟨Real.sqrt, Real.cos, Real.sin⟩ u p.position p.size p.angle 1 1] ∧
    emitVertex ⟨Real.sqrt, Real.cos, Real.sin⟩ u p.position p.size p.angle i j ∈
      geometryMain ⟨Real.sqrt, Real.cos, Real.sin⟩ u (vertexMain p) ∧
    (emitVertex ⟨Real.sqrt, Real.cos, Real.sin⟩ u p.position p.size p.angle i j).gl_Position =
      ((u.projection.mul u.view).mul u.model).mulVec
        ⟨(cornerPosition ⟨Real.sqrt, Real.cos, Real.sin⟩ u.camera_position p.position
          p.size p.angle i j).x,
         (cornerPosition ⟨Real.sqrt, Real.cos, Real.sin⟩ u.camera_position p.position
          p.size p.angle i j).y,
         (cornerPosition ⟨Real.sqrt, Real.cos, Real.sin⟩ u.camera_position p.position
          p.size p.angle i j).z,
         1⟩ ∧
    dot ((cornerPosition ⟨Real.sqrt, Real.cos, Real.sin⟩ u.camera_position p.position
          p.size p.angle i j).sub p.position)
      (u.camera_position.sub p.position) = 0 ∧
    length ⟨Real.sqrt, Real.cos, Real.sin⟩
      ((cornerPosition ⟨Real.sqrt, Real.cos, Real.sin⟩ u.camera_position p.position
          p.size p.angle i j).sub p.position) =
        p.size * Real.sqrt 2 ∧
    length ⟨Real.sqrt, Real.cos, Real.sin⟩
      ((cornerPosition ⟨Real.sqrt, Real.cos, Real.sin⟩ u.camera_position p.position
          p.size p.angle (-i) j).sub
        (cornerPosition ⟨Real.sqrt, Real.cos, Real.sin⟩ u.camera_position p.position
          p.size p.angle i j)) =
        2 * p.size ∧
    length ⟨Real.sqrt, Real.cos, Real.sin⟩
      ((cornerPosition ⟨Real.sqrt, Real.cos, Real.sin⟩ u.camera_position p.position
          p.size p.angle i (-j)).sub
        (cornerPosition ⟨Real.sqrt, Real.cos, Real.sin⟩ u.camera_position p.position
          p.size p.angle i j)) =
        2 * p.size ∧
    dot
      ((cornerPosition ⟨Real.sqrt, Real.cos, Real.sin⟩ u.camera_position p.position
          p.size p.angle (-i) j).sub
        (cornerPosition ⟨Real.sqrt, Real.cos, Real.sin⟩ u.camera_position p.position
          p.size p.angle i j))
      ((cornerPosition ⟨Real.sqrt, Real.cos, Real.sin⟩ u.camera_position p.position
          p.size p.angle i (-j)).sub
        (cornerPosition ⟨Real.sqrt, Real.cos, Real.sin⟩ u.camera_position p.position
          p.size p.angle i j)) = 0 ∧
    (cornerPosition ⟨Real.sqrt, Real.cos, Real.sin⟩ u.camera_position p.position
          p.size p.angle i j).add
      (cornerPosition ⟨Real.sqrt, Real.cos, Real.sin⟩ u.camera_position p.position
          p.size p.angle (-i) (-j)) =
        p.position.add p.position := by
  obtain ⟨hXX, hYY, hXY, hXd, hYd, _⟩ :=
    billboard_basis u.camera_position p.position p.angle hpar
  have hi2 : ((i : ℝ)) * (i : ℝ) = 1 := by
    rcases hi with h | h <;> subst h <;> norm_num
  have hj2 : ((j : ℝ)) * (j : ℝ) = 1 := by
    rcases hj with h | h <;> subst h <;> norm_num
  have hemit : geometryMain ⟨Real.sqrt, Real.cos, Real.sin⟩ u (vertexMain p) =
      [emitVertex ⟨Real.sqrt, Real.cos, Real.sin⟩ u p.position p.size p.angle (-1) (-1),
       emitVertex ⟨Real.sqrt, Real.cos, Real.sin⟩ u p.position p.size p.angle (-1) 1,
       emitVertex ⟨Real.sqrt, Real.cos, Real.sin⟩ u p.position p.size p.angle 1 (-1),
       emitVertex ⟨Real.sqrt, Real.cos, Real.sin⟩ u p.position p.size p.angle 1 1] := by
    simp only [geometryMain, vertexMain, outerLoop_unroll]
  refine ⟨hemit, ?_, rfl, ?_, ?_, ?_, ?_, ?_, ?_⟩
  · rw [hemit]
    rcases hi with h | h <;> rcases hj with h2 | h2 <;> subst h <;> subst h2 <;> simp
  · unfold cornerPosition
    rw [corner_dot_vec, hXd, hYd]; ring
  · unfold cornerPosition length
    rw [corner_dot _ _ _ hXX hYY hXY]
    have e : (i : ℝ) * p.size * ((i : ℝ) * p.size) + (j : ℝ) * p.size * ((j : ℝ) * p.size) =
        p.size * p.size + p.size * p.size := by
      linear_combination (p.size * p.size) * hi2 + (p.size * p.size) * hj2
    show Real.sqrt _ = _
    rw [e, sqrt_diag p.size hs]
  · unfold cornerPosition length
    rw [corner_diff_dot _ _ _ hXX hYY hXY]
    have e : (((-i : Int) : ℝ) * p.size - (i : ℝ) * p.size) *
          (((-i : Int) : ℝ) * p.size - (i : ℝ) * p.size) +
        ((j : ℝ) * p.size - (j : ℝ) * p.size) * ((j : ℝ) * p.size - (j : ℝ) * p.size) =
          2 * p.size * (2 * p.size) := by
      push_cast
      linear_combination (4 * p.size * p.size) * hi2
    show Real.sqrt _ = _
    rw [e, sqrt_side p.size hs]
  · unfold cornerPosition length
    rw [corner_diff_dot _ _ _ hXX hYY hXY]
    have e : ((i : ℝ) * p.size - (i : ℝ) * p.size) * ((i : ℝ) * p.size - (i : ℝ) * p.size) +
        (((-j : Int) : ℝ) * p.size - (j : ℝ) * p.size) *
          (((-j : Int) : ℝ) * p.size - (j : ℝ) * p.size) =
          2 * p.size * (2 * p.size) := by
      push_cast
      linear_combination (4 * p.size * p.size) * hj2
    show Real.sqrt _ = _
    rw [e, sqrt_side p.size hs]
  · unfold cornerPosition
    rw [corner_diff_dot _ _ _ hXX hYY hXY]
    ring
  · simp only [cornerPosition, vec3.add, vec3.smul, vec3.mk.injEq]
    push_cast
    exact ⟨by ring, by ring, by ring⟩

/-- A concrete billboard for C11: the particle at the origin with half-size 1 and angle
1, seen from `(0, 0, 2)` through identity matrices; the four emitted vertices and the
corner for `(i, j) = (-1, 1)`. -/
theorem billboard_faces_viewer_witness :
    (⟨0, 0, 2⟩ : vec3 ℝ) ≠ ⟨0, 0, 0⟩ ∧
    (¬ ∃ t : ℝ, (⟨0, 0, 2⟩ : vec3 ℝ).sub ⟨0, 0, 0⟩ = vec3.smul t ⟨0, 1, 0⟩) ∧
    geometryMain ⟨Real.sqrt, Real.cos, Real.sin⟩
        (⟨⟨⟨1, 0, 0, 0⟩, ⟨0, 1, 0, 0⟩, ⟨0, 0, 1, 0⟩, ⟨0, 0, 0, 1⟩⟩,
         ⟨⟨1, 0, 0, 0⟩, ⟨0, 1, 0, 0⟩, ⟨0, 0, 1, 0⟩, ⟨0, 0, 0, 1⟩⟩,
         ⟨⟨1, 0, 0, 0⟩, ⟨0, 1, 0, 0⟩, ⟨0, 0, 1, 0⟩, ⟨0, 0, 0, 1⟩⟩,
         ⟨0, 0, 2⟩⟩ : Uniforms ℝ)
        (vertexMain (⟨⟨0, 0, 0⟩, 1, 1, ⟨0, 0, 0⟩, 0⟩ : particle ℝ)) =
      [emitVertex ⟨Real.sqrt, Real.cos, Real.sin⟩
          (⟨⟨⟨1, 0, 0, 0⟩, ⟨0, 1, 0, 0⟩, ⟨0, 0, 1, 0⟩, ⟨0, 0, 0, 1⟩⟩,
           ⟨⟨1, 0, 0, 0⟩, ⟨0, 1, 0, 0⟩, ⟨0, 0, 1, 0⟩, ⟨0, 0, 0, 1⟩⟩,
           ⟨⟨1, 0, 0, 0⟩, ⟨0, 1, 0, 0⟩, ⟨0, 0, 1, 0⟩, ⟨0, 0, 0, 1⟩⟩,
           ⟨0, 0, 2⟩⟩ : Uniforms ℝ)
          ⟨0, 0, 0⟩ 1 1 (-1) (-1),
       emitVertex ⟨Real.sqrt, Real.cos, Real.sin⟩
          (⟨⟨⟨1, 0, 0, 0⟩, ⟨0, 1, 0, 0⟩, ⟨0, 0, 1, 0⟩, ⟨0, 0, 0, 1⟩⟩,
           ⟨⟨1, 0, 0, 0⟩, ⟨0, 1, 0, 0⟩, ⟨0, 0, 1, 0⟩, ⟨0, 0, 0, 1⟩⟩,
           ⟨⟨1, 0, 0, 0⟩, ⟨0, 1, 0, 0⟩, ⟨0, 0, 1, 0⟩, ⟨0, 0, 0, 1⟩⟩,
           ⟨0, 0, 2⟩⟩ : Uniforms ℝ)
          ⟨0, 0, 0⟩ 1 1 (-1) 1,
       emitVertex ⟨Real.sqrt, Real.cos, Real.sin⟩
          (⟨⟨⟨1, 0, 0, 0⟩, ⟨0, 1, 0, 0⟩, ⟨0, 0, 1, 0⟩, ⟨0, 0, 0, 1⟩⟩,
           ⟨⟨1, 0, 0, 0⟩, ⟨0, 1, 0, 0⟩, ⟨0, 0, 1, 0⟩, ⟨0, 0, 0, 1⟩⟩,
           ⟨⟨1, 0, 0, 0⟩, ⟨0, 1, 0, 0⟩, ⟨0, 0, 1, 0⟩, ⟨0, 0, 0, 1⟩⟩,
           ⟨0, 0, 2⟩⟩ : Uniforms ℝ)
          ⟨0, 0, 0⟩ 1 1 1 (-1),
       emitVertex ⟨Real.sqrt, Real.cos, Real.sin⟩
          (⟨⟨⟨1, 0, 0, 0⟩, ⟨0, 1, 0, 0⟩, ⟨0, 0, 1, 0⟩, ⟨0, 0, 0, 1⟩⟩,
           ⟨⟨1, 0, 0, 0⟩, ⟨0, 1, 0, 0⟩, ⟨0, 0, 1, 0⟩, ⟨0, 0, 0, 1⟩⟩,
           ⟨⟨1, 0, 0, 0⟩, ⟨0, 1, 0, 0⟩, ⟨0, 0, 1, 0⟩, ⟨0, 0, 0, 1⟩⟩,
           ⟨0, 0, 2⟩⟩ : Uniforms ℝ)
          ⟨0, 0, 0⟩ 1 1 1 1] ∧
    emitVertex ⟨Real.sqrt, Real.cos, Real.sin⟩
        (⟨⟨⟨1, 0, 0, 0⟩, ⟨0, 1, 0, 0⟩, ⟨0, 0, 1, 0⟩, ⟨0, 0, 0, 1⟩⟩,
         ⟨⟨1, 0, 0, 0⟩, ⟨0, 1, 0, 0⟩, ⟨0, 0, 1, 0⟩, ⟨0, 0, 0, 1⟩⟩,
         ⟨⟨1, 0, 0, 0⟩, ⟨0, 1, 0, 0⟩, ⟨0, 0, 1, 0⟩, ⟨0, 0, 0, 1⟩⟩,
         ⟨0, 0, 2⟩⟩ : Uniforms ℝ)
        ⟨0, 0, 0⟩ 1 1 (-1) 1 ∈
      geometryMain ⟨Real.sqrt, Real.cos, Real.sin⟩
          (⟨⟨⟨1, 0, 0, 0⟩, ⟨0, 1, 0, 0⟩, ⟨0, 0, 1, 0⟩, ⟨0, 0, 0, 1⟩⟩,
           ⟨⟨1, 0, 0, 0⟩, ⟨0, 1, 0, 0⟩, ⟨0, 0, 1, 0⟩, ⟨0, 0, 0, 1⟩⟩,
           ⟨⟨1, 0, 0, 0⟩, ⟨0, 1, 0, 0⟩, ⟨0, 0, 1, 0⟩, ⟨0, 0, 0, 1⟩⟩,
           ⟨0, 0, 2⟩⟩ : Uniforms ℝ)
          (vertexMain (⟨⟨0, 0, 0⟩, 1, 1, ⟨0, 0, 0⟩, 0⟩ : particle ℝ)) ∧
    dot ((cornerPosition ⟨Real.sqrt, Real.cos, Real.sin⟩ (⟨0, 0, 2⟩ : vec3 ℝ) ⟨0, 0, 0⟩
        1 1 (-1) 1).sub ⟨0, 0, 0⟩) ((⟨0, 0, 2⟩ : vec3 ℝ).sub ⟨0, 0, 0⟩) = 0 ∧
    length ⟨Real.sqrt, Real.cos, Real.sin⟩
      ((cornerPosition ⟨Real.sqrt, Real.cos, Real.sin⟩ (⟨0, 0, 2⟩ : vec3 ℝ) ⟨0, 0, 0⟩
        1 1 (-1) 1).sub ⟨0, 0, 0⟩) = 1 * Real.sqrt 2 := by
  have hne : (⟨0, 0, 2⟩ : vec3 ℝ) ≠ ⟨0, 0, 0⟩ := by
    intro h
    have hz := congrArg vec3.z h
    norm_num at hz
  have hpar : ¬ ∃ t : ℝ, (⟨0, 0, 2⟩ : vec3 ℝ).sub ⟨0, 0, 0⟩ = vec3.smul t ⟨0, 1, 0⟩ := by
    rintro ⟨t, ht⟩
    have hz := congrArg vec3.z ht
    simp [vec3.sub, vec3.smul] at hz
  have h := billboard_faces_viewer
    ⟨⟨⟨1, 0, 0, 0⟩, ⟨0, 1, 0, 0⟩, ⟨0, 0, 1, 0⟩, ⟨0, 0, 0, 1⟩⟩,
     ⟨⟨1, 0, 0, 0⟩, ⟨0, 1, 0, 0⟩, ⟨0, 0, 1, 0⟩, ⟨0, 0, 0, 1⟩⟩,
     ⟨⟨1, 0, 0, 0⟩, ⟨0, 1, 0, 0⟩, ⟨0, 0, 1, 0⟩, ⟨0, 0, 0, 1⟩⟩, ⟨0, 0, 2⟩⟩
    ⟨⟨0, 0, 0⟩, 1, 1, ⟨0, 0, 0⟩, 0⟩ (-1) 1 hne hpar zero_le_one (Or.inl rfl) (Or.inr rfl)
  exact ⟨hne, hpar, h.1, h.2.1, h.2.2.2.1, h.2.2.2.2.1⟩

theorem simulate_getElem {α : Type} [LinearOrderedField α]
    (src : RandomSource α) (exp : α → α) (dt : α) (uninit : particle α)
    (ps : List (particle α)) (st : RngState) (i : Nat) (p : particle α)
    (h : ps[i]? = some p) :
    ∃ st1, (simulate src exp dt uninit ps st).1[i]? =
      some (updateParticle src exp dt st1 p).1 := by
  unfold simulate
  simp only []
  split_ifs
  · apply updateAll_getElem
    have hi : i < ps.length := by
      by_contra hc
      rw [List.getElem?_eq_none (by omega)] at h
      exact Option.noConfusion h
    rw [List.getElem?_append_left hi]
    exact h
  · exact updateAll_getElem src exp dt ps st i p h

theorem exp_neg_seven_lt : Real.exp (-7) < 0.0025 := by
  have h1 : (2.7 : ℝ) < Real.exp 1 := lt_trans (by norm_num) Real.exp_one_gt_d9
  have h2 : Real.exp 7 = Real.exp 1 ^ 7 := by
    rw [← Real.exp_nat_mul]; norm_num
  have h3 : (400 : ℝ) < Real.exp 7 := by
    rw [h2]
    calc (400 : ℝ) < 2.7 ^ 7 := by norm_num
      _ < Real.exp 1 ^ 7 := pow_lt_pow_left₀ h1 (by norm_num) (by norm_num)
  rw [Real.exp_neg, inv_lt_comm₀ (Real.exp_pos 7) (by norm_num)]
  norm_num
  exact h3

theorem lifetime_aux (src : RandomSource ℝ) (i : Nat) (steps : List (ℝ × particle ℝ)) :
    ∀ (ps : List (particle ℝ)) (st : RngState) (p : particle ℝ),
      ps[i]? = some p → steps ≠ [] →
      p.size * Real.exp (-(2 * (steps.map Prod.fst).sum)) < 0.001 →
      ∃ (k : Nat) (step : ℝ × particle ℝ) (q : particle ℝ),
        steps[k]? = some step ∧
        (simulateSteps src Real.exp (steps.take k) (ps, st)).1[i]? = some q ∧
        expired (integrate Real.exp step.1 q) = true ∧
        ∃ st1, (simulateSteps src Real.exp (steps.take (k + 1)) (ps, st)).1[i]? =
          some (respawn src st1 (integrate Real.exp step.1 q)).1 := by
  induction steps with
  | nil => intro ps st p _ hne _; exact absurd rfl hne
  | cons s rest ih =>
    intro ps st p hp _ hsize
    obtain ⟨st1, hst1⟩ := simulate_getElem src Real.exp s.1 s.2 ps st i p hp
    by_cases hexp : expired (integrate Real.exp s.1 p) = true
    · refine ⟨0, s, p, by simp, ?_, hexp, st1, ?_⟩
      · simpa [simulateSteps] using hp
      · simp only [List.take_succ_cons, List.take_zero, simulateSteps]
        rw [hst1]
        simp [updateParticle, hexp]
    · have hq : (simulate src Real.exp s.1 s.2 ps st).1[i]? =
          some (integrate Real.exp s.1 p) := by
        rw [hst1]
        simp [updateParticle, hexp]
      have hge : (0.001 : ℝ) ≤ p.size * Real.exp (-s.1 * 2) := by
        simp only [expired, integrate, Bool.or_eq_true, decide_eq_true_eq, not_or,
          not_lt] at hexp
        exact hexp.2
      by_cases hrest : rest = []
      · subst hrest
        simp only [List.map_cons, List.map_nil, List.sum_cons, List.sum_nil, add_zero] at hsize
        have e : -(2 * s.1) = -s.1 * 2 := by ring
        rw [e] at hsize
        exact absurd hsize (not_lt.mpr hge)
      · have hsz : (integrate Real.exp s.1 p).size *
            Real.exp (-(2 * (rest.map Prod.fst).sum)) < 0.001 := by
          simp only [List.map_cons, List.sum_cons] at hsize
          have e : -(2 * (s.1 + (rest.map Prod.fst).sum)) =
              -s.1 * 2 + -(2 * (rest.map Prod.fst).sum) := by ring
          rw [e, Real.exp_add, ← mul_assoc] at hsize
          simpa [integrate] using hsize
        obtain ⟨k, step, q, h1, h2, h3, st2, h4⟩ :=
          ih (simulate src Real.exp s.1 s.2 ps st).1 (simulate src Real.exp s.1 s.2 ps st).2
            (integrate Real.exp s.1 p) hq hrest hsz
        exact ⟨k + 1, step, q, by simpa using h1, by simpa [simulateSteps] using h2, h3,
          st2, by simpa [simulateSteps] using h4⟩

theorem decay_size (steps : List (ℝ × particle ℝ)) :
    ∀ p : particle ℝ, (steps.foldl (fun q s => integrate Real.exp s.1 q) p).size =
      p.size * Real.exp (-(2 * (steps.map Prod.fst).sum)) := by
  induction steps with
  | nil => intro p; simp
  | cons s rest ih =>
    intro p
    rw [List.foldl_cons, ih]
    simp only [List.map_cons, List.sum_cons]
    have e : -(2 * (s.1 + (rest.map Prod.fst).sum)) =
        -s.1 * 2 + -(2 * (rest.map Prod.fst).sum) := by ring
    rw [e, Real.exp_add, ← mul_assoc]
    simp [integrate]

/-- C12 (bounded lifetime): for a particle `p` of size at most 0.4 in slot `i` of the
pool and any sequence of simulated steps whose frame times sum to at least 3.5, the size
of `p` after the integrator of all the steps without a reset is at most
`0.4 * exp(-7) < 0.001`, which meets the expiry condition, and at least one step resets
the particle in slot `i`: at some step `k` the particle `q` found in slot `i`, once
integrated, meets the expiry condition, and the step leaves in slot `i` the particle
`q1` written by the five assignments of the reset, with `position.y = 0`,
`0.2 <= size <= 0.4`, `position.x`, `position.z`, `size` and `angle_velocity` drawn from
the random sources, `angle` and `velocity` those of the integrated particle, and `q1`
not expired. -/
theorem bounded_lifetime (src : RandomSource ℝ) (steps : List (ℝ × particle ℝ))
    (ps : List (particle ℝ)) (st : RngState) (i : Nat) (p : particle ℝ)
    (hp : ps[i]? = some p) (hsize : p.size ≤ 0.4)
    (hsum : 3.5 ≤ (steps.map Prod.fst).sum) :
    (steps.foldl (fun q s => integrate Real.exp s.1 q) p).size ≤ 0.4 * Real.exp (-7) ∧
    (0.4 : ℝ) * Real.exp (-7) < 0.001 ∧
    expired (steps.foldl (fun q s => integrate Real.exp s.1 q) p) = true ∧
    ∃ (k : Nat) (step : ℝ × particle ℝ) (q q1 : particle ℝ) (st1 : RngState),
      steps[k]? = some step ∧
      (simulateSteps src Real.exp (steps.take k) (ps, st)).1[i]? = some q ∧
      expired (integrate Real.exp step.1 q) = true ∧
      (simulateSteps src Real.exp (steps.take (k + 1)) (ps, st)).1[i]? = some q1 ∧
      q1 = (respawn src st1 (integrate Real.exp step.1 q)).1 ∧
      q1.position.x = src.canonical st1.rng * (1 - -1) + -1 ∧
      q1.position.y = 0 ∧
      q1.position.z = src.canonical (st1.rng + 1) * (1 - -1) + -1 ∧
      q1.size = spawnSize (src.rand st1.crand) ∧
      0.2 ≤ q1.size ∧ q1.size ≤ 0.4 ∧
      q1.angle_velocity = src.canonical (st1.rng + 2) * (5 - -5) + -5 ∧
      q1.angle = (integrate Real.exp step.1 q).angle ∧
      q1.velocity = (integrate Real.exp step.1 q).velocity ∧
      expired q1 = false := by
  have h7 := exp_neg_seven_lt
  have hmono : Real.exp (-(2 * (steps.map Prod.fst).sum)) ≤ Real.exp (-7) :=
    Real.exp_le_exp.mpr (by linarith)
  have hpos := Real.exp_pos (-(2 * (steps.map Prod.fst).sum))
  have hle : p.size * Real.exp (-(2 * (steps.map Prod.fst).sum)) ≤ 0.4 * Real.exp (-7) := by
    by_cases h0 : p.size ≤ 0
    · have h1 := mul_nonpos_of_nonpos_of_nonneg h0 hpos.le
      have h2 := Real.exp_pos (-7)
      linarith
    · exact mul_le_mul hsize hmono hpos.le (by norm_num)
  have hsmall : (0.4 : ℝ) * Real.exp (-7) < 0.001 := by
    norm_num at h7 ⊢
    linarith
  refine ⟨?_, hsmall, ?_, ?_⟩
  · rw [decay_size]
    exact hle
  · simp only [expired, Bool.or_eq_true, decide_eq_true_eq]
    right
    rw [decay_size]
    linarith
  · obtain ⟨k, step, q, h1, h2, h3, st1, h4⟩ :=
      lifetime_aux src i steps ps st p hp (by rintro rfl; norm_num at hsum)
        (lt_of_le_of_lt hle hsmall)
    have hf : (respawn src st1 (integrate Real.exp step.1 q)).1 =
        { position := ⟨src.canonical st1.rng * (1 - -1) + -1, 0,
                       src.canonical (st1.rng + 1) * (1 - -1) + -1⟩
          size := spawnSize (src.rand st1.crand)
          angle := (integrate Real.exp step.1 q).angle
          velocity := (integrate Real.exp step.1 q).velocity
          angle_velocity := src.canonical (st1.rng + 2) * (5 - -5) + -5 } := by
      simp [respawn, uniform_real, crand]
    obtain ⟨hlo, hhi⟩ := @spawnSize_bounds ℝ _ (src.rand st1.crand)
    refine ⟨k, step, q, (respawn src st1 (integrate Real.exp step.1 q)).1, st1, h1, h2, h3,
      h4, rfl, ?_, ?_, ?_, ?_, ?_, ?_, ?_, ?_, ?_, ?_⟩
    · rw [hf]
    · rw [hf]
    · rw [hf]
    · rw [hf]
    · rw [hf]; exact hlo
    · rw [hf]; exact hhi
    · rw [hf]
    · rw [hf]
    · rw [hf]
    · rw [hf]
      simp only [expired, Bool.or_eq_false_iff, decide_eq_false_iff_not, not_lt]
      constructor
      · norm_num
      · linarith

/-- A concrete run for C12: one particle of size 0.4 at the origin and three steps of
1, 1 and 1.5 seconds. -/
theorem bounded_lifetime_witness :
    (⟨⟨0, 0, 0⟩, 0.4, 0, ⟨0, 0, 0⟩, 0⟩ : particle ℝ).size ≤ 0.4 ∧
    (3.5 : ℝ) ≤ (([(1, ⟨⟨0, 0, 0⟩, 0, 0, ⟨0, 0, 0⟩, 0⟩), (1, ⟨⟨0, 0, 0⟩, 0, 0, ⟨0, 0, 0⟩, 0⟩),
      (1.5, ⟨⟨0, 0, 0⟩, 0, 0, ⟨0, 0, 0⟩, 0⟩)] : List (ℝ × particle ℝ)).map Prod.fst).sum ∧
    (([(1, ⟨⟨0, 0, 0⟩, 0, 0, ⟨0, 0, 0⟩, 0⟩), (1, ⟨⟨0, 0, 0⟩, 0, 0, ⟨0, 0, 0⟩, 0⟩),
      (1.5, ⟨⟨0, 0, 0⟩, 0, 0, ⟨0, 0, 0⟩, 0⟩)] : List (ℝ × particle ℝ)).foldl
        (fun q s => integrate Real.exp s.1 q)
        (⟨⟨0, 0, 0⟩, 0.4, 0, ⟨0, 0, 0⟩, 0⟩ : particle ℝ)).size ≤
      0.4 * Real.exp (-7) ∧
    (0.4 : ℝ) * Real.exp (-7) < 0.001 ∧
    expired (([(1, ⟨⟨0, 0, 0⟩, 0, 0, ⟨0, 0, 0⟩, 0⟩), (1, ⟨⟨0, 0, 0⟩, 0, 0, ⟨0, 0, 0⟩, 0⟩),
      (1.5, ⟨⟨0, 0, 0⟩, 0, 0, ⟨0, 0, 0⟩, 0⟩)] : List (ℝ × particle ℝ)).foldl
        (fun q s => integrate Real.exp s.1 q)
        (⟨⟨0, 0, 0⟩, 0.4, 0, ⟨0, 0, 0⟩, 0⟩ : particle ℝ)) = true ∧
    ∃ (k : Nat) (step : ℝ × particle ℝ) (q q1 : particle ℝ) (st1 : RngState),
      ([(1, ⟨⟨0, 0, 0⟩, 0, 0, ⟨0, 0, 0⟩, 0⟩), (1, ⟨⟨0, 0, 0⟩, 0, 0, ⟨0, 0, 0⟩, 0⟩),
        (1.5, ⟨⟨0, 0, 0⟩, 0, 0, ⟨0, 0, 0⟩, 0⟩)] : List (ℝ × particle ℝ))[k]? = some step ∧
      (simulateSteps (⟨fun _ => 0, fun _ => 0⟩ : RandomSource ℝ) Real.exp
        (([(1, ⟨⟨0, 0, 0⟩, 0, 0, ⟨0, 0, 0⟩, 0⟩), (1, ⟨⟨0, 0, 0⟩, 0, 0, ⟨0, 0, 0⟩, 0⟩),
          (1.5, ⟨⟨0, 0, 0⟩, 0, 0, ⟨0, 0, 0⟩, 0⟩)] : List (ℝ × particle ℝ)).take k)
        ([(⟨⟨0, 0, 0⟩, 0.4, 0, ⟨0, 0, 0⟩, 0⟩ : particle ℝ)], ⟨0, 0⟩)).1[0]? = some q ∧
      expired (integrate Real.exp step.1 q) = true ∧
      (simulateSteps (⟨fun _ => 0, fun _ => 0⟩ : RandomSource ℝ) Real.exp
        (([(1, ⟨⟨0, 0, 0⟩, 0, 0, ⟨0, 0, 0⟩, 0⟩), (1, ⟨⟨0, 0, 0⟩, 0, 0, ⟨0, 0, 0⟩, 0⟩),
          (1.5, ⟨⟨0, 0, 0⟩, 0, 0, ⟨0, 0, 0⟩, 0⟩)] : List (ℝ × particle ℝ)).take (k + 1))
        ([(⟨⟨0, 0, 0⟩, 0.4, 0, ⟨0, 0, 0⟩, 0⟩ : particle ℝ)], ⟨0, 0⟩)).1[0]? = some q1 ∧
      q1 = (respawn (⟨fun _ => 0, fun _ => 0⟩ : RandomSource ℝ) st1
        (integrate Real.exp step.1 q)).1 ∧
      q1.position.x =
        (⟨fun _ => 0, fun _ => 0⟩ : RandomSource ℝ).canonical st1.rng * (1 - -1) + -1 ∧
      q1.position.y = 0 ∧
      q1.position.z =
        (⟨fun _ => 0, fun _ => 0⟩ : RandomSource ℝ).canonical (st1.rng + 1) * (1 - -1) + -1 ∧
      q1.size = spawnSize ((⟨fun _ => 0, fun _ => 0⟩ : RandomSource ℝ).rand st1.crand) ∧
      0.2 ≤ q1.size ∧ q1.size ≤ 0.4 ∧
      q1.angle_velocity =
        (⟨fun _ => 0, fun _ => 0⟩ : RandomSource ℝ).canonical (st1.rng + 2) * (5 - -5) + -5 ∧
      q1.angle = (integrate Real.exp step.1 q).angle ∧
      q1.velocity = (integrate Real.exp step.1 q).velocity ∧
      expired q1 = false := by
  have h1 : (⟨⟨0, 0, 0⟩, 0.4, 0, ⟨0, 0, 0⟩, 0⟩ : particle ℝ).size ≤ 0.4 := le_refl _
  have h2 : (3.5 : ℝ) ≤ (([(1, ⟨⟨0, 0, 0⟩, 0, 0, ⟨0, 0, 0⟩, 0⟩),
      (1, ⟨⟨0, 0, 0⟩, 0, 0, ⟨0, 0, 0⟩, 0⟩),
      (1.5, ⟨⟨0, 0, 0⟩, 0, 0, ⟨0, 0, 0⟩, 0⟩)] : List (ℝ × particle ℝ)).map Prod.fst).sum := by
    norm_num
  exact ⟨h1, h2, bounded_lifetime _ _ [⟨⟨0, 0, 0⟩, 0.4, 0, ⟨0, 0, 0⟩, 0⟩] ⟨0, 0⟩ 0 _ rfl h1 h2⟩

theorem iterate_velocity {α : Type} [LinearOrderedField α] (exp : α → α) (h : α) (n : Nat)
    (p : particle α) :
    ((integrate exp h)^[n] p).velocity.x = p.velocity.x * exp (-h * 10) ^ n ∧
    ((integrate exp h)^[n] p).velocity.z = p.velocity.z * exp (-h * 10) ^ n ∧
    ((integrate exp h)^[n] p).velocity.y * (1 - exp (-h * 10)) =
      p.velocity.y * exp (-h * 10) ^ n * (1 - exp (-h * 10)) +
        h * 10 * exp (-h * 10) * (1 - exp (-h * 10) ^ n) := by
  induction n with
  | zero => simp
  | succ n ih =>
    obtain ⟨hx, hz, hy⟩ := ih
    rw [Function.iterate_succ_apply']
    simp only [integrate, vec3.scale]
    refine ⟨?_, ?_, ?_⟩
    · rw [hx]; ring
    · rw [hz]; ring
    · linear_combination (exp (-h * 10)) * hy

theorem exp_step_pow (T : ℝ) (n : Nat) (hn : n ≠ 0) :
    Real.exp (-(T / n) * 10) ^ n = Real.exp (-(10 * T)) := by
  rw [← Real.exp_nat_mul]
  congr 1
  have : (n : ℝ) ≠ 0 := Nat.cast_ne_zero.mpr hn
  field_simp
  ring

theorem velocity_y_tendsto (p : particle ℝ) (T : ℝ) (hT : 0 < T) :
    Filter.Tendsto (fun n : Nat => ((integrate Real.exp (T / n))^[n] p).velocity.y)
      Filter.atTop
      (nhds (p.velocity.y * Real.exp (-(10 * T)) + (1 - Real.exp (-(10 * T))))) := by
  have ha : Filter.Tendsto (fun n : Nat => Real.exp (-(T / n) * 10)) Filter.atTop (nhds 1) := by
    have h0 : Filter.Tendsto (fun n : Nat => -(T / (n : ℝ)) * 10) Filter.atTop (nhds 0) := by
      have := ((tendsto_const_div_atTop_nhds_zero_nat T).neg).mul_const 10
      simpa using this
    have := (Real.continuous_exp.tendsto 0).comp h0
    simpa using this
  have hg : Filter.Tendsto
      (fun n : Nat => T / n * 10 * Real.exp (-(T / n) * 10) / (1 - Real.exp (-(T / n) * 10)))
      Filter.atTop (nhds 1) := by
    refine tendsto_of_tendsto_of_tendsto_of_le_of_le' ha tendsto_const_nhds ?_ ?_
    · filter_upwards [Filter.eventually_ge_atTop 1] with n hn
      have hn0 : (0 : ℝ) < n := by exact_mod_cast hn
      have hx : 0 < T / n * 10 := by positivity
      have h1 : 1 - T / n * 10 ≤ Real.exp (-(T / n) * 10) := by
        have := Real.one_sub_le_exp_neg (T / n * 10)
        rwa [show -(T / (n : ℝ) * 10) = -(T / n) * 10 by ring] at this
      have h2 : Real.exp (-(T / n) * 10) < 1 := by
        apply Real.exp_lt_one_iff.mpr
        linarith
      have h3 : 0 < 1 - Real.exp (-(T / n) * 10) := by linarith
      rw [le_div_iff₀ h3]
      have hpos := Real.exp_pos (-(T / n) * 10)
      nlinarith
    · filter_upwards [Filter.eventually_ge_atTop 1] with n hn
      have hn0 : (0 : ℝ) < n := by exact_mod_cast hn
      have hx : 0 < T / n * 10 := by positivity
      have h2 : Real.exp (-(T / n) * 10) < 1 := by
        apply Real.exp_lt_one_iff.mpr
        linarith
      have h3 : 0 < 1 - Real.exp (-(T / n) * 10) := by linarith
      rw [div_le_one h3]
      have h4 : T / n * 10 + 1 ≤ Real.exp (T / n * 10) := Real.add_one_le_exp _
      have h5 : Real.exp (-(T / n) * 10) * Real.exp (T / n * 10) = 1 := by
        rw [← Real.exp_add]
        simp
      have hpos := Real.exp_pos (-(T / n) * 10)
      nlinarith
  have hlim := (hg.const_mul (1 - Real.exp (-(10 * T)))).const_add
    (p.velocity.y * Real.exp (-(10 * T)))
  rw [mul_one] at hlim
  refine hlim.congr' ?_
  filter_upwards [Filter.eventually_ge_atTop 1] with n hn
  have hn0 : (0 : ℝ) < n := by exact_mod_cast hn
  have hx : 0 < T / n * 10 := by positivity
  have h2 : Real.exp (-(T / n) * 10) < 1 := by
    apply Real.exp_lt_one_iff.mpr
    linarith
  have h3 : (1 - Real.exp (-(T / n) * 10)) ≠ 0 := by linarith
  have hy := (iterate_velocity Real.exp (T / n) n p).2.2
  rw [exp_step_pow T n (by omega)] at hy
  show p.velocity.y * Real.exp (-(10 * T)) + (1 - Real.exp (-(10 * T))) *
    (T / n * 10 * Real.exp (-(T / n) * 10) / (1 - Real.exp (-(T / n) * 10))) =
    ((integrate Real.exp (T / n))^[n] p).velocity.y
  generalize ((integrate Real.exp (T / n))^[n] p).velocity.y = y at hy ⊢
  generalize Real.exp (-(T / n) * 10) = a at hy h3 ⊢
  generalize Real.exp (-(10 * T)) = E at hy ⊢
  generalize T / (n : ℝ) * 10 = x at hy ⊢
  field_simp
  linear_combination -hy

theorem exp_gap (T : ℝ) (hT : 0 < T) :
    (10 * T + 1) * Real.exp (-(10 * T)) < 1 := by
  have h1 : 10 * T + 1 < Real.exp (10 * T) := Real.add_one_lt_exp (by positivity)
  have h2 : Real.exp (10 * T) * Real.exp (-(10 * T)) = 1 := by
    rw [← Real.exp_add]; simp
  have hpos := Real.exp_pos (-(10 * T))
  nlinarith

/-- Counterexample to C13 as stated: for a particle at rest and `T = 1`, the vertical
velocity after `n` steps of length `1 / n` does not converge to the vertical velocity
`10 * exp(-10)` of one step of length 1 (it converges to `1 - exp(-10)`). -/
theorem drag_decay_counterexample :
    ¬ Filter.Tendsto
      (fun n : Nat => ((integrate Real.exp (1 / n))^[n]
        (⟨⟨0, 0, 0⟩, 1, 0, ⟨0, 0, 0⟩, 0⟩ : particle ℝ)).velocity.y)
      Filter.atTop
      (nhds (integrate Real.exp 1
        (⟨⟨0, 0, 0⟩, 1, 0, ⟨0, 0, 0⟩, 0⟩ : particle ℝ)).velocity.y) := by
  intro h
  have h1 := velocity_y_tendsto (⟨⟨0, 0, 0⟩, 1, 0, ⟨0, 0, 0⟩, 0⟩ : particle ℝ) 1 one_pos
  have h2 := tendsto_nhds_unique h h1
  have h3 := exp_gap 1 one_pos
  simp only [integrate, vec3.scale] at h2
  have e : (-1 * 10 : ℝ) = -(10 * 1) := by ring
  rw [e] at h2
  linarith

/-- C13, as amended: for every initial velocity and every total time `T > 0`, the `x`
and `z` components of the velocity after `n ≥ 1` consecutive integrator steps of length
`T / n` equal those after one step of length `T`, so they converge to them; the `y`
component converges as well, but to `v_y * exp(-10 T) + (1 - exp(-10 T))`, which is not
the `y` velocity `(v_y + 10 T) * exp(-10 T)` of the single step. -/
theorem drag_decay (p : particle ℝ) (T : ℝ) (hT : 0 < T) :
    (∀ n : Nat, n ≠ 0 →
      ((integrate Real.exp (T / n))^[n] p).velocity.x = (integrate Real.exp T p).velocity.x ∧
      ((integrate Real.exp (T / n))^[n] p).velocity.z = (integrate Real.exp T p).velocity.z) ∧
    Filter.Tendsto (fun n : Nat => ((integrate Real.exp (T / n))^[n] p).velocity.x)
      Filter.atTop (nhds (integrate Real.exp T p).velocity.x) ∧
    Filter.Tendsto (fun n : Nat => ((integrate Real.exp (T / n))^[n] p).velocity.z)
      Filter.atTop (nhds (integrate Real.exp T p).velocity.z) ∧
    Filter.Tendsto (fun n : Nat => ((integrate Real.exp (T / n))^[n] p).velocity.y)
      Filter.atTop
      (nhds (p.velocity.y * Real.exp (-(10 * T)) + (1 - Real.exp (-(10 * T))))) ∧
    (integrate Real.exp T p).velocity.y = (p.velocity.y + 10 * T) * Real.exp (-(10 * T)) ∧
    p.velocity.y * Real.exp (-(10 * T)) + (1 - Real.exp (-(10 * T))) ≠
      (integrate Real.exp T p).velocity.y := by
  have e : -T * 10 = -(10 * T) := by ring
  have hxz : ∀ n : Nat, n ≠ 0 →
      ((integrate Real.exp (T / n))^[n] p).velocity.x = (integrate Real.exp T p).velocity.x ∧
      ((integrate Real.exp (T / n))^[n] p).velocity.z =
        (integrate Real.exp T p).velocity.z := by
    intro n hn
    obtain ⟨hx, hz, _⟩ := iterate_velocity Real.exp (T / n) n p
    rw [hx, hz, exp_step_pow T n hn]
    simp [integrate, vec3.scale, e]
  have hy1 : (integrate Real.exp T p).velocity.y =
      (p.velocity.y + 10 * T) * Real.exp (-(10 * T)) := by
    simp only [integrate, vec3.scale, e]
    ring
  refine ⟨hxz, ?_, ?_, velocity_y_tendsto p T hT, hy1, ?_⟩
  · refine tendsto_const_nhds.congr' ?_
    filter_upwards [Filter.eventually_ge_atTop 1] with n hn
    exact ((hxz n (by omega)).1).symm
  · refine tendsto_const_nhds.congr' ?_
    filter_upwards [Filter.eventually_ge_atTop 1] with n hn
    exact ((hxz n (by omega)).2).symm
  · rw [hy1]
    have h3 := exp_gap T hT
    intro h
    linarith

/-- A concrete instance of C13: a particle with velocity `(1, 0, 2)` and `T = 1`,
split into four steps of `1 / 4`. -/
theorem drag_decay_witness :
    (0 : ℝ) < 1 ∧
    ((integrate Real.exp (1 / (4 : Nat)))^[4]
      (⟨⟨0, 0, 0⟩, 1, 0, ⟨1, 0, 2⟩, 0⟩ : particle ℝ)).velocity.x =
      (integrate Real.exp 1 (⟨⟨0, 0, 0⟩, 1, 0, ⟨1, 0, 2⟩, 0⟩ : particle ℝ)).velocity.x ∧
    (0 : ℝ) * Real.exp (-(10 * 1)) + (1 - Real.exp (-(10 * 1))) ≠
      (integrate Real.exp 1 (⟨⟨0, 0, 0⟩, 1, 0, ⟨1, 0, 2⟩, 0⟩ : particle ℝ)).velocity.y :=
  ⟨one_pos,
   ((drag_decay ⟨⟨0, 0, 0⟩, 1, 0, ⟨1, 0, 2⟩, 0⟩ 1 one_pos).1 4 (by decide)).1,
   (drag_decay ⟨⟨0, 0, 0⟩, 1, 0, ⟨1, 0, 2⟩, 0⟩ 1 one_pos).2.2.2.2.2⟩

theorem texture1D_ramp {α : Type} [LinearOrderedField α] [FloorRing α] (s : α) (k : Int)
    (h1 : (k : α) ≤ s * 3 - 1 / 2) (h2 : s * 3 - 1 / 2 < (k : α) + 1) :
    texture1D (tex_colors : List (vec4 α)) s =
      vec4.mix ((tex_colors : List (vec4 α)).getD (k % 3).toNat ⟨0, 0, 0, 0⟩)
        ((tex_colors : List (vec4 α)).getD ((k + 1) % 3).toNat ⟨0, 0, 0, 0⟩)
        (s * 3 - 1 / 2 - (k : α)) := by
  have hf : Int.floor (s * 3 - 1 / 2) = k := Int.floor_eq_iff.mpr ⟨h1, h2⟩
  have hn : (((tex_colors : List (vec4 α)).length : Nat) : Int) = 3 := rfl
  unfold texture1D
  simp only [hn, Int.cast_ofNat]
  rw [hf]

theorem ramp_pieces {α : Type} [LinearOrderedField α] [FloorRing α] (s : α) :
    (-(1 / 6) ≤ s → s < 1 / 6 →
      texture1D (tex_colors : List (vec4 α)) s = ⟨1, 1 / 2 - 3 * s, 1 / 2 - 3 * s, 1⟩) ∧
    (1 / 6 ≤ s → s < 1 / 2 →
      texture1D (tex_colors : List (vec4 α)) s = ⟨1, 3 * s - 1 / 2, 0, 1⟩) ∧
    (1 / 2 ≤ s → s < 5 / 6 →
      texture1D (tex_colors : List (vec4 α)) s = ⟨1, 1, 3 * s - 3 / 2, 1⟩) ∧
    (5 / 6 ≤ s → s < 7 / 6 →
      texture1D (tex_colors : List (vec4 α)) s = ⟨1, 7 / 2 - 3 * s, 7 / 2 - 3 * s, 1⟩) := by
  have e0 : ((-1 : Int) % 3).toNat = 2 := by decide
  have e1 : ((-1 + 1 : Int) % 3).toNat = 0 := by decide
  have e2 : ((0 : Int) % 3).toNat = 0 := by decide
  have e3 : ((0 + 1 : Int) % 3).toNat = 1 := by decide
  have e4 : ((1 : Int) % 3).toNat = 1 := by decide
  have e5 : ((1 + 1 : Int) % 3).toNat = 2 := by decide
  have e6 : ((2 : Int) % 3).toNat = 2 := by decide
  have e7 : ((2 + 1 : Int) % 3).toNat = 0 := by decide
  refine ⟨fun h1 h2 => ?_, fun h1 h2 => ?_, fun h1 h2 => ?_, fun h1 h2 => ?_⟩
  · rw [texture1D_ramp s (-1) (by push_cast; linarith) (by push_cast; linarith), e0, e1]
    simp only [tex_colors, List.getD_cons_zero, List.getD_cons_succ, vec4.mix, vec4.add,
      vec4.scale, vec4.mk.injEq]
    push_cast
    exact ⟨by ring, by ring, by ring, by ring⟩
  · rw [texture1D_ramp s 0 (by push_cast; linarith) (by push_cast; linarith), e2, e3]
    simp only [tex_colors, List.getD_cons_zero, List.getD_cons_succ, vec4.mix, vec4.add,
      vec4.scale, vec4.mk.injEq]
    push_cast
    exact ⟨by ring, by ring, by ring, by ring⟩
  · rw [texture1D_ramp s 1 (by push_cast; linarith) (by push_cast; linarith), e4, e5]
    simp only [tex_colors, List.getD_cons_zero, List.getD_cons_succ, vec4.mix, vec4.add,
      vec4.scale, vec4.mk.injEq]
    push_cast
    exact ⟨by ring, by ring, by ring, by ring⟩
  · rw [texture1D_ramp s 2 (by push_cast; linarith) (by push_cast; linarith), e6, e7]
    simp only [tex_colors, List.getD_cons_zero, List.getD_cons_succ, vec4.mix, vec4.add,
      vec4.scale, vec4.mk.injEq]
    push_cast
    exact ⟨by ring, by ring, by ring, by ring⟩

/-- Counterexample to C14 as stated: sampled at `alpha = 0`, and likewise at
`alpha = 1`, the ramp returns `(1, 1/2, 1/2, 1)`, the midpoint of the last control
colour (white) and the first (red), not a control colour; and at `alpha = 1/4` it
returns `(1, 1/4, 0, 1)`, not the colour `(1, 1/2, 0, 1)` at position `2 * alpha`
between red and yellow. -/
theorem ramp_boundary_counterexample :
    texture1D (tex_colors : List (vec4 ℝ)) 0 = ⟨1, 1 / 2, 1 / 2, 1⟩ ∧
    texture1D (tex_colors : List (vec4 ℝ)) 1 = ⟨1, 1 / 2, 1 / 2, 1⟩ ∧
    texture1D (tex_colors : List (vec4 ℝ)) (1 / 4) = ⟨1, 1 / 4, 0, 1⟩ ∧
    texture1D (tex_colors : List (vec4 ℝ)) 0 ≠ ⟨1, 0, 0, 1⟩ ∧
    texture1D (tex_colors : List (vec4 ℝ)) 1 ≠ ⟨1, 1, 1, 1⟩ ∧
    texture1D (tex_colors : List (vec4 ℝ)) (1 / 4) ≠
      vec4.mix ⟨1, 0, 0, 1⟩ ⟨1, 1, 0, 1⟩ (2 * (1 / 4)) := by
  have h0 : texture1D (tex_colors : List (vec4 ℝ)) 0 = ⟨1, 1 / 2, 1 / 2, 1⟩ := by
    rw [(ramp_pieces (0 : ℝ)).1 (by norm_num) (by norm_num)]
    norm_num
  have h1 : texture1D (tex_colors : List (vec4 ℝ)) 1 = ⟨1, 1 / 2, 1 / 2, 1⟩ := by
    rw [(ramp_pieces (1 : ℝ)).2.2.2 (by norm_num) (by norm_num)]
    norm_num
  have h4 : texture1D (tex_colors : List (vec4 ℝ)) (1 / 4) = ⟨1, 1 / 4, 0, 1⟩ := by
    rw [(ramp_pieces (1 / 4 : ℝ)).2.1 (by norm_num) (by norm_num)]
    norm_num
  refine ⟨h0, h1, h4, ?_, ?_, ?_⟩
  · rw [h0]; intro h; have := congrArg vec4.y h; norm_num at this
  · rw [h1]; intro h; have := congrArg vec4.y h; norm_num at this
  · rw [h4]; intro h; have := congrArg vec4.y h
    norm_num [vec4.mix, vec4.add, vec4.scale] at this

/-- C14, as amended: sampling the 3-entry ramp at `alpha` in `[0, 1]` returns the linear
interpolation of two neighbouring control colours at position `3 * alpha - 1/2` counted
from control colour 0, the neighbours wrapping around at both ends: white to red for
`alpha < 1/6` and for `alpha ≥ 5/6`, red to yellow on `[1/6, 1/2)`, yellow to white on
`[1/2, 5/6)`. It returns the control colours exactly at `alpha = 1/6, 1/2, 5/6`, and the
midpoint `(1, 1/2, 1/2, 1)` of white and red at `alpha = 0` and at `alpha = 1`. -/
theorem ramp_sampling {α : Type} [LinearOrderedField α] [FloorRing α] (alpha : α)
    (h0 : 0 ≤ alpha) (h1 : alpha ≤ 1) :
    (alpha < 1 / 6 → texture1D (tex_colors : List (vec4 α)) alpha =
      vec4.mix ⟨1, 1, 1, 1⟩ ⟨1, 0, 0, 1⟩ (3 * alpha - 1 / 2 + 1)) ∧
    (1 / 6 ≤ alpha → alpha < 1 / 2 → texture1D (tex_colors : List (vec4 α)) alpha =
      vec4.mix ⟨1, 0, 0, 1⟩ ⟨1, 1, 0, 1⟩ (3 * alpha - 1 / 2)) ∧
    (1 / 2 ≤ alpha → alpha < 5 / 6 → texture1D (tex_colors : List (vec4 α)) alpha =
      vec4.mix ⟨1, 1, 0, 1⟩ ⟨1, 1, 1, 1⟩ (3 * alpha - 1 / 2 - 1)) ∧
    (5 / 6 ≤ alpha → texture1D (tex_colors : List (vec4 α)) alpha =
      vec4.mix ⟨1, 1, 1, 1⟩ ⟨1, 0, 0, 1⟩ (3 * alpha - 1 / 2 - 2)) ∧
    texture1D (tex_colors : List (vec4 α)) (1 / 6) = ⟨1, 0, 0, 1⟩ ∧
    texture1D (tex_colors : List (vec4 α)) (1 / 2) = ⟨1, 1, 0, 1⟩ ∧
    texture1D (tex_colors : List (vec4 α)) (5 / 6) = ⟨1, 1, 1, 1⟩ ∧
    texture1D (tex_colors : List (vec4 α)) 0 = ⟨1, 1 / 2, 1 / 2, 1⟩ ∧
    texture1D (tex_colors : List (vec4 α)) 1 = ⟨1, 1 / 2, 1 / 2, 1⟩ := by
  refine ⟨fun h => ?_, fun h2 h3 => ?_, fun h2 h3 => ?_, fun h2 => ?_, ?_, ?_, ?_, ?_, ?_⟩
  · rw [(ramp_pieces alpha).1 (by linarith) h]
    simp only [vec4.mix, vec4.add, vec4.scale, vec4.mk.injEq]
    exact ⟨by ring, by ring, by ring, by ring⟩
  · rw [(ramp_pieces alpha).2.1 h2 h3]
    simp only [vec4.mix, vec4.add, vec4.scale, vec4.mk.injEq]
    exact ⟨by ring, by ring, by ring, by ring⟩
  · rw [(ramp_pieces alpha).2.2.1 h2 h3]
    simp only [vec4.mix, vec4.add, vec4.scale, vec4.mk.injEq]
    exact ⟨by ring, by ring, by ring, by ring⟩
  · rw [(ramp_pieces alpha).2.2.2 h2 (by linarith)]
    simp only [vec4.mix, vec4.add, vec4.scale, vec4.mk.injEq]
    exact ⟨by ring, by ring, by ring, by ring⟩
  · rw [(ramp_pieces (1 / 6 : α)).2.1 (le_refl _) (by norm_num)]
    norm_num
  · rw [(ramp_pieces (1 / 2 : α)).2.2.1 (le_refl _) (by norm_num)]
    norm_num
  · rw [(ramp_pieces (5 / 6 : α)).2.2.2 (le_refl _) (by norm_num)]
    norm_num
  · rw [(ramp_pieces (0 : α)).1 (by norm_num) (by norm_num)]
    norm_num
  · rw [(ramp_pieces (1 : α)).2.2.2 (by norm_num) (by norm_num)]
    norm_num

/-- A concrete sample for C14: at `alpha = 1/3` the ramp returns `(1, 1/2, 0, 1)`,
halfway between red and yellow. -/
theorem ramp_sampling_witness :
    (0 : ℝ) ≤ 1 / 3 ∧ (1 / 3 : ℝ) ≤ 1 ∧ (1 / 6 : ℝ) ≤ 1 / 3 ∧ (1 / 3 : ℝ) < 1 / 2 ∧
    texture1D (tex_colors : List (vec4 ℝ)) (1 / 3) =
      vec4.mix ⟨1, 0, 0, 1⟩ ⟨1, 1, 0, 1⟩ (3 * (1 / 3) - 1 / 2) :=
  ⟨by norm_num, by norm_num, by norm_num, by norm_num,
   (ramp_sampling (1 / 3 : ℝ) (by norm_num) (by norm_num)).2.1 (by norm_num) (by norm_num)⟩

/-- Counterexample to C16 as stated: for a sprite texel `(1/6, 1/2, 1/2, 1)` the shader
indexes the ramp with 1/6 and writes 1/6 to the alpha channel (the output is
`(1, 0, 0, 1/6)`), whereas the median of the three channels is 1/2, where the ramp holds
`(1, 1, 0, 1)`. -/
theorem ramp_input_counterexample :
    fragmentMain (fun _ => (⟨1 / 6, 1 / 2, 1 / 2, 1⟩ : vec4 ℝ))
      (texture1D (tex_colors : List (vec4 ℝ))) ⟨0, 0⟩ = ⟨1, 0, 0, 1 / 6⟩ ∧
    Practice15.median (⟨1 / 6, 1 / 2, 1 / 2⟩ : vec3 ℝ) = 1 / 2 ∧
    (fragmentMain (fun _ => (⟨1 / 6, 1 / 2, 1 / 2, 1⟩ : vec4 ℝ))
      (texture1D (tex_colors : List (vec4 ℝ))) ⟨0, 0⟩).w ≠
        Practice15.median (⟨1 / 6, 1 / 2, 1 / 2⟩ : vec3 ℝ) ∧
    texture1D (tex_colors : List (vec4 ℝ))
      (Practice15.median (⟨1 / 6, 1 / 2, 1 / 2⟩ : vec3 ℝ)) = ⟨1, 1, 0, 1⟩ := by
  have hm : Practice15.median (⟨1 / 6, 1 / 2, 1 / 2⟩ : vec3 ℝ) = 1 / 2 := by
    simp only [Practice15.median]
    have a : min (1 / 6 : ℝ) (1 / 2) = 1 / 6 := min_eq_left (by norm_num)
    have b : max (1 / 6 : ℝ) (1 / 2) = 1 / 2 := max_eq_right (by norm_num)
    rw [a, b, min_self]
    exact max_eq_right (by norm_num)
  have hr : texture1D (tex_colors : List (vec4 ℝ)) (1 / 6) = ⟨1, 0, 0, 1⟩ := by
    rw [(ramp_pieces (1 / 6 : ℝ)).2.1 (le_refl _) (by norm_num)]
    norm_num
  have hy : texture1D (tex_colors : List (vec4 ℝ)) (1 / 2) = ⟨1, 1, 0, 1⟩ := by
    rw [(ramp_pieces (1 / 2 : ℝ)).2.2.1 (le_refl _) (by norm_num)]
    norm_num
  refine ⟨?_, hm, ?_, ?_⟩
  · simp only [fragmentMain, hr]
  · rw [hm]
    simp only [fragmentMain]
    norm_num
  · rw [hm, hy]

/-- C16, as amended: in the particle fragment stage the scalar that indexes the colour
ramp and is written to the alpha channel of the output colour is the R channel of the
sprite texel sampled at the texture coordinate; the G, B and A channels of the texel do
not influence the output. -/
theorem ramp_input {α : Type} (particle_texture : vec2 α → vec4 α)
    (particle_color : α → vec4 α) (texcoord : vec2 α) :
    (fragmentMain particle_texture particle_color texcoord).w =
      (particle_texture texcoord).x ∧
    (fragmentMain particle_texture particle_color texcoord).x =
      (particle_color (particle_texture texcoord).x).x ∧
    (fragmentMain particle_texture particle_color texcoord).y =
      (particle_color (particle_texture texcoord).x).y ∧
    (fragmentMain particle_texture particle_color texcoord).z =
      (particle_color (particle_texture texcoord).x).z ∧
    (∀ other : vec2 α → vec4 α, (other texcoord).x = (particle_texture texcoord).x →
      fragmentMain other particle_color texcoord =
        fragmentMain particle_texture particle_color texcoord) := by
  refine ⟨rfl, rfl, rfl, rfl, fun other h => ?_⟩
  simp only [fragmentMain, h]

/-- A concrete pair of texels for C16: `(1/6, 1/2, 1/2, 1)` and `(1/6, 0, 1, 0)` have the
same R channel and give the same output colour. -/
theorem ramp_input_witness :
    ((fun _ => (⟨1 / 6, 0, 1, 0⟩ : vec4 ℝ)) (⟨0, 0⟩ : vec2 ℝ)).x =
      ((fun _ => (⟨1 / 6, 1 / 2, 1 / 2, 1⟩ : vec4 ℝ)) (⟨0, 0⟩ : vec2 ℝ)).x ∧
    fragmentMain (fun _ => (⟨1 / 6, 0, 1, 0⟩ : vec4 ℝ))
      (texture1D (tex_colors : List (vec4 ℝ))) ⟨0, 0⟩ =
    fragmentMain (fun _ => (⟨1 / 6, 1 / 2, 1 / 2, 1⟩ : vec4 ℝ))
      (texture1D (tex_colors : List (vec4 ℝ))) ⟨0, 0⟩ :=
  ⟨rfl, (ramp_input (fun _ => (⟨1 / 6, 1 / 2, 1 / 2, 1⟩ : vec4 ℝ))
    (texture1D (tex_colors : List (vec4 ℝ))) ⟨0, 0⟩).2.2.2.2
    (fun _ => (⟨1 / 6, 0, 1, 0⟩ : vec4 ℝ)) rfl⟩

theorem floats_length {α : Type} (p : particle α) : p.floats.length = 9 := rfl

theorem bufferData_record {α : Type} (ps : List (particle α)) (k : Nat) (p : particle α)
    (h : ps[k]? = some p) :
    ((ps.flatMap particle.floats).drop (9 * k)).take 9 = p.floats := by
  induction ps generalizing k with
  | nil => simp at h
  | cons a ps ih =>
    cases k with
    | zero =>
      simp only [List.getElem?_cons_zero, Option.some.injEq] at h
      subst h
      simp only [List.flatMap_cons, Nat.mul_zero, List.drop_zero]
      rw [List.take_append_of_le_length (by rw [floats_length])]
      exact List.take_of_length_le (by rw [floats_length])
    | succ k =>
      simp only [List.getElem?_cons_succ] at h
      have e : 9 * (k + 1) = a.floats.length + 9 * k := by rw [floats_length]; ring
      rw [List.flatMap_cons, e, List.drop_append]
      exact ih k h

theorem bufferData_length {α : Type} (ps : List (particle α)) :
    (ps.flatMap particle.floats).length = 9 * ps.length := by
  induction ps with
  | nil => rfl
  | cons a ps ih =>
    rw [List.flatMap_cons, List.length_append, ih, floats_length, List.length_cons]
    ring

theorem fetch_of_record {α : Type} (buffer fl : List α) (k j size : Nat)
    (h : (buffer.drop (9 * k)).take 9 = fl) (hj : j + size ≤ 9) :
    (buffer.drop (9 * k + j)).take size = (fl.drop j).take size := by
  subst h
  rw [List.drop_take, List.take_take, List.drop_drop]
  congr 1
  omega

/-- Counterexample to C17 as stated: for a pool of one particle whose nine members are
1, ..., 9 the upload is 36 bytes, not 20, and the uploaded floats include the velocity
(6, 7, 8) and the angular velocity 9. -/
theorem upload_layout_counterexample :
    (bufferData [(⟨⟨1, 2, 3⟩, 4, 5, ⟨6, 7, 8⟩, 9⟩ : particle ℝ)]).1 = 36 ∧
    (bufferData [(⟨⟨1, 2, 3⟩, 4, 5, ⟨6, 7, 8⟩, 9⟩ : particle ℝ)]).1 ≠ 20 * 1 ∧
    (bufferData [(⟨⟨1, 2, 3⟩, 4, 5, ⟨6, 7, 8⟩, 9⟩ : particle ℝ)]).2 =
      [1, 2, 3, 4, 5, 6, 7, 8, 9] :=
  ⟨rfl, by decide, rfl⟩

/-- C17, as amended: the buffer uploaded each frame holds one record per pool particle,
in pool order, and each record is the whole `struct particle`, 36 bytes: position
(3 floats at byte offset 0), size (offset 12), angle (offset 16), velocity (3 floats
at offset 20) and angular velocity (offset 32), so the upload is `36 * (pool size)`
bytes; the three vertex attributes, set up with stride 36, read only position, size and
angle of each record. -/
theorem upload_layout {α : Type} (ps : List (particle α)) (k : Nat) (p : particle α)
    (h : ps[k]? = some p) :
    (bufferData ps).1 = 36 * ps.length ∧
    (bufferData ps).2.length * sizeof_float = (bufferData ps).1 ∧
    sizeof_particle = 36 ∧
    fetchAttrib (bufferData ps).2 3 sizeof_particle 0 k =
      [p.position.x, p.position.y, p.position.z] ∧
    fetchAttrib (bufferData ps).2 1 sizeof_particle 12 k = [p.size] ∧
    fetchAttrib (bufferData ps).2 1 sizeof_particle 16 k = [p.angle] ∧
    fetchAttrib (bufferData ps).2 3 sizeof_particle 20 k =
      [p.velocity.x, p.velocity.y, p.velocity.z] ∧
    fetchAttrib (bufferData ps).2 1 sizeof_particle 32 k = [p.angle_velocity] ∧
    (vertexMain p).gl_Position =
      ⟨p.position.x, p.position.y, p.position.z, p.size⟩ ∧
    (vertexMain p).out_angle = p.angle := by
  have hrec := bufferData_record ps k p h
  have hlen := bufferData_length ps
  have e0 : (0 + k * 36) / 4 = 9 * k + 0 := by omega
  have e12 : (12 + k * 36) / 4 = 9 * k + 3 := by omega
  have e16 : (16 + k * 36) / 4 = 9 * k + 4 := by omega
  have e20 : (20 + k * 36) / 4 = 9 * k + 5 := by omega
  have e32 : (32 + k * 36) / 4 = 9 * k + 8 := by omega
  refine ⟨?_, ?_, rfl, ?_, ?_, ?_, ?_, ?_, rfl, rfl⟩
  · simp only [bufferData, sizeof_particle, sizeof_float]; ring
  · simp only [bufferData, sizeof_particle, sizeof_float, hlen]; ring
  · simp only [fetchAttrib, bufferData, sizeof_particle, sizeof_float, e0]
    rw [fetch_of_record _ _ k 0 3 hrec (by norm_num)]; rfl
  · simp only [fetchAttrib, bufferData, sizeof_particle, sizeof_float, e12]
    rw [fetch_of_record _ _ k 3 1 hrec (by norm_num)]; rfl
  · simp only [fetchAttrib, bufferData, sizeof_particle, sizeof_float, e16]
    rw [fetch_of_record _ _ k 4 1 hrec (by norm_num)]; rfl
  · simp only [fetchAttrib, bufferData, sizeof_particle, sizeof_float, e20]
    rw [fetch_of_record _ _ k 5 3 hrec (by norm_num)]; rfl
  · simp only [fetchAttrib, bufferData, sizeof_particle, sizeof_float, e32]
    rw [fetch_of_record _ _ k 8 1 hrec (by norm_num)]; rfl

/-- A concrete pool for C17: two particles, the second with members 11, ..., 19; the
attributes of vertex 1 are read at bytes 36, 48 and 52. -/
theorem upload_layout_witness :
    [(⟨⟨1, 2, 3⟩, 4, 5, ⟨6, 7, 8⟩, 9⟩ : particle ℝ),
      ⟨⟨11, 12, 13⟩, 14, 15, ⟨16, 17, 18⟩, 19⟩][1]? =
      some ⟨⟨11, 12, 13⟩, 14, 15, ⟨16, 17, 18⟩, 19⟩ ∧
    (bufferData [(⟨⟨1, 2, 3⟩, 4, 5, ⟨6, 7, 8⟩, 9⟩ : particle ℝ),
      ⟨⟨11, 12, 13⟩, 14, 15, ⟨16, 17, 18⟩, 19⟩]).1 = 36 * 2 ∧
    fetchAttrib (bufferData [(⟨⟨1, 2, 3⟩, 4, 5, ⟨6, 7, 8⟩, 9⟩ : particle ℝ),
      ⟨⟨11, 12, 13⟩, 14, 15, ⟨16, 17, 18⟩, 19⟩]).2 3 sizeof_particle 0 1 = [11, 12, 13] ∧
    fetchAttrib (bufferData [(⟨⟨1, 2, 3⟩, 4, 5, ⟨6, 7, 8⟩, 9⟩ : particle ℝ),
      ⟨⟨11, 12, 13⟩, 14, 15, ⟨16, 17, 18⟩, 19⟩]).2 1 sizeof_particle 12 1 = [14] :=
  ⟨rfl,
   (upload_layout [(⟨⟨1, 2, 3⟩, 4, 5, ⟨6, 7, 8⟩, 9⟩ : particle ℝ),
      ⟨⟨11, 12, 13⟩, 14, 15, ⟨16, 17, 18⟩, 19⟩] 1 _ rfl).1,
   (upload_layout [(⟨⟨1, 2, 3⟩, 4, 5, ⟨6, 7, 8⟩, 9⟩ : particle ℝ),
      ⟨⟨11, 12, 13⟩, 14, 15, ⟨16, 17, 18⟩, 19⟩] 1 _ rfl).2.2.2.1,
   (upload_layout [(⟨⟨1, 2, 3⟩, 4, 5, ⟨6, 7, 8⟩, 9⟩ : particle ℝ),
      ⟨⟨11, 12, 13⟩, 14, 15, ⟨16, 17, 18⟩, 19⟩] 1 _ rfl).2.2.2.2.1⟩

theorem updateAll_pure {α : Type} [LinearOrderedField α]
    (src : RandomSource α) (exp : α → α) (dt : α) (ps : List (particle α)) (st : RngState)
    (h : ∀ q ∈ ps, expired (integrate exp dt q) = false) :
    updateAll src exp dt ps st = (ps.map (integrate exp dt), st) := by
  induction ps generalizing st with
  | nil => rfl
  | cons a ps ih =>
    have ha : expired (integrate exp dt a) = false := h a (List.mem_cons_self _ _)
    have hps := ih st (fun q hq => h q (List.mem_cons_of_mem _ hq))
    simp [updateAll, updateParticle, ha, hps]

theorem pollEvents_flags_congr {α : Type} (s1 s2 : State α) (events : List Event)
    (hp : s1.paused = s2.paused) (hr : s1.running = s2.running) :
    (pollEvents s1 events).paused = (pollEvents s2 events).paused ∧
    (pollEvents s1 events).running = (pollEvents s2 events).running := by
  unfold pollEvents
  induction events generalizing s1 s2 with
  | nil => exact ⟨hp, hr⟩
  | cons e es ih =>
    simp only [List.foldl_cons]
    apply ih
    · rw [(handleEvent_flags s1 e).1, (handleEvent_flags s2 e).1, hp]
    · rw [(handleEvent_flags s1 e).2, (handleEvent_flags s2 e).2, hr]

/-- C18 (integrator determinism): for a particle that does not expire in the step, the
particle the step produces is the same for any two random sources and generator states
and the generator state is returned unchanged; a simulated step on a full pool none of
whose particles expires draws no random value and produces the integrated pool; and
the pool and generator a frame produces do not depend on the time, the camera, the key
map or the window size of the state it starts from. -/
theorem integrator_determinism {α : Type} [LinearOrderedField α]
    (exp : α → α) (dt : α) (p : particle α) (h : expired (integrate exp dt p) = false) :
    (∀ (src1 src2 : RandomSource α) (st1 st2 : RngState),
      (updateParticle src1 exp dt st1 p).1 = (updateParticle src2 exp dt st2 p).1) ∧
    (∀ (src : RandomSource α) (st : RngState),
      (updateParticle src exp dt st p).1 = integrate exp dt p ∧
      (updateParticle src exp dt st p).2 = st) ∧
    (∀ (src : RandomSource α) (uninit : particle α) (ps : List (particle α)) (st : RngState),
      ps.length = 256 → (∀ q ∈ ps, expired (integrate exp dt q) = false) →
      simulate src exp dt uninit ps st = (ps.map (integrate exp dt), st)) ∧
    (∀ (src : RandomSource α) (s1 s2 : State α) (inp : FrameInput α),
      s1.particles = s2.particles → s1.gen = s2.gen →
      s1.paused = s2.paused → s1.running = s2.running →
      (frame src exp s1 inp).particles = (frame src exp s2 inp).particles ∧
      (frame src exp s1 inp).gen = (frame src exp s2 inp).gen) := by
  refine ⟨fun src1 src2 st1 st2 => ?_, fun src st => ?_, fun src uninit ps st hl hq => ?_,
    fun src s1 s2 inp h1 h2 h3 h4 => ?_⟩
  · simp [updateParticle, h]
  · simp [updateParticle, h]
  · unfold simulate
    simp only [hl, bne_self_eq_false, Bool.false_eq_true, if_false]
    exact updateAll_pure src exp dt ps st hq
  · obtain ⟨f1, f2⟩ := pollEvents_flags_congr s1 s2 inp.events h3 h4
    have e1 := frame_effect src exp s1 inp
    have e2 := frame_effect src exp s2 inp
    rw [e1.2.2.1, e1.2.2.2, e2.2.2.1, e2.2.2.2, f1, f2, h1, h2]
    exact ⟨rfl, rfl⟩

/-- A concrete step for C18: a particle of size 0.4 at the origin and `dt = 0.1` with
the real exponential; two different random sources and generator states give the same
particle. -/
theorem integrator_determinism_witness :
    expired (integrate Real.exp 0.1
      (⟨⟨0, 0, 0⟩, 0.4, 0, ⟨0, 0, 0⟩, 3⟩ : particle ℝ)) = false ∧
    (updateParticle (⟨fun _ => 0, fun _ => 0⟩ : RandomSource ℝ) Real.exp 0.1 ⟨0, 0⟩
      (⟨⟨0, 0, 0⟩, 0.4, 0, ⟨0, 0, 0⟩, 3⟩ : particle ℝ)).1 =
    (updateParticle (⟨fun _ => 1 / 2, fun k => k + 7⟩ : RandomSource ℝ) Real.exp 0.1 ⟨5, 2⟩
      (⟨⟨0, 0, 0⟩, 0.4, 0, ⟨0, 0, 0⟩, 3⟩ : particle ℝ)).1 := by
  have h : expired (integrate Real.exp 0.1
      (⟨⟨0, 0, 0⟩, 0.4, 0, ⟨0, 0, 0⟩, 3⟩ : particle ℝ)) = false := by
    have h1 : Real.exp (-1) ≤ 1 := Real.exp_le_one_iff.mpr (by norm_num)
    have h2 : (-0.1 * 2 : ℝ) + 1 ≤ Real.exp (-0.1 * 2) := Real.add_one_le_exp _
    simp only [expired, integrate, vec3.add, vec3.scale, Bool.or_eq_false_iff,
      decide_eq_false_iff_not, not_lt, gt_iff_lt]
    constructor
    · norm_num; linarith
    · norm_num at h2 ⊢; linarith
  exact ⟨h, (integrator_determinism Real.exp 0.1 _ h).1 _ _ _ _⟩

theorem length_eq_zero_iff (v : vec3 ℝ) :
    length ⟨Real.sqrt, Real.cos, Real.sin⟩ v = 0 ↔ v = ⟨0, 0, 0⟩ := by
  have hnn : 0 ≤ dot v v := by
    simp only [dot]
    nlinarith [mul_self_nonneg v.x, mul_self_nonneg v.y, mul_self_nonneg v.z]
  show Real.sqrt (dot v v) = 0 ↔ v = ⟨0, 0, 0⟩
  rw [Real.sqrt_eq_zero hnn]
  constructor
  · intro h
    simp only [dot] at h
    have hx : v.x = 0 := by
      nlinarith [mul_self_nonneg v.x, mul_self_nonneg v.y, mul_self_nonneg v.z]
    have hy : v.y = 0 := by
      nlinarith [mul_self_nonneg v.x, mul_self_nonneg v.y, mul_self_nonneg v.z]
    have hz : v.z = 0 := by
      nlinarith [mul_self_nonneg v.x, mul_self_nonneg v.y, mul_self_nonneg v.z]
    cases v
    simp only [vec3.mk.injEq]
    exact ⟨hx, hy, hz⟩
  · intro h
    rw [h]
    simp [dot]

theorem length_ne_zero_of_unit {α : Type} [Field α] (fn : Builtins α) (v : vec3 α)
    (h : dot (normalize fn v) (normalize fn v) = 1) : length fn v ≠ 0 := by
  intro h0
  rw [dot_normalize_left, h0, div_zero] at h
  exact zero_ne_one h

theorem cross_up_vertical (fn : Builtins ℝ) (cam C : vec3 ℝ) (t : ℝ)
    (h : cam.sub C = vec3.smul t ⟨0, 1, 0⟩) :
    cross ⟨0, 1, 0⟩ (billboardZ fn cam C) = ⟨0, 0, 0⟩ := by
  simp only [billboardZ, normalize, cross, h, vec3.smul, vec3.mk.injEq]
  refine ⟨?_, ?_, ?_⟩ <;> simp

theorem sub_eq_zero_iff (cam C : vec3 ℝ) : cam.sub C = ⟨0, 0, 0⟩ ↔ cam = C := by
  cases cam
  cases C
  simp only [vec3.sub, vec3.mk.injEq, sub_eq_zero]

theorem degenerate_iff (cam C : vec3 ℝ) :
    (length ⟨Real.sqrt, Real.cos, Real.sin⟩ (cam.sub C) ≠ 0 ∧
      length ⟨Real.sqrt, Real.cos, Real.sin⟩
        (cross ⟨0, 1, 0⟩ (billboardZ ⟨Real.sqrt, Real.cos, Real.sin⟩ cam C)) ≠ 0 ∧
      length ⟨Real.sqrt, Real.cos, Real.sin⟩
        (cross (billboardZ ⟨Real.sqrt, Real.cos, Real.sin⟩ cam C)
          (billboardX1 ⟨Real.sqrt, Real.cos, Real.sin⟩ cam C)) ≠ 0) ↔
    (cam ≠ C ∧ ¬ ∃ t : ℝ, cam.sub C = vec3.smul t ⟨0, 1, 0⟩) := by
  constructor
  · rintro ⟨h1, h2, _⟩
    constructor
    · intro hc
      apply h1
      rw [length_eq_zero_iff, sub_eq_zero_iff]
      exact hc
    · rintro ⟨t, ht⟩
      apply h2
      rw [length_eq_zero_iff]
      exact cross_up_vertical _ cam C t ht
  · rintro ⟨_, hpar⟩
    obtain ⟨hZ, hX1, hY1, _, _, _⟩ :=
      billboard_frame ⟨Real.sqrt, Real.cos, Real.sin⟩ rfl cam C hpar
    exact ⟨length_ne_zero_of_unit _ _ hZ, length_ne_zero_of_unit _ _ hX1,
      length_ne_zero_of_unit _ _ hY1⟩

/-- C19 (billboard degeneracy): with the real `sqrt`, the three calls of `normalize`
in the basis construction all divide by a non-zero length, equivalently all normalise
a non-zero vector, if and only if `Cam ≠ C` and `Cam - C` is not parallel to
`(0, 1, 0)`; when the camera is directly above or below the particle,
`cross((0,1,0), Z)` is the zero vector, its length is 0 and `X1` is `normalize` of the
zero vector: the shader has no other axis to fall back on. -/
theorem billboard_degeneracy (cam C : vec3 ℝ) :
    ((length ⟨Real.sqrt, Real.cos, Real.sin⟩ (cam.sub C) ≠ 0 ∧
      length ⟨Real.sqrt, Real.cos, Real.sin⟩
        (cross ⟨0, 1, 0⟩ (billboardZ ⟨Real.sqrt, Real.cos, Real.sin⟩ cam C)) ≠ 0 ∧
      length ⟨Real.sqrt, Real.cos, Real.sin⟩
        (cross (billboardZ ⟨Real.sqrt, Real.cos, Real.sin⟩ cam C)
          (billboardX1 ⟨Real.sqrt, Real.cos, Real.sin⟩ cam C)) ≠ 0) ↔
      (cam ≠ C ∧ ¬ ∃ t : ℝ, cam.sub C = vec3.smul t ⟨0, 1, 0⟩)) ∧
    ((cam.sub C ≠ ⟨0, 0, 0⟩ ∧
      cross ⟨0, 1, 0⟩ (billboardZ ⟨Real.sqrt, Real.cos, Real.sin⟩ cam C) ≠ ⟨0, 0, 0⟩ ∧
      cross (billboardZ ⟨Real.sqrt, Real.cos, Real.sin⟩ cam C)
        (billboardX1 ⟨Real.sqrt, Real.cos, Real.sin⟩ cam C) ≠ ⟨0, 0, 0⟩) ↔
      (cam ≠ C ∧ ¬ ∃ t : ℝ, cam.sub C = vec3.smul t ⟨0, 1, 0⟩)) ∧
    (∀ t : ℝ, t ≠ 0 → cam.sub C = vec3.smul t ⟨0, 1, 0⟩ →
      cam ≠ C ∧
      cross ⟨0, 1, 0⟩ (billboardZ ⟨Real.sqrt, Real.cos, Real.sin⟩ cam C) = ⟨0, 0, 0⟩ ∧
      length ⟨Real.sqrt, Real.cos, Real.sin⟩
        (cross ⟨0, 1, 0⟩ (billboardZ ⟨Real.sqrt, Real.cos, Real.sin⟩ cam C)) = 0 ∧
      billboardX1 ⟨Real.sqrt, Real.cos, Real.sin⟩ cam C =
        normalize ⟨Real.sqrt, Real.cos, Real.sin⟩ ⟨0, 0, 0⟩) := by
  refine ⟨degenerate_iff cam C, ?_, fun t ht h => ?_⟩
  · rw [← degenerate_iff cam C, ne_eq, ne_eq, ne_eq, ne_eq, ne_eq, ne_eq,
      length_eq_zero_iff, length_eq_zero_iff, length_eq_zero_iff]
  · have hc := cross_up_vertical ⟨Real.sqrt, Real.cos, Real.sin⟩ cam C t h
    refine ⟨?_, hc, (length_eq_zero_iff _).mpr hc, ?_⟩
    · intro hcc
      have h0 := (sub_eq_zero_iff cam C).mpr hcc
      rw [h] at h0
      have hy := congrArg vec3.y h0
      simp only [vec3.smul, mul_one] at hy
      exact ht hy
    · unfold billboardX1
      rw [hc]

/-- A concrete degenerate camera for C19: the camera at `(0, 3, 0)` straight above the
particle at the origin. -/
theorem billboard_degeneracy_witness :
    (3 : ℝ) ≠ 0 ∧
    (⟨0, 3, 0⟩ : vec3 ℝ).sub ⟨0, 0, 0⟩ = vec3.smul 3 ⟨0, 1, 0⟩ ∧
    cross ⟨0, 1, 0⟩ (billboardZ ⟨Real.sqrt, Real.cos, Real.sin⟩ (⟨0, 3, 0⟩ : vec3 ℝ)
      ⟨0, 0, 0⟩) = ⟨0, 0, 0⟩ ∧
    length ⟨Real.sqrt, Real.cos, Real.sin⟩
      (cross ⟨0, 1, 0⟩ (billboardZ ⟨Real.sqrt, Real.cos, Real.sin⟩ (⟨0, 3, 0⟩ : vec3 ℝ)
        ⟨0, 0, 0⟩)) = 0 := by
  have h3 : (3 : ℝ) ≠ 0 := by norm_num
  have hv : (⟨0, 3, 0⟩ : vec3 ℝ).sub ⟨0, 0, 0⟩ = vec3.smul 3 ⟨0, 1, 0⟩ := by
    simp [vec3.sub, vec3.smul]
  have h := (billboard_degeneracy ⟨0, 3, 0⟩ ⟨0, 0, 0⟩).2.2 3 h3 hv
  exact ⟨h3, hv, h.2.1, h.2.2.1⟩

/-- C21 (frame-rate independence of the decays): with the real exponential, for a
particle that expires in none of the steps concerned, a step of `dt1` followed by a step
of `dt2` gives the same size and the same `velocity.x` and `velocity.z` as one step of
`dt1 + dt2`: the factors `exp(-2 dt)` and `exp(-10 dt)` of successive steps multiply to
the factor of the sum. -/
theorem decay_composition (src : RandomSource ℝ) (st1 st2 st3 : RngState)
    (dt1 dt2 : ℝ) (p : particle ℝ)
    (h1 : expired (integrate Real.exp dt1 p) = false)
    (h2 : expired (integrate Real.exp dt2 (integrate Real.exp dt1 p)) = false)
    (h3 : expired (integrate Real.exp (dt1 + dt2) p) = false) :
    (updateParticle src Real.exp dt2 st2 (updateParticle src Real.exp dt1 st1 p).1).1.size =
      (updateParticle src Real.exp (dt1 + dt2) st3 p).1.size ∧
    (updateParticle src Real.exp dt2 st2
        (updateParticle src Real.exp dt1 st1 p).1).1.velocity.x =
      (updateParticle src Real.exp (dt1 + dt2) st3 p).1.velocity.x ∧
    (updateParticle src Real.exp dt2 st2
        (updateParticle src Real.exp dt1 st1 p).1).1.velocity.z =
      (updateParticle src Real.exp (dt1 + dt2) st3 p).1.velocity.z ∧
    (updateParticle src Real.exp (dt1 + dt2) st3 p).1.size =
      p.size * Real.exp (-(2 * (dt1 + dt2))) ∧
    p.size * Real.exp (-(2 * dt1)) * Real.exp (-(2 * dt2)) =
      p.size * Real.exp (-(2 * (dt1 + dt2))) := by
  have e2 : Real.exp (-dt1 * 2) * Real.exp (-dt2 * 2) = Real.exp (-(dt1 + dt2) * 2) := by
    rw [← Real.exp_add]; congr 1; ring
  have e10 : Real.exp (-dt1 * 10) * Real.exp (-dt2 * 10) = Real.exp (-(dt1 + dt2) * 10) := by
    rw [← Real.exp_add]; congr 1; ring
  have u1 : (updateParticle src Real.exp dt1 st1 p).1 = integrate Real.exp dt1 p := by
    simp [updateParticle, h1]
  have u2 : (updateParticle src Real.exp dt2 st2 (integrate Real.exp dt1 p)).1 =
      integrate Real.exp dt2 (integrate Real.exp dt1 p) := by
    simp [updateParticle, h2]
  have u3 : (updateParticle src Real.exp (dt1 + dt2) st3 p).1 =
      integrate Real.exp (dt1 + dt2) p := by
    simp [updateParticle, h3]
  rw [u1, u2, u3]
  simp only [integrate, vec3.scale]
  refine ⟨?_, ?_, ?_, ?_, ?_⟩
  · rw [← e2]; ring
  · rw [← e10]; ring
  · rw [← e10]; ring
  · congr 2; ring
  · rw [mul_assoc, ← Real.exp_add]; congr 2; ring

/-- A concrete pair of steps for C21: a particle of size 0.4 at the origin, with
velocity `(1, 0, 2)`, stepped by 0.05 and then 0.05. -/
theorem decay_composition_witness :
    expired (integrate Real.exp 0.05
      (⟨⟨0, 0, 0⟩, 0.4, 0, ⟨1, 0, 2⟩, 3⟩ : particle ℝ)) = false ∧
    expired (integrate Real.exp 0.05 (integrate Real.exp 0.05
      (⟨⟨0, 0, 0⟩, 0.4, 0, ⟨1, 0, 2⟩, 3⟩ : particle ℝ))) = false ∧
    expired (integrate Real.exp (0.05 + 0.05)
      (⟨⟨0, 0, 0⟩, 0.4, 0, ⟨1, 0, 2⟩, 3⟩ : particle ℝ)) = false ∧
    (updateParticle (⟨fun _ => 0, fun _ => 0⟩ : RandomSource ℝ) Real.exp 0.05 ⟨0, 0⟩
      (updateParticle (⟨fun _ => 0, fun _ => 0⟩ : RandomSource ℝ) Real.exp 0.05 ⟨0, 0⟩
        (⟨⟨0, 0, 0⟩, 0.4, 0, ⟨1, 0, 2⟩, 3⟩ : particle ℝ)).1).1.size =
    (updateParticle (⟨fun _ => 0, fun _ => 0⟩ : RandomSource ℝ) Real.exp (0.05 + 0.05) ⟨0, 0⟩
      (⟨⟨0, 0, 0⟩, 0.4, 0, ⟨1, 0, 2⟩, 3⟩ : particle ℝ)).1.size := by
  have b : ∀ x : ℝ, 0 ≤ x → Real.exp (-x) ≤ 1 ∧ 1 - x ≤ Real.exp (-x) ∧
      0 < Real.exp (-x) := by
    intro x h0
    refine ⟨Real.exp_le_one_iff.mpr (by linarith), ?_, Real.exp_pos _⟩
    have := Real.add_one_le_exp (-x)
    linarith
  have h1 : expired (integrate Real.exp 0.05
      (⟨⟨0, 0, 0⟩, 0.4, 0, ⟨1, 0, 2⟩, 3⟩ : particle ℝ)) = false := by
    obtain ⟨a1, _, a0⟩ := b (0.05 * 10) (by norm_num)
    obtain ⟨_, a4, _⟩ := b (0.05 * 2) (by norm_num)
    simp only [expired, integrate, vec3.add, vec3.scale, Bool.or_eq_false_iff,
      decide_eq_false_iff_not, not_lt, gt_iff_lt]
    rw [show (-0.05 * 10 : ℝ) = -(0.05 * 10) by ring, show (-0.05 * 2 : ℝ) = -(0.05 * 2) by ring]
    constructor
    · nlinarith
    · nlinarith
  have h2 : expired (integrate Real.exp 0.05 (integrate Real.exp 0.05
      (⟨⟨0, 0, 0⟩, 0.4, 0, ⟨1, 0, 2⟩, 3⟩ : particle ℝ))) = false := by
    obtain ⟨a1, a2, a0⟩ := b (0.05 * 10) (by norm_num)
    obtain ⟨a3, a4, a5⟩ := b (0.05 * 2) (by norm_num)
    simp only [expired, integrate, vec3.add, vec3.scale, Bool.or_eq_false_iff,
      decide_eq_false_iff_not, not_lt, gt_iff_lt]
    rw [show (-0.05 * 10 : ℝ) = -(0.05 * 10) by ring, show (-0.05 * 2 : ℝ) = -(0.05 * 2) by ring]
    constructor
    · nlinarith
    · nlinarith
  have h3 : expired (integrate Real.exp (0.05 + 0.05)
      (⟨⟨0, 0, 0⟩, 0.4, 0, ⟨1, 0, 2⟩, 3⟩ : particle ℝ)) = false := by
    obtain ⟨a1, _, a0⟩ := b ((0.05 + 0.05) * 10) (by norm_num)
    obtain ⟨_, a4, _⟩ := b ((0.05 + 0.05) * 2) (by norm_num)
    simp only [expired, integrate, vec3.add, vec3.scale, Bool.or_eq_false_iff,
      decide_eq_false_iff_not, not_lt, gt_iff_lt]
    rw [show (-(0.05 + 0.05) * 10 : ℝ) = -((0.05 + 0.05) * 10) by ring,
      show (-(0.05 + 0.05) * 2 : ℝ) = -((0.05 + 0.05) * 2) by ring]
    constructor
    · nlinarith
    · nlinarith
  exact ⟨h1, h2, h3, (decay_composition _ ⟨0, 0⟩ ⟨0, 0⟩ ⟨0, 0⟩ 0.05 0.05 _ h1 h2 h3).1⟩

/-- C23 (terminal vertical velocity): with the real exponential, if `velocity.y` lies in
`[0, 1]` before the loop body runs with `dt ≥ 0`, it lies in `[0, 1]` afterwards,
whether or not the particle is reset (a reset leaves the velocity as integrated); and
when the particle is not reset its `position.y` has not decreased. -/
theorem terminal_velocity (src : RandomSource ℝ) (st : RngState) (dt : ℝ) (p : particle ℝ)
    (hdt : 0 ≤ dt) (h0 : 0 ≤ p.velocity.y) (h1 : p.velocity.y ≤ 1) :
    0 ≤ (updateParticle src Real.exp dt st p).1.velocity.y ∧
    (updateParticle src Real.exp dt st p).1.velocity.y ≤ 1 ∧
    (updateParticle src Real.exp dt st p).1.velocity.y =
      (p.velocity.y + 10 * dt) * Real.exp (-(10 * dt)) ∧
    (expired (integrate Real.exp dt p) = false →
      p.position.y ≤ (updateParticle src Real.exp dt st p).1.position.y) := by
  have hv : (updateParticle src Real.exp dt st p).1.velocity.y =
      (p.velocity.y + 10 * dt) * Real.exp (-(10 * dt)) := by
    have e : -dt * 10 = -(10 * dt) := by ring
    unfold updateParticle
    simp only []
    split_ifs
    · rw [(respawn_fields src st _).1]
      simp only [integrate, vec3.scale, e]
      ring
    · simp only [integrate, vec3.scale, e]
      ring
  have hpos := Real.exp_pos (-(10 * dt))
  have hge : 0 ≤ (p.velocity.y + 10 * dt) * Real.exp (-(10 * dt)) :=
    mul_nonneg (by linarith) hpos.le
  have hle : (p.velocity.y + 10 * dt) * Real.exp (-(10 * dt)) ≤ 1 := by
    have h2 : 10 * dt + 1 ≤ Real.exp (10 * dt) := Real.add_one_le_exp _
    have h3 : Real.exp (10 * dt) * Real.exp (-(10 * dt)) = 1 := by
      rw [← Real.exp_add]; simp
    nlinarith
  refine ⟨by rw [hv]; exact hge, by rw [hv]; exact hle, hv, fun hne => ?_⟩
  have e : -dt * 10 = -(10 * dt) := by ring
  have u : (updateParticle src Real.exp dt st p).1 = integrate Real.exp dt p := by
    simp [updateParticle, hne]
  rw [u]
  simp only [integrate, vec3.add, vec3.scale, e]
  have : 0 ≤ (p.velocity.y + dt * 10) * Real.exp (-(10 * dt)) * dt := by
    rw [show dt * 10 = 10 * dt by ring]
    exact mul_nonneg hge hdt
  linarith

/-- A concrete step for C23: a particle rising at the terminal velocity 1, stepped by
`dt = 0.1`. -/
theorem terminal_velocity_witness :
    (0 : ℝ) ≤ 0.1 ∧
    (0 : ℝ) ≤ (⟨⟨0, 0, 0⟩, 0.4, 0, ⟨0, 1, 0⟩, 3⟩ : particle ℝ).velocity.y ∧
    (⟨⟨0, 0, 0⟩, 0.4, 0, ⟨0, 1, 0⟩, 3⟩ : particle ℝ).velocity.y ≤ 1 ∧
    0 ≤ (updateParticle (⟨fun _ => 0, fun _ => 0⟩ : RandomSource ℝ) Real.exp 0.1 ⟨0, 0⟩
      (⟨⟨0, 0, 0⟩, 0.4, 0, ⟨0, 1, 0⟩, 3⟩ : particle ℝ)).1.velocity.y ∧
    (updateParticle (⟨fun _ => 0, fun _ => 0⟩ : RandomSource ℝ) Real.exp 0.1 ⟨0, 0⟩
      (⟨⟨0, 0, 0⟩, 0.4, 0, ⟨0, 1, 0⟩, 3⟩ : particle ℝ)).1.velocity.y ≤ 1 := by
  have a : (0 : ℝ) ≤ 0.1 := by norm_num
  have b : (0 : ℝ) ≤ (⟨⟨0, 0, 0⟩, 0.4, 0, ⟨0, 1, 0⟩, 3⟩ : particle ℝ).velocity.y := zero_le_one
  have c : (⟨⟨0, 0, 0⟩, 0.4, 0, ⟨0, 1, 0⟩, 3⟩ : particle ℝ).velocity.y ≤ 1 := le_refl _
  have h := terminal_velocity (⟨fun _ => 0, fun _ => 0⟩ : RandomSource ℝ) ⟨0, 0⟩ 0.1
    ⟨⟨0, 0, 0⟩, 0.4, 0, ⟨0, 1, 0⟩, 3⟩ a b c
  exact ⟨a, b, c, h.1, h.2.1⟩

end Practice11

namespace Practice15

/-! ## Theorems -/

theorem median_sorted {α : Type} [LinearOrder α] (a b c : α) (hab : a ≤ b) (hbc : b ≤ c) :
    median ⟨a, b, c⟩ = b ∧ median ⟨a, c, b⟩ = b ∧ median ⟨b, a, c⟩ = b ∧
    median ⟨b, c, a⟩ = b ∧ median ⟨c, a, b⟩ = b ∧ median ⟨c, b, a⟩ = b := by
  have hac : a ≤ c := le_trans hab hbc
  simp [median, min_eq_left, min_eq_right, max_eq_left, max_eq_right, hab, hbc, hac]

/-- C15 (median): `median(r, g, b) = max(min(r, g), min(max(r, g), b))` is the middle one
of the three values: it equals one of them, at least two of them are `≤` it and at
least two are `≥` it; it is the same for all six orders of the arguments and lies
between the least and the greatest of them. -/
theorem median_middle {α : Type} [LinearOrder α] (r g b : α) :
    median ⟨r, g, b⟩ = max (min r g) (min (max r g) b) ∧
    (median ⟨r, g, b⟩ = r ∨ median ⟨r, g, b⟩ = g ∨ median ⟨r, g, b⟩ = b) ∧
    ((r ≤ median ⟨r, g, b⟩ ∧ g ≤ median ⟨r, g, b⟩) ∨
      (r ≤ median ⟨r, g, b⟩ ∧ b ≤ median ⟨r, g, b⟩) ∨
      (g ≤ median ⟨r, g, b⟩ ∧ b ≤ median ⟨r, g, b⟩)) ∧
    ((median ⟨r, g, b⟩ ≤ r ∧ median ⟨r, g, b⟩ ≤ g) ∨
      (median ⟨r, g, b⟩ ≤ r ∧ median ⟨r, g, b⟩ ≤ b) ∨
      (median ⟨r, g, b⟩ ≤ g ∧ median ⟨r, g, b⟩ ≤ b)) ∧
    median ⟨r, b, g⟩ = median ⟨r, g, b⟩ ∧
    median ⟨g, r, b⟩ = median ⟨r, g, b⟩ ∧
    median ⟨g, b, r⟩ = median ⟨r, g, b⟩ ∧
    median ⟨b, r, g⟩ = median ⟨r, g, b⟩ ∧
    median ⟨b, g, r⟩ = median ⟨r, g, b⟩ ∧
    min r (min g b) ≤ median ⟨r, g, b⟩ ∧
    median ⟨r, g, b⟩ ≤ max r (max g b) := by
  refine ⟨rfl, ?_⟩
  rcases le_total r g with h1 | h1 <;> rcases le_total g b with h2 | h2
  · obtain ⟨e1, e2, e3, e4, e5, e6⟩ := median_sorted r g b h1 h2
    simp [e1, e2, e3, e4, e5, e6, h1, h2]
  · rcases le_total r b with h3 | h3
    · obtain ⟨e1, e2, e3, e4, e5, e6⟩ := median_sorted r b g h3 h2
      simp [e1, e2, e3, e4, e5, e6, h3, h2]
    · obtain ⟨e1, e2, e3, e4, e5, e6⟩ := median_sorted b r g h3 h1
      simp [e1, e2, e3, e4, e5, e6, h3, h1]
  · rcases le_total r b with h3 | h3
    · obtain ⟨e1, e2, e3, e4, e5, e6⟩ := median_sorted g r b h1 h3
      simp [e1, e2, e3, e4, e5, e6, h3, h1]
    · obtain ⟨e1, e2, e3, e4, e5, e6⟩ := median_sorted g b r h2 h3
      simp [e1, e2, e3, e4, e5, e6, h3, h2]
  · obtain ⟨e1, e2, e3, e4, e5, e6⟩ := median_sorted b g r h2 h1
    simp [e1, e2, e3, e4, e5, e6, h1, h2]

theorem rebuildLoop_count {α : Type} [LinearOrderedField α] (env : Env α)
    (hfont : ∀ c : Nat, ∃ g, env.glyphs c = some g) (text : List Nat) (r : Rebuild α) :
    ∃ r1, rebuildLoop env text r = some r1 ∧
      r1.vertices.length = r.vertices.length + 6 * text.length ∧
      r1.size = r.size + 6 * (text.length : Int) := by
  induction text generalizing r with
  | nil => exact ⟨r, rfl, by simp, by simp⟩
  | cons el rest ih =>
    obtain ⟨g, hg⟩ := hfont el
    obtain ⟨r1, h1, h2, h3⟩ := ih
      { vertices := r.vertices ++ glyphVertices env r.pen g
        pen := { r.pen with x := r.pen.x + g.advance }
        bbox_min := (growBox (glyphVertices env r.pen g) (r.bbox_min, r.bbox_max)).1
        bbox_max := (growBox (glyphVertices env r.pen g) (r.bbox_min, r.bbox_max)).2
        size := r.size + 6 }
    refine ⟨r1, ?_, ?_, ?_⟩
    · simp only [rebuildLoop, rebuildGlyph, hg]
      exact h1
    · rw [h2]
      simp only [List.length_append, glyphVertices, List.length_cons, List.length_nil]
      omega
    · rw [h3]
      simp only [List.length_cons]
      push_cast
      ring

theorem rebuild_count {α : Type} [LinearOrderedField α] (env : Env α)
    (hfont : ∀ c : Nat, ∃ g, env.glyphs c = some g) (s : State α) :
    ∃ s1, rebuild env s = some s1 ∧
      s1.size = s.size + 6 * (s.text.length : Int) ∧
      s1.buffer.length = 6 * s.text.length ∧
      s1.vertices = s1.buffer ∧
      s1.text = s.text ∧ s1.text_changed = false ∧ s1.running = s.running := by
  obtain ⟨r1, h1, h2, h3⟩ := rebuildLoop_count env hfont s.text
    { vertices := []
      pen := ⟨0, 0⟩
      bbox_min := ⟨env.float_max, env.float_max⟩
      bbox_max := ⟨env.float_min, env.float_min⟩
      size := s.size }
  refine ⟨{ s with vertices := r1.vertices, buffer := r1.vertices, bbox_min := r1.bbox_min,
                    bbox_max := r1.bbox_max, size := r1.size, text_changed := false },
    by simp only [rebuild, h1], h3, ?_, rfl, rfl, rfl, rfl⟩
  simpa using h2

/-- C25 evaluated at the failing input: with a font that has every glyph, the first
frame rebuilds the geometry of `"Hello, world!"` and draws `78 = 6 * 13` vertices, as
many as it uploaded; a backspace in the second frame leaves 12 characters, the rebuild
generates and uploads `72 = 6 * 12` vertices, and the draw call is given
`size = 78 + 72 = 150`, because `size` is not set back to 0 before the loop adds to
it. -/
theorem text_geometry_count_fails :
    ∃ s1 s2 : State ℝ,
      frame (⟨fun _ => some ⟨0, 0, 1, 1, 0, 0, 1⟩, 1, 1, 1, 0⟩ : Env ℝ)
        (startState 800 600) [] = some s1 ∧
      s1.text.length = 13 ∧ s1.buffer.length = 78 ∧ drawCount s1 = 78 ∧
      frame (⟨fun _ => some ⟨0, 0, 1, 1, 0, 0, 1⟩, 1, 1, 1, 0⟩ : Env ℝ)
        s1 [Event.keyDown SDLK_BACKSPACE] = some s2 ∧
      s2.text.length = 12 ∧ s2.vertices.length = 72 ∧ s2.buffer.length = 72 ∧
      drawCount s2 = 150 ∧ drawCount s2 ≠ 6 * (s2.text.length : Int) ∧
      drawCount s2 ≠ (s2.buffer.length : Int) := by
  have hfont : ∀ c : Nat, ∃ g,
      (⟨fun _ => some ⟨0, 0, 1, 1, 0, 0, 1⟩, 1, 1, 1, 0⟩ : Env ℝ).glyphs c = some g :=
    fun _ => ⟨_, rfl⟩
  obtain ⟨s1, a1, a2, a3, a4, a5, a6, a7⟩ := rebuild_count _ hfont (startState 800 600)
  have l1 : s1.text.length = 13 := by rw [a5]; rfl
  have z1 : s1.size = 78 := by rw [a2]; rfl
  have b1 : s1.buffer.length = 78 := by rw [a3]; rfl
  have r1 : s1.running = true := by rw [a7]; rfl
  obtain ⟨s2, c1, c2, c3, c4, c5, c6, c7⟩ := rebuild_count _ hfont
    (pollEvents s1 [Event.keyDown SDLK_BACKSPACE])
  have ht : (pollEvents s1 [Event.keyDown SDLK_BACKSPACE]).text = s1.text.dropLast ∧
      (pollEvents s1 [Event.keyDown SDLK_BACKSPACE]).text_changed = true ∧
      (pollEvents s1 [Event.keyDown SDLK_BACKSPACE]).running = true ∧
      (pollEvents s1 [Event.keyDown SDLK_BACKSPACE]).size = s1.size := by
    have hne : ¬ s1.text.isEmpty = true := by rw [a5]; decide
    simp [pollEvents, handleEvent, hne, r1]
  have l2 : (pollEvents s1 [Event.keyDown SDLK_BACKSPACE]).text.length = 12 := by
    rw [ht.1, List.length_dropLast, l1]
  have tl2 : s2.text.length = 12 := by rw [c5, l2]
  have z2 : s2.size = 150 := by rw [c2, ht.2.2.2, z1, l2]; rfl
  have b2 : s2.buffer.length = 72 := by rw [c3, l2]
  refine ⟨s1, s2, ?_, l1, b1, z1, ?_, tl2, by rw [c4, b2], b2, z2, ?_, ?_⟩
  · simp only [frame, pollEvents, List.foldl_nil]
    rw [← a1]
    simp [startState]
  · simp only [frame]
    rw [ht.2.2.1, ht.2.1]
    simpa using c1
  · show s2.size ≠ _
    rw [z2, tl2]; decide
  · show s2.size ≠ _
    rw [z2, b2]; decide

end Practice15

namespace Practice3

/-! ## Theorems -/

theorem getD_set_self {α : Type} [Field α] (points : List (vec2 α)) (i : Nat) (a : vec2 α)
    (h : i < points.length) : (points.set i a).getD i ⟨0, 0⟩ = a := by
  simp [List.getD_eq_getElem?_getD, List.getElem?_set, h]

theorem getD_set_ne {α : Type} [Field α] (points : List (vec2 α)) (i j : Nat) (a : vec2 α)
    (h : i ≠ j) : (points.set i a).getD j ⟨0, 0⟩ = points.getD j ⟨0, 0⟩ := by
  simp [List.getD_eq_getElem?_getD, List.getElem?_set, h]

theorem bezierInner_spec {α : Type} [Field α] (t : α) (n k : Nat) :
    ∀ (m i : Nat) (points : List (vec2 α)), n - (i + k + 1) = m → points.length = n →
      (bezierInner t n k i points).length = n ∧
      ∀ j : Nat, (bezierInner t n k i points).getD j ⟨0, 0⟩ =
        if i ≤ j ∧ j + k + 1 < n then
          ⟨(points.getD j ⟨0, 0⟩).x * (1 - t) + (points.getD (j + 1) ⟨0, 0⟩).x * t,
           (points.getD j ⟨0, 0⟩).y * (1 - t) + (points.getD (j + 1) ⟨0, 0⟩).y * t⟩
        else points.getD j ⟨0, 0⟩ := by
  intro m
  induction m with
  | zero =>
    intro i points hm hlen
    have hge : ¬ i + k + 1 < n := by omega
    rw [bezierInner, if_neg hge]
    refine ⟨hlen, fun j => ?_⟩
    rw [if_neg (by omega)]
  | succ m ih =>
    intro i points hm hlen
    have hlt : i + k + 1 < n := by omega
    rw [bezierInner, if_pos hlt]
    simp only []
    have hi : i < points.length := by omega
    rw [getD_set_self points i _ hi, getD_set_ne points i (i + 1) _ (by omega)]
    obtain ⟨h1, h2⟩ := ih (i + 1) _ (by omega)
      (by simp [hlen] : ((points.set i _).set i _).length = n)
    refine ⟨h1, fun j => ?_⟩
    rw [h2 j]
    by_cases hj : i + 1 ≤ j
    · have hne : i ≠ j := by omega
      have hne1 : i ≠ j + 1 := by omega
      by_cases hjn : j + k + 1 < n
      · rw [if_pos ⟨hj, hjn⟩, if_pos ⟨by omega, hjn⟩]
        rw [getD_set_ne _ i j _ hne, getD_set_ne _ i j _ hne,
          getD_set_ne _ i (j + 1) _ hne1, getD_set_ne _ i (j + 1) _ hne1]
      · rw [if_neg (by tauto), if_neg (by tauto)]
        rw [getD_set_ne _ i j _ hne, getD_set_ne _ i j _ hne]
    · rw [if_neg (by tauto)]
      by_cases hji : j = i
      · subst hji
        rw [if_pos ⟨le_refl _, hlt⟩]
        rw [getD_set_self _ j _ (by simp [hi])]
      · have hne : i ≠ j := fun h => hji h.symm
        rw [if_neg (by omega)]
        rw [getD_set_ne _ i j _ hne, getD_set_ne _ i j _ hne]

theorem bernsteinSum_succ {α : Type} [Field α] (t : α) (a : Nat → α) (k i : Nat) :
    bernsteinSum t a (k + 1) i =
      bernsteinSum t a k i * (1 - t) + bernsteinSum t a k (i + 1) * t := by
  have hA : bernsteinSum t a k i * (1 - t) =
      ∑ m ∈ Finset.range (k + 1),
        (k.choose m : α) * (1 - t) ^ (k + 1 - m) * t ^ m * a (i + m) := by
    unfold bernsteinSum
    rw [Finset.sum_mul]
    refine Finset.sum_congr rfl (fun m hm => ?_)
    have hm1 : m ≤ k := Nat.lt_succ_iff.mp (Finset.mem_range.mp hm)
    rw [Nat.succ_sub hm1, pow_succ]
    ring
  have hB : ∑ m ∈ Finset.range (k + 1),
        (k.choose m : α) * (1 - t) ^ (k + 1 - m) * t ^ m * a (i + m) =
      ∑ m ∈ Finset.range (k + 1),
        (k.choose (m + 1) : α) * (1 - t) ^ (k - m) * t ^ (m + 1) * a (i + (m + 1)) +
      (1 - t) ^ (k + 1) * a i := by
    have h1 := Finset.sum_range_succ
      (fun m => (k.choose m : α) * (1 - t) ^ (k + 1 - m) * t ^ m * a (i + m)) (k + 1)
    have h2 := Finset.sum_range_succ'
      (fun m => (k.choose m : α) * (1 - t) ^ (k + 1 - m) * t ^ m * a (i + m)) (k + 1)
    simp only [Nat.choose_succ_self, Nat.cast_zero, zero_mul, add_zero] at h1
    rw [← h1, h2]
    simp
  have hC : bernsteinSum t a k (i + 1) * t =
      ∑ m ∈ Finset.range (k + 1),
        (k.choose m : α) * (1 - t) ^ (k - m) * t ^ (m + 1) * a (i + (m + 1)) := by
    unfold bernsteinSum
    rw [Finset.sum_mul]
    refine Finset.sum_congr rfl (fun m _ => ?_)
    rw [show i + 1 + m = i + (m + 1) by omega, pow_succ]
    ring
  rw [hA, hB, hC]
  unfold bernsteinSum
  rw [Finset.sum_range_succ']
  simp only [Nat.choose_succ_succ, Nat.cast_add, Nat.succ_sub_succ, Nat.choose_zero_right,
    Nat.cast_one, pow_zero, Nat.sub_zero, Nat.add_zero, mul_one, one_mul]
  rw [add_comm (∑ m ∈ Finset.range (k + 1),
        (k.choose (m + 1) : α) * (1 - t) ^ (k - m) * t ^ (m + 1) * a (i + (m + 1)) +
      (1 - t) ^ (k + 1) * a i), ← add_assoc, ← Finset.sum_add_distrib]
  congr 1
  refine Finset.sum_congr rfl (fun m _ => ?_)
  ring

theorem bezierOuter_spec {α : Type} [Field α] (t : α) (n : Nat) (ax ay : Nat → α) :
    ∀ (m k : Nat) (points : List (vec2 α)), n - (k + 1) = m → k < n → points.length = n →
      (∀ j : Nat, j + k < n →
        points.getD j ⟨0, 0⟩ = ⟨bernsteinSum t ax k j, bernsteinSum t ay k j⟩) →
      (bezierOuter t n k points).length = n ∧
      (bezierOuter t n k points).getD 0 ⟨0, 0⟩ =
        ⟨bernsteinSum t ax (n - 1) 0, bernsteinSum t ay (n - 1) 0⟩ := by
  intro m
  induction m with
  | zero =>
    intro k points hm hk hlen hinv
    have hge : ¬ k + 1 < n := by omega
    have hk1 : n - 1 = k := by omega
    rw [bezierOuter, if_neg hge, hk1]
    exact ⟨hlen, hinv 0 (by omega)⟩
  | succ m ih =>
    intro k points hm hk hlen hinv
    have hlt : k + 1 < n := by omega
    rw [bezierOuter, if_pos hlt]
    obtain ⟨h1, h2⟩ := bezierInner_spec t n k (n - (0 + k + 1)) 0 points rfl hlen
    refine ih (k + 1) _ (by omega) hlt h1 (fun j hj => ?_)
    rw [h2 j, if_pos ⟨Nat.zero_le _, by omega⟩, hinv j (by omega), hinv (j + 1) (by omega),
      bernsteinSum_succ, bernsteinSum_succ]

theorem bernsteinSum_zero_degree {α : Type} [Field α] (t : α) (a : Nat → α) (i : Nat) :
    bernsteinSum t a 0 i = a i := by
  simp [bernsteinSum]

theorem bernsteinSum_at_zero {α : Type} [Field α] (a : Nat → α) (k : Nat) :
    bernsteinSum 0 a k 0 = a 0 := by
  unfold bernsteinSum
  rw [Finset.sum_eq_single 0]
  · simp
  · intro m _ hm
    simp [hm]
  · intro h
    exact absurd (Finset.mem_range.mpr (Nat.succ_pos k)) h

theorem bernsteinSum_at_one {α : Type} [Field α] (a : Nat → α) (k : Nat) :
    bernsteinSum 1 a k 0 = a k := by
  unfold bernsteinSum
  rw [Finset.sum_eq_single k]
  · simp
  · intro m hm hmk
    have hlt : m < k := lt_of_le_of_ne (Nat.lt_succ_iff.mp (Finset.mem_range.mp hm)) hmk
    have : k - m ≠ 0 := by omega
    simp [this]
  · intro h
    exact absurd (Finset.mem_range.mpr (Nat.lt_succ_self k)) h

theorem bezier_closed {α : Type} [Field α] (vertices : List (vertex α)) (t : α)
    (h : vertices ≠ []) :
    bezier vertices t = some
      ⟨bernsteinSum t (fun j => ((vertices.map vertex.position).getD j ⟨0, 0⟩).x)
        (vertices.length - 1) 0,
       bernsteinSum t (fun j => ((vertices.map vertex.position).getD j ⟨0, 0⟩).y)
        (vertices.length - 1) 0⟩ := by
  have hn : 0 < vertices.length := List.length_pos.mpr h
  obtain ⟨h1, h2⟩ := bezierOuter_spec t vertices.length
    (fun j => ((vertices.map vertex.position).getD j ⟨0, 0⟩).x)
    (fun j => ((vertices.map vertex.position).getD j ⟨0, 0⟩).y)
    (vertices.length - (0 + 1)) 0 (vertices.map vertex.position) rfl hn
    (List.length_map _ _)
    (fun j _ => by rw [bernsteinSum_zero_degree, bernsteinSum_zero_degree])
  unfold bezier
  simp only []
  rw [← h2, List.getD_eq_getElem?_getD,
    List.getElem?_eq_getElem (by rw [h1]; exact hn)]
  rfl

theorem bezier_zero {α : Type} [Field α] (vertices : List (vertex α)) (h : vertices ≠ []) :
    bezier vertices 0 = (vertices.map vertex.position).head? := by
  rw [bezier_closed vertices 0 h, bernsteinSum_at_zero, bernsteinSum_at_zero]
  cases vertices with
  | nil => exact absurd rfl h
  | cons v rest => rfl

theorem bezier_one {α : Type} [Field α] (vertices : List (vertex α)) (h : vertices ≠ []) :
    bezier vertices 1 = (vertices.map vertex.position).getLast? := by
  have hn : 0 < vertices.length := List.length_pos.mpr h
  rw [bezier_closed vertices 1 h, bernsteinSum_at_one, bernsteinSum_at_one,
    List.getLast?_eq_getElem?, List.length_map, List.getD_eq_getElem?_getD,
    List.getElem?_eq_getElem (by rw [List.length_map]; omega)]
  rfl

theorem bezier_single {α : Type} [Field α] (v : vertex α) (t : α) :
    bezier [v] t = some v.position := by
  rw [bezier_closed [v] t (List.cons_ne_nil _ _)]
  simp [bernsteinSum_zero_degree]

/-- C22 (De Casteljau correctness): for a non-empty list of control vertices
`P_0..P_n` and every `t`, `bezier` returns the point whose coordinates are the sums
over `k = 0..n` of `C(n, k) * (1 - t)^(n - k) * t^k * P_k`; at `t = 0` it returns the
first control point, at `t = 1` the last, and for a single control point it returns
that point for every `t`. -/
theorem de_casteljau {α : Type} [Field α] (vertices : List (vertex α)) (t : α)
    (h : vertices ≠ []) :
    bezier vertices t = some
      ⟨∑ k ∈ Finset.range (vertices.length - 1 + 1),
        ((vertices.length - 1).choose k : α) * (1 - t) ^ (vertices.length - 1 - k) * t ^ k *
          ((vertices.map vertex.position).getD k ⟨0, 0⟩).x,
       ∑ k ∈ Finset.range (vertices.length - 1 + 1),
        ((vertices.length - 1).choose k : α) * (1 - t) ^ (vertices.length - 1 - k) * t ^ k *
          ((vertices.map vertex.position).getD k ⟨0, 0⟩).y⟩ ∧
    bezier vertices 0 = (vertices.map vertex.position).head? ∧
    bezier vertices 1 = (vertices.map vertex.position).getLast? ∧
    (∀ (v : vertex α) (s : α), bezier [v] s = some v.position) := by
  refine ⟨?_, bezier_zero vertices h, bezier_one vertices h, bezier_single⟩
  rw [bezier_closed vertices t h]
  simp only [bernsteinSum, Nat.zero_add]

/-- A concrete curve for C22: the control points `(0, 0)`, `(1, 2)`, `(4, 0)`; the curve
starts at `(0, 0)`, passes through `(3/2, 1)` at `t = 1/2` and ends at `(4, 0)`. -/
theorem de_casteljau_witness :
    ([⟨⟨0, 0⟩, (0, 0, 0, 0), 0⟩, ⟨⟨1, 2⟩, (0, 0, 0, 0), 0⟩, ⟨⟨4, 0⟩, (0, 0, 0, 0), 0⟩] :
      List (vertex ℝ)) ≠ [] ∧
    bezier ([⟨⟨0, 0⟩, (0, 0, 0, 0), 0⟩, ⟨⟨1, 2⟩, (0, 0, 0, 0), 0⟩,
      ⟨⟨4, 0⟩, (0, 0, 0, 0), 0⟩] : List (vertex ℝ)) 0 = some ⟨0, 0⟩ ∧
    bezier ([⟨⟨0, 0⟩, (0, 0, 0, 0), 0⟩, ⟨⟨1, 2⟩, (0, 0, 0, 0), 0⟩,
      ⟨⟨4, 0⟩, (0, 0, 0, 0), 0⟩] : List (vertex ℝ)) 1 = some ⟨4, 0⟩ ∧
    bezier ([⟨⟨0, 0⟩, (0, 0, 0, 0), 0⟩, ⟨⟨1, 2⟩, (0, 0, 0, 0), 0⟩,
      ⟨⟨4, 0⟩, (0, 0, 0, 0), 0⟩] : List (vertex ℝ)) (1 / 2) = some ⟨3 / 2, 1⟩ := by
  refine ⟨List.cons_ne_nil _ _,
   (de_casteljau _ 0 (List.cons_ne_nil _ _)).2.1,
   (de_casteljau _ 0 (List.cons_ne_nil _ _)).2.2.1, ?_⟩
  rw [(de_casteljau _ (1 / 2) (List.cons_ne_nil _ _)).1]
  simp [Finset.sum_range_succ, Nat.choose]
  constructor <;> norm_num

theorem toInt_small (m : Nat) (h : m < 2147483648) : toInt m = (m : Int) := by
  unfold toInt
  omega

theorem bezierSize_eq (n : Nat) (quality : Int) (hn : 0 < n) (hq : 1 ≤ quality)
    (hN : (n : Int) * quality < 2147483648) :
    bezierSize n quality = (n : Int) * quality := by
  obtain ⟨q, rfl⟩ := Int.eq_ofNat_of_zero_le (by omega : (0 : Int) ≤ quality)
  have hN1 : n * q < 2147483648 := by exact_mod_cast hN
  have hq1 : 1 ≤ q := by exact_mod_cast hq
  have hqn : q ≤ n * q := Nat.le_mul_of_pos_left q hn
  have e1 : ((q : Int) % 18446744073709551616).toNat = q := by omega
  unfold bezierSize
  rw [e1, Nat.mod_eq_of_lt (by omega), toInt_small _ hN1]
  push_cast
  rfl

theorem updateBezierLoop_spec {α : Type} [Field α] (hypot : α → α → α)
    (sample : List (vertex α)) (hs : sample ≠ []) (size : Int) :
    ∀ (m : Nat) (i : Int) (acc : List (vertex α)), (size - i).toNat = m →
      ∃ out, updateBezierLoop hypot sample size i acc = some out ∧
        out.length = acc.length + m ∧
        (∀ j : Nat, j < acc.length → out[j]? = acc[j]?) ∧
        (∀ j : Nat, j < m → ∃ v, out[acc.length + j]? = some v ∧
          bezier sample (((i + (j : Int) : Int) : α) / ((size - 1 : Int) : α)) =
            some v.position ∧
          v.color = (1, 0, 0, 0)) := by
  intro m
  induction m with
  | zero =>
    intro i acc hm
    have hge : ¬ i < size := by omega
    refine ⟨acc, ?_, rfl, fun _ _ => rfl, fun j hj => absurd hj (Nat.not_lt_zero j)⟩
    rw [updateBezierLoop, if_neg hge]
  | succ m ih =>
    intro i acc hm
    have hlt : i < size := by omega
    obtain ⟨c, hc⟩ : ∃ c, bezier sample ((i : α) / ((size - 1 : Int) : α)) = some c :=
      ⟨_, bezier_closed sample _ hs⟩
    rw [updateBezierLoop, if_pos hlt, hc]
    simp only []
    generalize (match acc.getLast? with
      | some last =>
        hypot (c.x - last.position.x) (c.y - last.position.y) + last.dist
      | none => 0) = dist_b
    obtain ⟨out, h1, h2, h3, h4⟩ := ih (i + 1) (acc ++ [⟨c, (1, 0, 0, 0), dist_b⟩]) (by omega)
    refine ⟨out, h1, ?_, ?_, ?_⟩
    · rw [h2, List.length_append, List.length_singleton]; omega
    · intro j hj
      rw [h3 j (by rw [List.length_append]; omega), List.getElem?_append_left hj]
    · intro j hj
      cases j with
      | zero =>
        refine ⟨⟨c, (1, 0, 0, 0), dist_b⟩, ?_, ?_, rfl⟩
        · rw [Nat.add_zero, h3 acc.length (by simp), List.getElem?_append_right (le_refl _)]
          simp
        · simpa using hc
      | succ j =>
        obtain ⟨v, hv1, hv2, hv3⟩ := h4 j (by omega)
        refine ⟨v, ?_, ?_, hv3⟩
        · rw [← hv1, List.length_append, List.length_singleton]
          congr 1
          omega
        · rw [← hv2]
          congr 3
          push_cast
          ring

theorem updateBezierVector_single {α : Type} [Field α] (hypot : α → α → α)
    (v : vertex α) (s_bezier : List (vertex α)) :
    bezierSize ([v] : List (vertex α)).length 1 - 1 = 0 ∧
    updateBezierVector hypot [v] s_bezier 1 = some [⟨v.position, (1, 0, 0, 0), 0⟩] := by
  have hsz : bezierSize ([v] : List (vertex α)).length 1 = 1 := by
    rw [bezierSize_eq _ _ (by simp) (le_refl _) (by simp)]
    simp
  refine ⟨by rw [hsz]; rfl, ?_⟩
  unfold updateBezierVector
  simp only [hsz, List.drop_length]
  rw [updateBezierLoop, if_pos (by decide), bezier_single]
  simp only [List.getLast?_nil, List.nil_append]
  rw [updateBezierLoop, if_neg (by decide)]

/-- Counterexample to C24 as stated: for a single control vertex and `quality = 1` the
vector has `N = 1` vertex, so the divisor `size - 1` of the parameter is 0 and the only
parameter is `0 / 0`; the vertex produced is nevertheless the control point. -/
theorem curve_sampling_counterexample :
    ([⟨⟨3, 7⟩, (0, 0, 0, 0), 0⟩] : List (vertex ℝ)) ≠ [] ∧
    bezierSize ([⟨⟨3, 7⟩, (0, 0, 0, 0), 0⟩] : List (vertex ℝ)).length 1 - 1 = 0 ∧
    ((bezierSize ([⟨⟨3, 7⟩, (0, 0, 0, 0), 0⟩] : List (vertex ℝ)).length 1 - 1 : Int) : ℝ) = 0 ∧
    updateBezierVector (fun a b => Real.sqrt (a * a + b * b))
      ([⟨⟨3, 7⟩, (0, 0, 0, 0), 0⟩] : List (vertex ℝ)) [] 1 =
      some [⟨⟨3, 7⟩, (1, 0, 0, 0), 0⟩] := by
  obtain ⟨h1, h2⟩ := updateBezierVector_single (fun a b => Real.sqrt (a * a + b * b))
    (⟨⟨3, 7⟩, (0, 0, 0, 0), 0⟩ : vertex ℝ) []
  refine ⟨List.cons_ne_nil _ _, h1, ?_, h2⟩
  rw [h1]
  simp

/-- C24, as amended: for a non-empty list of control vertices and `quality ≥ 1` such
that `N = sample.size() * quality` satisfies `2 ≤ N < 2^31`, `updateBezierVector`
replaces the content of `s_bezier` by exactly `N` vertices whose `i`-th position is
`bezier(sample, i / (N - 1))`; the divisor `N - 1` is not 0, the parameter is 0 at
`i = 0` and 1 at `i = N - 1`, and the polyline starts at the first control point and
ends at the last. For one control vertex and `quality = 1` (`N = 1`, divisor 0) the
result is the single vertex at that control point. -/
theorem curve_sampling {α : Type} [LinearOrderedField α] (hypot : α → α → α)
    (sample s_bezier : List (vertex α)) (quality : Int)
    (hs : sample ≠ []) (hq : 1 ≤ quality)
    (h2 : 2 ≤ (sample.length : Int) * quality)
    (hN : (sample.length : Int) * quality < 2147483648) :
    bezierSize sample.length quality = (sample.length : Int) * quality ∧
    ((((sample.length : Int) * quality - 1 : Int) : α) ≠ 0) ∧
    (((0 : Int) : α) / (((sample.length : Int) * quality - 1 : Int) : α) = 0) ∧
    ((((sample.length : Int) * quality - 1 : Int) : α) /
      (((sample.length : Int) * quality - 1 : Int) : α) = 1) ∧
    (∃ out, updateBezierVector hypot sample s_bezier quality = some out ∧
      (out.length : Int) = (sample.length : Int) * quality ∧
      (∀ i : Nat, (i : Int) < (sample.length : Int) * quality →
        ∃ v, out[i]? = some v ∧
          bezier sample (((i : Int) : α) /
            (((sample.length : Int) * quality - 1 : Int) : α)) = some v.position) ∧
      (out.map vertex.position).head? = (sample.map vertex.position).head? ∧
      (out.map vertex.position).getLast? = (sample.map vertex.position).getLast?) ∧
    (∀ (v : vertex α) (old : List (vertex α)),
      bezierSize ([v] : List (vertex α)).length 1 - 1 = 0 ∧
      updateBezierVector hypot [v] old 1 = some [⟨v.position, (1, 0, 0, 0), 0⟩]) := by
  have hn : 0 < sample.length := List.length_pos.mpr hs
  have hsz := bezierSize_eq sample.length quality hn hq hN
  generalize hNdef : (sample.length : Int) * quality = N at *
  have hne : ((N - 1 : Int) : α) ≠ 0 := by
    intro h0
    have : (N - 1 : Int) = 0 := by exact_mod_cast h0
    omega
  refine ⟨hsz, hne, by simp, div_self hne, ?_, updateBezierVector_single hypot⟩
  obtain ⟨out, h1, h3, _, h4⟩ :=
    updateBezierLoop_spec hypot sample hs N N.toNat 0 [] (by simp)
  have hlen : (out.length : Int) = N := by
    rw [h3]; simp; omega
  have hget : ∀ i : Nat, (i : Int) < N → ∃ v, out[i]? = some v ∧
      bezier sample (((i : Int) : α) / ((N - 1 : Int) : α)) = some v.position := by
    intro i hi
    obtain ⟨v, hv1, hv2, _⟩ := h4 i (by omega)
    refine ⟨v, by simpa using hv1, ?_⟩
    rw [← hv2]
    simp
  refine ⟨out, ?_, hlen, hget, ?_, ?_⟩
  · unfold updateBezierVector
    simp only [hsz, List.drop_length]
    exact h1
  · obtain ⟨v, hv1, hv2⟩ := hget 0 (by simp; omega)
    have hv3 : bezier sample 0 = some v.position := by simpa using hv2
    rw [← bezier_zero sample hs, hv3, List.head?_map, List.head?_eq_getElem?, hv1]
    rfl
  · obtain ⟨v, hv1, hv2⟩ := hget (N - 1).toNat (by omega)
    have e : (((N - 1).toNat : Nat) : Int) = N - 1 := by omega
    rw [e, div_self hne] at hv2
    rw [← bezier_one sample hs, hv2, List.getLast?_eq_getElem?, List.length_map,
      List.getElem?_map]
    have e2 : out.length - 1 = (N - 1).toNat := by omega
    rw [e2, hv1]
    rfl

/-- A concrete sampling for C24: the control points `(0, 0)` and `(1, 2)` with
`quality = 2` give `N = 4` vertices from the first control point to the last. -/
theorem curve_sampling_witness :
    ([⟨⟨0, 0⟩, (0, 0, 0, 0), 0⟩, ⟨⟨1, 2⟩, (0, 0, 0, 0), 0⟩] : List (vertex ℝ)) ≠ [] ∧
    (1 : Int) ≤ 2 ∧
    2 ≤ (([⟨⟨0, 0⟩, (0, 0, 0, 0), 0⟩, ⟨⟨1, 2⟩, (0, 0, 0, 0), 0⟩] :
      List (vertex ℝ)).length : Int) * 2 ∧
    (([⟨⟨0, 0⟩, (0, 0, 0, 0), 0⟩, ⟨⟨1, 2⟩, (0, 0, 0, 0), 0⟩] :
      List (vertex ℝ)).length : Int) * 2 < 2147483648 ∧
    ∃ out, updateBezierVector (fun a b => Real.sqrt (a * a + b * b))
        ([⟨⟨0, 0⟩, (0, 0, 0, 0), 0⟩, ⟨⟨1, 2⟩, (0, 0, 0, 0), 0⟩] : List (vertex ℝ))
        [⟨⟨9, 9⟩, (0, 0, 0, 0), 0⟩] 2 = some out ∧
      (out.length : Int) = 4 ∧
      (out.map vertex.position).head? = some ⟨0, 0⟩ ∧
      (out.map vertex.position).getLast? = some ⟨1, 2⟩ := by
  have a : ([⟨⟨0, 0⟩, (0, 0, 0, 0), 0⟩, ⟨⟨1, 2⟩, (0, 0, 0, 0), 0⟩] :
      List (vertex ℝ)) ≠ [] := List.cons_ne_nil _ _
  have b : (1 : Int) ≤ 2 := by decide
  have c : 2 ≤ (([⟨⟨0, 0⟩, (0, 0, 0, 0), 0⟩, ⟨⟨1, 2⟩, (0, 0, 0, 0), 0⟩] :
      List (vertex ℝ)).length : Int) * 2 := by simp
  have d : (([⟨⟨0, 0⟩, (0, 0, 0, 0), 0⟩, ⟨⟨1, 2⟩, (0, 0, 0, 0), 0⟩] :
      List (vertex ℝ)).length : Int) * 2 < 2147483648 := by simp
  obtain ⟨out, h1, h2, _, h4, h5⟩ := (curve_sampling (fun a b => Real.sqrt (a * a + b * b))
    _ [⟨⟨9, 9⟩, (0, 0, 0, 0), 0⟩] 2 a b c d).2.2.2.2.1
  exact ⟨a, b, c, d, out, h1, by simpa using h2, by simpa using h4, by simpa using h5⟩

end Practice3
